import Mathlib

/-!
# bvhtree: a bounding volume hierarchy over a triangle soup

A shallow embedding of the Go package `bvhtree` (files `Vector3.go`, `BoundingBox.go`,
`Node.go`, `BVH.go`, `cmd/demo1/demo1.go`) and theorems about it.

Modelling conventions.

* `float64` scalars are exact rationals (`ℚ`): vertex coordinates, extents, ray origin and
  direction.  The reciprocal direction and the slab parameters computed from it can be
  infinite or not-a-number, so they live in `F64`, the rationals extended by `+Inf`, `-Inf`
  and `NaN` with the IEEE rules for those values.  There is no negative zero: `1.0 / 0` is
  `+Inf`.  Rounding is not modelled in these definitions: they evaluate the code in exact
  arithmetic.
* The ray query has a second embedding, `IntersectRay64` with `IntersectNodeBox64` and
  `IntersectRayTriangle64`, in which every arithmetic operation is rounded to the nearest
  `float64` (`round64`: IEEE 754 binary64, ties to even, gradual underflow, overflow to an
  infinity), each operation on its own, as the Go compiler emits them where it does not fuse
  a multiplication with an addition.  It shows where the rounded evaluation leaves the
  exact one.
* `[]float64` is `List ℚ`; Go `int` is `Int`, without overflow.  A read outside the slice
  (where Go panics) yields `0`, a write outside the slice leaves it unchanged.
* `*Node` is the inductive type `Node`: `Node.nil` is the nil pointer, `Node.ref` a pointer to
  a struct that owns its two children.  A `*Node` held in the worklist `nodesToSplit` is the
  path of child selectors (`false` for `Node0`, `true` for `Node1`) leading from `rootNode`
  to that node.
* A slice used as a stack (`nodesToSplit`, `nodesToIntersect`) is a list whose head is the
  last element of the slice.
* The two `for len(stack) > 0` loops take a bound on the number of iterations
  (`splitLoop`, `traverse`); `splitLoop_LoopInv` and `traverse_eq` show that the bounds used
  by `NewBVHFromVertexArray` and `IntersectRay` let the loops run until the stack is empty.
* `sort.Slice` of the Go library, called on three elements, is the insertion sort that the
  library runs on slices of fewer than 12 elements (`sortSlice`).
* The vectors `a`, `b`, `c` of `IntersectRay` are allocated once and every result record
  stores the same three pointers; `IntersectRay` returns the records as a caller reads them
  after the call.
-/

namespace bvhtree

/-! ## Scalars -/

/-- The constant `EPSILON = 1e-6` of `BVH.go`. -/
def EPSILON : ℚ := 1 / 1000000

/-- The constant `math.MaxFloat64`, that is `(2 - 2^(-52)) * 2^1023`. -/
def MaxFloat64 : ℚ := 2 ^ 1024 - 2 ^ 971

/-- A `float64` that may be infinite or not-a-number. -/
inductive F64 where
  | fin (q : ℚ) : F64
  | pinf : F64
  | ninf : F64
  | nan : F64
deriving DecidableEq

namespace F64

/-- IEEE product: `0 * Inf` is `NaN`, otherwise the sign rule. -/
def mul : F64 → F64 → F64
  | fin a, fin b => fin (a * b)
  | fin a, pinf => if 0 < a then pinf else if a < 0 then ninf else nan
  | fin a, ninf => if 0 < a then ninf else if a < 0 then pinf else nan
  | pinf, fin b => if 0 < b then pinf else if b < 0 then ninf else nan
  | ninf, fin b => if 0 < b then ninf else if b < 0 then pinf else nan
  | pinf, pinf => pinf
  | pinf, ninf => ninf
  | ninf, pinf => ninf
  | ninf, ninf => pinf
  | nan, _ => nan
  | _, nan => nan

/-- IEEE quotient of finite values: `x / 0` is `+Inf`, `-Inf` or `NaN` by the sign of `x`. -/
def divRat (a b : ℚ) : F64 :=
  if b = 0 then (if 0 < a then pinf else if a < 0 then ninf else nan) else fin (a / b)

/-- The comparison `x < y`; false when either side is `NaN`. -/
def lt : F64 → F64 → Bool
  | fin a, fin b => decide (a < b)
  | fin _, pinf => true
  | ninf, fin _ => true
  | ninf, pinf => true
  | _, _ => false

/-- The comparison `x > y`. -/
def gt (x y : F64) : Bool := lt y x

/-- The comparison `x >= y`; false when either side is `NaN`. -/
def ge : F64 → F64 → Bool
  | nan, _ => false
  | _, nan => false
  | x, y => !(lt x y)

/-- `math.IsInf(f, 1)` for `sign = 1` and `math.IsInf(f, -1)` for `sign = -1`. -/
def IsInf (f : F64) (sign : Int) : Bool :=
  match f with
  | pinf => decide (0 ≤ sign)
  | ninf => decide (sign ≤ 0)
  | _ => false

end F64

/-! ## Slices -/

/-- The read `a[i]`. -/
def rd (a : List ℚ) (i : Int) : ℚ :=
  if 0 ≤ i then a.getD i.toNat 0 else 0

/-- The write `a[i] = v`. -/
def wr (a : List ℚ) (i : Int) (v : ℚ) : List ℚ :=
  if 0 ≤ i then a.set i.toNat v else a

/-- The values `lo, lo+1, ..., hi-1` taken by `for i := lo; i < hi; i++`. -/
def intRange (lo hi : Int) : List Int :=
  (List.range (hi - lo).toNat).map (fun (k : Nat) => lo + (k : Int))

/-- The slice expression `a[lo:hi]`. -/
def slice (a : List ℚ) (lo hi : Int) : List ℚ :=
  (a.take hi.toNat).drop lo.toNat

/-- The builtin `copy(dst[off:], src)`, returning the whole of `dst` afterwards. -/
def copyInto (dst : List ℚ) (off : Int) (src : List ℚ) : List ℚ :=
  let n := min (dst.length - off.toNat) src.length
  dst.take off.toNat ++ src.take n ++ dst.drop (off.toNat + n)

/-- The conversion `int(f)` of a float to an integer: truncation towards zero. -/
def toInt (f : ℚ) : Int :=
  if 0 ≤ f then ⌊f⌋ else ⌈f⌉

/-! ## Vector3.go -/

/-- The struct `Vector3`. -/
structure Vector3 where
  X : ℚ
  Y : ℚ
  Z : ℚ
deriving DecidableEq

/-- A `Vector3` whose components may be infinite: the reciprocal ray direction. -/
structure Vector3F where
  X : F64
  Y : F64
  Z : F64
deriving DecidableEq

namespace Vector3

/-- The method `SetFromArray`: the vector read from `array` at `firstElementPos`. -/
def SetFromArray (array : List ℚ) (firstElementPos : Int) : Vector3 :=
  ⟨rd array firstElementPos, rd array (firstElementPos + 1), rd array (firstElementPos + 2)⟩

/-- The method `SubVectors`: the receiver becomes `a - b`. -/
def SubVectors (a b : Vector3) : Vector3 :=
  ⟨a.X - b.X, a.Y - b.Y, a.Z - b.Z⟩

/-- The method `Dot`. -/
def Dot (v src : Vector3) : ℚ :=
  v.X * src.X + v.Y * src.Y + v.Z * src.Z

/-- The method `Cross`: the receiver `v` becomes `v × src`. -/
def Cross (v src : Vector3) : Vector3 :=
  let x := v.X
  let y := v.Y
  let z := v.Z
  ⟨y * src.Z - z * src.Y, z * src.X - x * src.Z, x * src.Y - y * src.X⟩

/-- The method `CrossVectors`: the receiver becomes `a × b`. -/
def CrossVectors (a b : Vector3) : Vector3 :=
  ⟨a.Y * b.Z - a.Z * b.Y, a.Z * b.X - a.X * b.Z, a.X * b.Y - a.Y * b.X⟩

end Vector3

/-! ## BoundingBox.go -/

/-- The function `SetBox`. -/
def SetBox (bboxArray : List ℚ) (pos : Int) (triangleID : Int)
    (minX minY minZ maxX maxY maxZ : ℚ) : List ℚ :=
  let b0 := wr bboxArray (pos * 7) (triangleID : ℚ)
  let b1 := wr b0 (pos * 7 + 1) minX
  let b2 := wr b1 (pos * 7 + 2) minY
  let b3 := wr b2 (pos * 7 + 3) minZ
  let b4 := wr b3 (pos * 7 + 4) maxX
  let b5 := wr b4 (pos * 7 + 5) maxY
  wr b5 (pos * 7 + 6) maxZ

/-- The function `CopyBox`, returning `destArray` afterwards. -/
def CopyBox (sourceArray : List ℚ) (sourcePos : Int) (destArray : List ℚ) (destPos : Int) :
    List ℚ :=
  let d0 := wr destArray (destPos * 7) (rd sourceArray (sourcePos * 7))
  let d1 := wr d0 (destPos * 7 + 1) (rd sourceArray (sourcePos * 7 + 1))
  let d2 := wr d1 (destPos * 7 + 2) (rd sourceArray (sourcePos * 7 + 2))
  let d3 := wr d2 (destPos * 7 + 3) (rd sourceArray (sourcePos * 7 + 3))
  let d4 := wr d3 (destPos * 7 + 4) (rd sourceArray (sourcePos * 7 + 4))
  let d5 := wr d4 (destPos * 7 + 5) (rd sourceArray (sourcePos * 7 + 5))
  wr d5 (destPos * 7 + 6) (rd sourceArray (sourcePos * 7 + 6))

/-- The struct `BoundingBox`. -/
structure BoundingBox where
  TriangleID : Int
  MinX : ℚ
  MinY : ℚ
  MinZ : ℚ
  MaxX : ℚ
  MaxY : ℚ
  MaxZ : ℚ
deriving DecidableEq

/-- The function `GetBox`, returning the record written to `outputBox`. -/
def GetBox (bboxArray : List ℚ) (pos : Int) : BoundingBox :=
  { TriangleID := toInt (rd bboxArray (pos * 7))
    MinX := rd bboxArray (pos * 7 + 1)
    MinY := rd bboxArray (pos * 7 + 2)
    MinZ := rd bboxArray (pos * 7 + 3)
    MaxX := rd bboxArray (pos * 7 + 4)
    MaxY := rd bboxArray (pos * 7 + 5)
    MaxZ := rd bboxArray (pos * 7 + 6) }

/-! ## Node.go -/

/-- A `*Node`: nil, or a pointer to a node struct owning its children. -/
inductive Node where
  | nil : Node
  | ref (ExtentsMin ExtentsMax : Vector3) (StartIndex EndIndex Level : Int)
      (Node0 Node1 : Node) : Node
deriving DecidableEq

namespace Node

/-- Field `ExtentsMin`. -/
def ExtentsMin : Node → Vector3
  | nil => ⟨0, 0, 0⟩
  | ref mn _ _ _ _ _ _ => mn

/-- Field `ExtentsMax`. -/
def ExtentsMax : Node → Vector3
  | nil => ⟨0, 0, 0⟩
  | ref _ mx _ _ _ _ _ => mx

/-- Field `StartIndex`. -/
def StartIndex : Node → Int
  | nil => 0
  | ref _ _ s _ _ _ _ => s

/-- Field `EndIndex`. -/
def EndIndex : Node → Int
  | nil => 0
  | ref _ _ _ e _ _ _ => e

/-- Field `Level`. -/
def Level : Node → Int
  | nil => 0
  | ref _ _ _ _ l _ _ => l

/-- Field `Node0`. -/
def Node0 : Node → Node
  | nil => nil
  | ref _ _ _ _ _ n0 _ => n0

/-- Field `Node1`. -/
def Node1 : Node → Node
  | nil => nil
  | ref _ _ _ _ _ _ n1 => n1

/-- The test `node != nil`. -/
def isRef : Node → Bool
  | nil => false
  | ref _ _ _ _ _ _ _ => true

/-- The method `ElementCount`. -/
def ElementCount (node : Node) : Int :=
  node.EndIndex - node.StartIndex

/-- The method `CenterX`. -/
def CenterX (node : Node) : ℚ :=
  (node.ExtentsMin.X + node.ExtentsMax.X) * (1 / 2)

/-- The method `CenterY`. -/
def CenterY (node : Node) : ℚ :=
  (node.ExtentsMin.Y + node.ExtentsMax.Y) * (1 / 2)

/-- The method `CenterZ`. -/
def CenterZ (node : Node) : ℚ :=
  (node.ExtentsMin.Z + node.ExtentsMax.Z) * (1 / 2)

/-- The node reached from `n` by following the child selectors of a path. -/
def get : Node → List Bool → Node
  | n, [] => n
  | nil, _ :: _ => nil
  | ref _ _ _ _ _ n0 n1, b :: p => if b then get n1 p else get n0 p

/-- The tree after the node at the end of the path has been overwritten by `f` of itself. -/
def modify (f : Node → Node) : Node → List Bool → Node
  | n, [] => f n
  | nil, _ :: _ => nil
  | ref mn mx s e l n0 n1, b :: p =>
    if b then ref mn mx s e l n0 (modify f n1 p) else ref mn mx s e l (modify f n0 p) n1

end Node

/-- The constructor `NewBVHNode`. -/
def NewBVHNode (extentsMin extentsMax : Vector3) (startIndex endIndex level : Int) : Node :=
  Node.ref extentsMin extentsMax startIndex endIndex level Node.nil Node.nil

/-! ## BVH.go: construction -/

/-- The type `Triangle`: three points. -/
structure Triangle where
  P0 : Vector3
  P1 : Vector3
  P2 : Vector3
deriving DecidableEq

/-- The function `NewTriangle`. -/
def NewTriangle (f0 f1 f2 f3 f4 f5 f6 f7 f8 : ℚ) : Triangle :=
  ⟨⟨f0, f1, f2⟩, ⟨f3, f4, f5⟩, ⟨f6, f7, f8⟩⟩

/-- The struct `BVH`. -/
structure BVH where
  vertexArray : List ℚ
  maxTrianglesPerNode : Int
  bboxArray : List ℚ
  bboxHelper : List ℚ
  rootNode : Node
  nodesToSplit : List (List Bool)
deriving DecidableEq

/-- The method `CalcBoundingBoxes`. -/
def CalcBoundingBoxes (vertexArray : List ℚ) : List ℚ :=
  let triangleCount : Int := ((vertexArray.length / 9 : Nat) : Int)
  let bboxArray : List ℚ := List.replicate (triangleCount * 7).toNat 0
  (intRange 0 triangleCount).foldl (fun bboxArray i =>
    let p0x := rd vertexArray (i * 9)
    let p0y := rd vertexArray (i * 9 + 1)
    let p0z := rd vertexArray (i * 9 + 2)
    let p1x := rd vertexArray (i * 9 + 3)
    let p1y := rd vertexArray (i * 9 + 4)
    let p1z := rd vertexArray (i * 9 + 5)
    let p2x := rd vertexArray (i * 9 + 6)
    let p2y := rd vertexArray (i * 9 + 7)
    let p2z := rd vertexArray (i * 9 + 8)
    let minX := min (min p0x p1x) p2x
    let minY := min (min p0y p1y) p2y
    let minZ := min (min p0z p1z) p2z
    let maxX := max (max p0x p1x) p2x
    let maxY := max (max p0y p1y) p2y
    let maxZ := max (max p0z p1z) p2z
    SetBox bboxArray i i minX minY minZ maxX maxY maxZ) bboxArray

/-- The six running bounds of the loop of `CalcExtents`. -/
structure Bounds where
  minX : ℚ
  minY : ℚ
  minZ : ℚ
  maxX : ℚ
  maxY : ℚ
  maxZ : ℚ
deriving DecidableEq

/-- One iteration of the loop of `CalcExtents`. -/
def CalcExtents.step (bboxArray : List ℚ) (acc : Bounds) (i : Int) : Bounds :=
  { minX := min (rd bboxArray (i * 7 + 1)) acc.minX
    minY := min (rd bboxArray (i * 7 + 2)) acc.minY
    minZ := min (rd bboxArray (i * 7 + 3)) acc.minZ
    maxX := max (rd bboxArray (i * 7 + 4)) acc.maxX
    maxY := max (rd bboxArray (i * 7 + 5)) acc.maxY
    maxZ := max (rd bboxArray (i * 7 + 6)) acc.maxZ }

/-- The method `CalcExtents`; the pair is the array `[2]Point`. -/
def CalcExtents (bboxArray : List ℚ) (startIndex endIndex : Int) (expandBy : ℚ) :
    Vector3 × Vector3 :=
  if startIndex ≥ endIndex then (⟨0, 0, 0⟩, ⟨0, 0, 0⟩)
  else
    let acc := (intRange startIndex endIndex).foldl (CalcExtents.step bboxArray)
      ⟨MaxFloat64, MaxFloat64, MaxFloat64, -MaxFloat64, -MaxFloat64, -MaxFloat64⟩
    (⟨acc.minX - expandBy, acc.minY - expandBy, acc.minZ - expandBy⟩,
     ⟨acc.maxX + expandBy, acc.maxY + expandBy, acc.maxZ + expandBy⟩)

/-- The array `extentCenters` of `SplitNode`, indexed by axis. -/
def extentCenters (node : Node) (j : Nat) : ℚ :=
  match j with
  | 0 => node.CenterX
  | 1 => node.CenterY
  | _ => node.CenterZ

/-- The array `extentsLength` of `SplitNode`, indexed by axis. -/
def extentsLength (node : Node) (j : Nat) : ℚ :=
  match j with
  | 0 => node.ExtentsMax.X - node.ExtentsMin.X
  | 1 => node.ExtentsMax.Y - node.ExtentsMin.Y
  | _ => node.ExtentsMax.Z - node.ExtentsMin.Z

/-- The array `objectCenter` of `SplitNode` for record `i`, indexed by axis. -/
def objectCenter (bboxArray : List ℚ) (i : Int) (j : Nat) : ℚ :=
  match j with
  | 0 => (rd bboxArray (i * 7 + 1) + rd bboxArray (i * 7 + 4)) * (1 / 2)
  | 1 => (rd bboxArray (i * 7 + 2) + rd bboxArray (i * 7 + 5)) * (1 / 2)
  | _ => (rd bboxArray (i * 7 + 3) + rd bboxArray (i * 7 + 6)) * (1 / 2)

/-- The slice `leftNode[j]` after the partition loop of `SplitNode`: the slots of the range,
in order, whose centre on axis `j` is strictly below the centre of the node. -/
def leftNode (bboxArray : List ℚ) (node : Node) (j : Nat) : List Int :=
  (intRange node.StartIndex node.EndIndex).filter
    (fun i => decide (objectCenter bboxArray i j < extentCenters node j))

/-- The slice `rightNode[j]` after the partition loop of `SplitNode`: the other slots. -/
def rightNode (bboxArray : List ℚ) (node : Node) (j : Nat) : List Int :=
  (intRange node.StartIndex node.EndIndex).filter
    (fun i => !decide (objectCenter bboxArray i j < extentCenters node j))

/-- The array `splitFailed` of `SplitNode`, indexed by axis. -/
def splitFailed (bboxArray : List ℚ) (node : Node) (j : Nat) : Bool :=
  (leftNode bboxArray node j).length == 0 || (rightNode bboxArray node j).length == 0

/-- One insertion of the insertion sort that `sort.Slice` runs on a short slice: `acc` is the
sorted part, last element first, and `x` moves towards the front while `less x p` holds. -/
def sortInsert (less : Nat → Nat → Bool) (x : Nat) : List Nat → List Nat
  | [] => [x]
  | p :: rest => if less x p then p :: sortInsert less x rest else x :: p :: rest

/-- The library call `sort.Slice` on a slice of fewer than 12 elements: insertion sort, where
`less x p` compares the element `x` with the element `p` before it. -/
def sortSlice (less : Nat → Nat → Bool) (xs : List Nat) : List Nat :=
  (xs.foldl (fun acc x => sortInsert less x acc) []).reverse

/-- The slice `splitOrder` of `SplitNode` after sorting. -/
def splitOrder (node : Node) : List Nat :=
  sortSlice (fun x p => decide (extentsLength node p > extentsLength node x)) [0, 1, 2]

/-- The axis picked by the candidate loop of `SplitNode`, if any. -/
def chosenAxis (bboxArray : List ℚ) (node : Node) : Option Nat :=
  (splitOrder node).find? (fun candidateIndex => !splitFailed bboxArray node candidateIndex)

/-- The loop of `SplitNode` that copies the records named by `elements` into `bboxHelper`
from slot `helperPos` on. -/
def copyElements (bboxArray : List ℚ) (elements : List Int) (bboxHelper : List ℚ)
    (helperPos : Int) : List ℚ :=
  (elements.foldl (fun (st : List ℚ × Int) currElement =>
    (CopyBox bboxArray currElement st.1 st.2, st.2 + 1)) (bboxHelper, helperPos)).1

/-- The method `SplitNode`, called on the node at path `p` below the root. -/
def SplitNode (bvh : BVH) (p : List Bool) : BVH :=
  let node := bvh.rootNode.get p
  if node.ElementCount ≤ bvh.maxTrianglesPerNode ∨ node.ElementCount = 0 then bvh
  else
    let startIndex := node.StartIndex
    let endIndex := node.EndIndex
    if splitFailed bvh.bboxArray node 0 && splitFailed bvh.bboxArray node 1
        && splitFailed bvh.bboxArray node 2 then bvh
    else
      let leftElements : List Int :=
        match chosenAxis bvh.bboxArray node with
        | some c => leftNode bvh.bboxArray node c
        | none => []
      let rightElements : List Int :=
        match chosenAxis bvh.bboxArray node with
        | some c => rightNode bvh.bboxArray node c
        | none => []
      let node0Start := startIndex
      let node0End := node0Start + (leftElements.length : Int)
      let node1Start := node0End
      let node1End := endIndex
      let concatenatedElements := leftElements ++ rightElements
      let bboxHelper := copyElements bvh.bboxArray concatenatedElements bvh.bboxHelper
        node.StartIndex
      let subArr := slice bboxHelper (node.StartIndex * 7) (node.EndIndex * 7)
      let bboxArray := copyInto bvh.bboxArray (node.StartIndex * 7) subArr
      let node0Extents := CalcExtents bboxArray node0Start node0End EPSILON
      let node1Extents := CalcExtents bboxArray node1Start node1End EPSILON
      let node0 := NewBVHNode node0Extents.1 node0Extents.2 node0Start node0End (node.Level + 1)
      let node1 := NewBVHNode node1Extents.1 node1Extents.2 node1Start node1End (node.Level + 1)
      { bvh with
        bboxArray := bboxArray
        bboxHelper := bboxHelper
        rootNode := bvh.rootNode.modify (fun n =>
          Node.ref n.ExtentsMin n.ExtentsMax (-1) (-1) n.Level node0 node1) p
        nodesToSplit := (p ++ [true]) :: (p ++ [false]) :: bvh.nodesToSplit }

/-- The worklist loop of `NewBVHFromVertexArray`, run for at most `fuel` iterations. -/
def splitLoop : Nat → BVH → BVH
  | 0, bvh => bvh
  | fuel + 1, bvh =>
    match bvh.nodesToSplit with
    | [] => bvh
    | node :: rest => splitLoop fuel (SplitNode { bvh with nodesToSplit := rest } node)

/-- The function `NewBVHFromVertexArray`.  The worklist loop is given `2 * triangleCount + 1`
iterations, which is enough for it to run until the worklist is empty. -/
def NewBVHFromVertexArray (vertexArray : List ℚ) (maxTrianglesPerNode : Int) : BVH :=
  let bboxArray := CalcBoundingBoxes vertexArray
  let bboxHelper := bboxArray
  let triangleCount : Int := ((vertexArray.length / 9 : Nat) : Int)
  let extents := CalcExtents bboxArray 0 triangleCount EPSILON
  let rootNode := NewBVHNode extents.1 extents.2 0 triangleCount 0
  splitLoop (2 * (vertexArray.length / 9) + 1)
    { vertexArray := vertexArray
      maxTrianglesPerNode := maxTrianglesPerNode
      bboxArray := bboxArray
      bboxHelper := bboxHelper
      rootNode := rootNode
      nodesToSplit := [[]] }

/-- The function `NewBVH`. -/
def NewBVH (triangles : List Triangle) (maxTrianglesPerNode : Int) : BVH :=
  let vertexArray : List ℚ := triangles.flatMap (fun tri =>
    [tri.P0.X, tri.P0.Y, tri.P0.Z, tri.P1.X, tri.P1.Y, tri.P1.Z, tri.P2.X, tri.P2.Y, tri.P2.Z])
  NewBVHFromVertexArray vertexArray maxTrianglesPerNode

/-- The method `VertexArray`. -/
def BVH.VertexArray (bvh : BVH) : List ℚ := bvh.vertexArray

/-! ## BVH.go: ray queries -/

/-- The struct `TValues`. -/
structure TValues where
  Min : F64
  Max : F64
deriving DecidableEq

/-- The function `CalcTValues`. -/
def CalcTValues (minVal maxVal rayOriginCoord : ℚ) (invdir : F64) : TValues :=
  if F64.ge invdir (F64.fin 0) then
    { Min := F64.mul (F64.fin (minVal - rayOriginCoord)) invdir
      Max := F64.mul (F64.fin (maxVal - rayOriginCoord)) invdir }
  else
    { Min := F64.mul (F64.fin (maxVal - rayOriginCoord)) invdir
      Max := F64.mul (F64.fin (minVal - rayOriginCoord)) invdir }

/-- The function `isNaN` of `BVH.go`, which tests for an infinity. -/
def isNaN (f : F64) : Bool :=
  F64.IsInf f 1 || F64.IsInf f (-1)

/-- The function `IntersectNodeBox`. -/
def IntersectNodeBox (rayOrigin : Vector3) (invRayDirection : Vector3F) (node : Node) : Bool :=
  let t := CalcTValues node.ExtentsMin.X node.ExtentsMax.X rayOrigin.X invRayDirection.X
  let ty := CalcTValues node.ExtentsMin.Y node.ExtentsMax.Y rayOrigin.Y invRayDirection.Y
  if F64.gt t.Min ty.Max || F64.gt ty.Min t.Max then false
  else
    let tMin := if F64.gt ty.Min t.Min || isNaN t.Min then ty.Min else t.Min
    let tMax := if F64.lt ty.Max t.Max || isNaN t.Max then ty.Max else t.Max
    let tz := CalcTValues node.ExtentsMin.Z node.ExtentsMax.Z rayOrigin.Z invRayDirection.Z
    if F64.gt tMin tz.Max || F64.gt tz.Min tMax then false
    else
      let tMax2 := if F64.lt tz.Max tMax || isNaN tMax then tz.Max else tMax
      if F64.lt tMax2 (F64.fin 0) then false else true

/-- The function `IntersectRayTriangle`; `none` is the nil result. -/
def IntersectRayTriangle (a b c rayOrigin rayDirection : Vector3) (backfaceCulling : Bool) :
    Option Vector3 :=
  let edge1 := Vector3.SubVectors b a
  let edge2 := Vector3.SubVectors c a
  let normal := Vector3.CrossVectors edge1 edge2
  let DdN := rayDirection.Dot normal
  if 0 < DdN ∧ backfaceCulling = true then none
  else if DdN = 0 then none
  else
    let sign : ℚ := if 0 < DdN then 1 else -1
    let DdN := if 0 < DdN then DdN else -DdN
    let diff := Vector3.SubVectors rayOrigin a
    let DdQxE2 := sign * rayDirection.Dot (Vector3.CrossVectors diff edge2)
    if DdQxE2 < 0 then none
    else
      let DdE1xQ := sign * rayDirection.Dot (Vector3.Cross edge1 diff)
      if DdE1xQ < 0 then none
      else if DdQxE2 + DdE1xQ > DdN then none
      else
        let QdN := -sign * diff.Dot normal
        if QdN < 0 then none
        else
          let t := QdN / DdN
          some ⟨rayDirection.X * t + rayOrigin.X, rayDirection.Y * t + rayOrigin.Y,
            rayDirection.Z * t + rayOrigin.Z⟩

/-- The struct `IntersectionResult`.  Its field `Triangle` holds the three pointers `a`, `b`,
`c` of `IntersectRay`; here it is the three vectors a caller reads through them. -/
structure IntersectionResult where
  Triangle : Triangle
  TriangleIndex : Int
  IntersectionPoint : Vector3
deriving DecidableEq

/-- The number of node structs of a tree. -/
def Node.size : Node → Nat
  | Node.nil => 0
  | Node.ref _ _ _ _ _ n0 n1 => 1 + Node.size n0 + Node.size n1

/-- The first loop of `IntersectRay`, run for at most `fuel` iterations: the stack
`nodesToIntersect` and the slice `trianglesInIntersectingNodes`. -/
def traverse (bboxArray : List ℚ) (rayOrigin : Vector3) (invRayDirection : Vector3F) :
    Nat → List Node → List Int → List Int
  | 0, _, trianglesInIntersectingNodes => trianglesInIntersectingNodes
  | _ + 1, [], trianglesInIntersectingNodes => trianglesInIntersectingNodes
  | fuel + 1, node :: rest, trianglesInIntersectingNodes =>
    if IntersectNodeBox rayOrigin invRayDirection node then
      let s0 := if node.Node0.isRef then node.Node0 :: rest else rest
      let s1 := if node.Node1.isRef then node.Node1 :: s0 else s0
      traverse bboxArray rayOrigin invRayDirection fuel s1
        (trianglesInIntersectingNodes ++
          (intRange node.StartIndex node.EndIndex).map (fun i => toInt (rd bboxArray (i * 7))))
    else
      traverse bboxArray rayOrigin invRayDirection fuel rest trianglesInIntersectingNodes

/-- The vectors `a`, `b`, `c` that `IntersectRay` allocates once and overwrites for every
candidate, and the hits found so far (index and point). -/
structure TestState where
  a : Vector3
  b : Vector3
  c : Vector3
  hits : List (Int × Vector3)

/-- One iteration of the second loop of `IntersectRay`. -/
def testCandidate (vertexArray : List ℚ) (rayOrigin rayDirection : Vector3)
    (backfaceCulling : Bool) (st : TestState) (triIndex : Int) : TestState :=
  let a := Vector3.SetFromArray vertexArray (triIndex * 9)
  let b := Vector3.SetFromArray vertexArray (triIndex * 9 + 3)
  let c := Vector3.SetFromArray vertexArray (triIndex * 9 + 6)
  match IntersectRayTriangle a b c rayOrigin rayDirection backfaceCulling with
  | some intersectionPoint =>
    { a := a, b := b, c := c, hits := st.hits ++ [(triIndex, intersectionPoint)] }
  | none => { a := a, b := b, c := c, hits := st.hits }

/-- The reciprocal direction computed by `IntersectRay`. -/
def invDirection (rayDirection : Vector3) : Vector3F :=
  ⟨F64.divRat 1 rayDirection.X, F64.divRat 1 rayDirection.Y, F64.divRat 1 rayDirection.Z⟩

/-- The slice `trianglesInIntersectingNodes` when the first loop of `IntersectRay` ends. -/
def candidates (bvh : BVH) (rayOrigin rayDirection : Vector3) : List Int :=
  traverse bvh.bboxArray rayOrigin (invDirection rayDirection) bvh.rootNode.size
    [bvh.rootNode] []

/-- The method `IntersectRay`, as the caller sees its result: every record points to the same
three vectors `a`, `b`, `c`, which hold what the last iteration wrote. -/
def IntersectRay (bvh : BVH) (rayOrigin rayDirection : Vector3) (backfaceCulling : Bool) :
    List IntersectionResult :=
  let st := (candidates bvh rayOrigin rayDirection).foldl
    (testCandidate bvh.vertexArray rayOrigin rayDirection backfaceCulling)
    { a := ⟨0, 0, 0⟩, b := ⟨0, 0, 0⟩, c := ⟨0, 0, 0⟩, hits := [] }
  st.hits.map (fun h =>
    { Triangle := ⟨st.a, st.b, st.c⟩, TriangleIndex := h.1, IntersectionPoint := h.2 })

/-! ## cmd/demo1 -/

/-- The two triangles of `demo1`. -/
def demo1Triangles : List Triangle :=
  [NewTriangle 0 0 0 1000 0 0 1000 1000 0, NewTriangle 0 0 0 2000 0 0 2000 1000 0]

/-- The query of `demo1`: the list `intersectionResult`. -/
def demo1 : List IntersectionResult :=
  IntersectRay (NewBVH demo1Triangles 7) ⟨1500, 3, 1000⟩ ⟨0, 0, -1⟩ true

/-! ## Vocabulary of the statements -/

/-- The point `a + b1 (b - a) + b2 (c - a)` of the plane of a triangle. -/
def baryPoint (a b c : Vector3) (b1 b2 : ℚ) : Vector3 :=
  ⟨a.X + b1 * (b.X - a.X) + b2 * (c.X - a.X), a.Y + b1 * (b.Y - a.Y) + b2 * (c.Y - a.Y),
    a.Z + b1 * (b.Z - a.Z) + b2 * (c.Z - a.Z)⟩

/-- The point `o + t d` of a ray. -/
def rayPoint (o d : Vector3) (t : ℚ) : Vector3 :=
  ⟨o.X + t * d.X, o.Y + t * d.Y, o.Z + t * d.Z⟩

/-- The point `P` lies in the triangle `a b c` and on the forward ray from `o` along `d`. -/
def InTriangleOnRay (a b c o d P : Vector3) : Prop :=
  ∃ b1 b2 t : ℚ, 0 ≤ b1 ∧ 0 ≤ b2 ∧ b1 + b2 ≤ 1 ∧ 0 ≤ t ∧
    P = baryPoint a b c b1 b2 ∧ P = rayPoint o d t

/-- The normal `(b - a) × (c - a)` of a triangle. -/
def triNormal (a b c : Vector3) : Vector3 :=
  Vector3.CrossVectors (Vector3.SubVectors b a) (Vector3.SubVectors c a)

/-- The scalar `d · ((o - a) × (c - a))`. -/
def triU (a c o d : Vector3) : ℚ :=
  d.Dot (Vector3.CrossVectors (Vector3.SubVectors o a) (Vector3.SubVectors c a))

/-- The scalar `d · ((b - a) × (o - a))`. -/
def triV (a b o d : Vector3) : ℚ :=
  d.Dot (Vector3.Cross (Vector3.SubVectors b a) (Vector3.SubVectors o a))

/-- The scalar `(o - a) · n` for the normal `n` of the triangle. -/
def triW (a b c o : Vector3) : ℚ :=
  (Vector3.SubVectors o a).Dot (triNormal a b c)

/-- The number of triangles of a vertex buffer, `len(vertexArray) / 9`. -/
def triangleCount (vertexArray : List ℚ) : Int :=
  ((vertexArray.length / 9 : Nat) : Int)

/-- The three vertices of triangle `i`: scalars `[9 i, 9 i + 9)` of the vertex buffer. -/
def triangleAt (vertexArray : List ℚ) (i : Int) : Triangle :=
  ⟨Vector3.SetFromArray vertexArray (i * 9), Vector3.SetFromArray vertexArray (i * 9 + 3),
    Vector3.SetFromArray vertexArray (i * 9 + 6)⟩

/-- The call of `IntersectRayTriangle` on triangle `i` of the vertex buffer. -/
def hitOf (vertexArray : List ℚ) (rayOrigin rayDirection : Vector3) (backfaceCulling : Bool)
    (i : Int) : Option Vector3 :=
  IntersectRayTriangle (triangleAt vertexArray i).P0 (triangleAt vertexArray i).P1
    (triangleAt vertexArray i).P2 rayOrigin rayDirection backfaceCulling

/-! ## Invariants of the construction -/

/-- The record that `CalcBoundingBoxes` computes for triangle `i` of the vertex buffer. -/
def triangleBox (vertexArray : List ℚ) (i : Int) : BoundingBox :=
  { TriangleID := i
    MinX := min (min (rd vertexArray (i * 9)) (rd vertexArray (i * 9 + 3)))
      (rd vertexArray (i * 9 + 6))
    MinY := min (min (rd vertexArray (i * 9 + 1)) (rd vertexArray (i * 9 + 4)))
      (rd vertexArray (i * 9 + 7))
    MinZ := min (min (rd vertexArray (i * 9 + 2)) (rd vertexArray (i * 9 + 5)))
      (rd vertexArray (i * 9 + 8))
    MaxX := max (max (rd vertexArray (i * 9)) (rd vertexArray (i * 9 + 3)))
      (rd vertexArray (i * 9 + 6))
    MaxY := max (max (rd vertexArray (i * 9 + 1)) (rd vertexArray (i * 9 + 4)))
      (rd vertexArray (i * 9 + 7))
    MaxZ := max (max (rd vertexArray (i * 9 + 2)) (rd vertexArray (i * 9 + 5)))
      (rd vertexArray (i * 9 + 8)) }

/-- The record `b`, widened by `EPSILON` on every side, lies in the box `[mn, mx]`. -/
def PaddedIn (b : BoundingBox) (mn mx : Vector3) : Prop :=
  mn.X ≤ b.MinX - EPSILON ∧ mn.Y ≤ b.MinY - EPSILON ∧ mn.Z ≤ b.MinZ - EPSILON ∧
  b.MaxX + EPSILON ≤ mx.X ∧ b.MaxY + EPSILON ≤ mx.Y ∧ b.MaxZ + EPSILON ≤ mx.Z

/-- The record `b` lies in the box `[mn, mx]`. -/
def BoxIn (b : BoundingBox) (mn mx : Vector3) : Prop :=
  mn.X ≤ b.MinX ∧ mn.Y ≤ b.MinY ∧ mn.Z ≤ b.MinZ ∧
  b.MaxX ≤ mx.X ∧ b.MaxY ≤ mx.Y ∧ b.MaxZ ≤ mx.Z

/-- Every record of slots `[s, e)`, widened by `EPSILON`, lies in the box `[mn, mx]`. -/
def Encloses (bboxArray : List ℚ) (mn mx : Vector3) (s e : Int) : Prop :=
  ∀ i, s ≤ i → i < e → PaddedIn (GetBox bboxArray i) mn mx

/-- The bounds of a box computed by `CalcExtents` never pass the initial values of its loop. -/
def Capped (mn mx : Vector3) : Prop :=
  mn.X ≤ MaxFloat64 - EPSILON ∧ mn.Y ≤ MaxFloat64 - EPSILON ∧ mn.Z ≤ MaxFloat64 - EPSILON ∧
  -MaxFloat64 + EPSILON ≤ mx.X ∧ -MaxFloat64 + EPSILON ≤ mx.Y ∧ -MaxFloat64 + EPSILON ≤ mx.Z

/-- The box `[ExtentsMin, ExtentsMax]` of `child` lies in the box `[mn, mx]`, componentwise. -/
def BoxWithin (child : Node) (mn mx : Vector3) : Prop :=
  mn.X ≤ child.ExtentsMin.X ∧ mn.Y ≤ child.ExtentsMin.Y ∧ mn.Z ≤ child.ExtentsMin.Z ∧
  child.ExtentsMax.X ≤ mx.X ∧ child.ExtentsMax.Y ≤ mx.Y ∧ child.ExtentsMax.Z ≤ mx.Z

/-- All three axis splits fail for the node: on every axis one side of the partition of its
range is empty. -/
def AllAxesFailed (bboxArray : List ℚ) (node : Node) : Prop :=
  splitFailed bboxArray node 0 = true ∧ splitFailed bboxArray node 1 = true ∧
  splitFailed bboxArray node 2 = true

/-- A leaf that `SplitNode` leaves alone: within the threshold, or all three axes failed. -/
def Final (bboxArray : List ℚ) (m : Int) (node : Node) : Prop :=
  node.ElementCount ≤ m ∨ AllAxesFailed bboxArray node

/-- The node is a leaf: a node struct whose two children are nil. -/
def Node.isLeaf : Node → Bool
  | Node.ref _ _ _ _ _ Node.nil Node.nil => true
  | _ => false

/-- The invariant of the tree during construction, for the subtree `n` at path `p` that is
responsible for the slots `[lo, hi)`: leaf ranges are consecutive, internal nodes have the
cleared range and two non-empty children, levels count the depth, every node box encloses
the padded records of its slots, children boxes lie in the parent box, and every leaf is
either still on the worklist or final. -/
inductive Inv (bboxArray : List ℚ) (m : Int) (work : List (List Bool)) :
    List Bool → Node → Int → Int → Prop
  | leaf (p : List Bool) (mn mx : Vector3) (s e l : Int) :
      0 ≤ s → s ≤ e → l = (p.length : Int) → Encloses bboxArray mn mx s e → Capped mn mx →
      (p ∈ work ∨ Final bboxArray m (Node.ref mn mx s e l Node.nil Node.nil)) →
      Inv bboxArray m work p (Node.ref mn mx s e l Node.nil Node.nil) s e
  | inner (p : List Bool) (mn mx : Vector3) (l : Int) (n0 n1 : Node) (s k e : Int) :
      0 ≤ s → s < k → k < e → l = (p.length : Int) → Encloses bboxArray mn mx s e →
      Capped mn mx →
      Inv bboxArray m work (p ++ [false]) n0 s k → Inv bboxArray m work (p ++ [true]) n1 k e →
      BoxWithin n0 mn mx → BoxWithin n1 mn mx →
      Inv bboxArray m work p (Node.ref mn mx (-1) (-1) l n0 n1) s e

/-- The number of leaves of a tree. -/
def Node.leaves : Node → Nat
  | Node.nil => 0
  | Node.ref _ _ _ _ _ Node.nil Node.nil => 1
  | Node.ref _ _ _ _ _ n0 n1 => Node.leaves n0 + Node.leaves n1

/-- The invariant of the worklist loop of `NewBVHFromVertexArray` for a buffer of `n`
triangles. -/
structure LoopInv (vertexArray : List ℚ) (n : Int) (bvh : BVH) : Prop where
  lenArray : (bvh.bboxArray.length : Int) = n * 7
  lenHelper : bvh.bboxHelper.length = bvh.bboxArray.length
  records : ((intRange 0 n).map (GetBox bvh.bboxArray)).Perm
    ((intRange 0 n).map (triangleBox vertexArray))
  tree : Inv bvh.bboxArray bvh.maxTrianglesPerNode bvh.nodesToSplit [] bvh.rootNode 0 n

/-- The measure that bounds the remaining iterations of the worklist loop. -/
def potential (n : Int) (bvh : BVH) : Int :=
  bvh.nodesToSplit.length + 2 * (max n 1 - bvh.rootNode.leaves)

/-- The triangle ids read from `bboxArray` (slot `i * 7`) over the range
`[StartIndex, EndIndex)` of every leaf, leaves taken from `Node0` to `Node1`. -/
def leafIds (bboxArray : List ℚ) : Node → List Int
  | Node.nil => []
  | Node.ref _ _ s e _ Node.nil Node.nil =>
    (intRange s e).map (fun i => toInt (rd bboxArray (i * 7)))
  | Node.ref _ _ _ _ _ n0 n1 => leafIds bboxArray n0 ++ leafIds bboxArray n1

/-- The split on axis `j` fails for the node: no record of its range has its centre strictly
below the centre of the node, or every record has. -/
def AxisFails (bboxArray : List ℚ) (node : Node) (j : Nat) : Prop :=
  (∀ i, node.StartIndex ≤ i → i < node.EndIndex →
    ¬ objectCenter bboxArray i j < extentCenters node j) ∨
  (∀ i, node.StartIndex ≤ i → i < node.EndIndex →
    objectCenter bboxArray i j < extentCenters node j)

/-- The slots whose ids the first loop of `IntersectRay` collects from the subtree of a node,
in the order of the loop: the range of the node, then the subtree of `Node1`, then the
subtree of `Node0`; nothing when the box test of the node fails. -/
def collectSlots (rayOrigin : Vector3) (invRayDirection : Vector3F) : Node → List Int
  | Node.nil => []
  | Node.ref mn mx s e l n0 n1 =>
    if IntersectNodeBox rayOrigin invRayDirection (Node.ref mn mx s e l n0 n1) then
      intRange s e ++ collectSlots rayOrigin invRayDirection n1 ++
        collectSlots rayOrigin invRayDirection n0
    else []

/-- The forward ray from `o` along `d` meets the record `b`: some point `o + t d` with
`t ≥ 0` lies in its box. -/
def RayMeets (o d : Vector3) (b : BoundingBox) : Prop :=
  ∃ t : ℚ, 0 ≤ t ∧ b.MinX ≤ o.X + t * d.X ∧ o.X + t * d.X ≤ b.MaxX ∧
    b.MinY ≤ o.Y + t * d.Y ∧ o.Y + t * d.Y ≤ b.MaxY ∧
    b.MinZ ≤ o.Z + t * d.Z ∧ o.Z + t * d.Z ≤ b.MaxZ

/-- The state of `NewBVHFromVertexArray` when its worklist loop starts. -/
def initState (vertexArray : List ℚ) (maxTrianglesPerNode : Int) : BVH :=
  { vertexArray := vertexArray
    maxTrianglesPerNode := maxTrianglesPerNode
    bboxArray := CalcBoundingBoxes vertexArray
    bboxHelper := CalcBoundingBoxes vertexArray
    rootNode := NewBVHNode
      (CalcExtents (CalcBoundingBoxes vertexArray) 0 ((vertexArray.length / 9 : Nat) : Int)
        EPSILON).1
      (CalcExtents (CalcBoundingBoxes vertexArray) 0 ((vertexArray.length / 9 : Nat) : Int)
        EPSILON).2 0 ((vertexArray.length / 9 : Nat) : Int) 0
    nodesToSplit := [[]] }

/-- A vertex buffer of three triangles whose boxes are `[0, 2] × [0, 2]`,
`[100, 102] × [10, 12]` and `[100, 102] × [0, 2]` in the plane `z = 0`: the root extent is
longest on X, and both the X and the Y split succeed. -/
def axisDemo : List ℚ :=
  [0, 0, 0, 2, 0, 0, 0, 2, 0,
   100, 10, 0, 102, 10, 0, 100, 12, 0,
   100, 0, 0, 102, 0, 0, 100, 2, 0]

/-- Some point `o + t d` with `t ≥ 0` of the ray lies in the box `[mn, mx]`. -/
def RayMeetsBox (o d mn mx : Vector3) : Prop :=
  ∃ t : ℚ, 0 ≤ t ∧ (mn.X ≤ o.X + t * d.X ∧ o.X + t * d.X ≤ mx.X) ∧
    (mn.Y ≤ o.Y + t * d.Y ∧ o.Y + t * d.Y ≤ mx.Y) ∧
    (mn.Z ≤ o.Z + t * d.Z ∧ o.Z + t * d.Z ≤ mx.Z)

/-- Every field of the record is a finite float64 value: it lies between `-MaxFloat64` and
`MaxFloat64`. -/
def Float64Range (b : BoundingBox) : Prop :=
  (-MaxFloat64 ≤ b.MinX ∧ b.MinX ≤ MaxFloat64) ∧ (-MaxFloat64 ≤ b.MinY ∧ b.MinY ≤ MaxFloat64) ∧
  (-MaxFloat64 ≤ b.MinZ ∧ b.MinZ ≤ MaxFloat64) ∧ (-MaxFloat64 ≤ b.MaxX ∧ b.MaxX ≤ MaxFloat64) ∧
  (-MaxFloat64 ≤ b.MaxY ∧ b.MaxY ≤ MaxFloat64) ∧ (-MaxFloat64 ≤ b.MaxZ ∧ b.MaxZ ≤ MaxFloat64)

/-- The ranges `(StartIndex, EndIndex)` of the leaves of a tree, leaves taken from `Node0` to
`Node1`. -/
def leafRanges : Node → List (Int × Int)
  | Node.nil => []
  | Node.ref _ _ s e _ Node.nil Node.nil => [(s, e)]
  | Node.ref _ _ _ _ _ n0 n1 => leafRanges n0 ++ leafRanges n1

/-- The ranges of the list are consecutive and cover `[lo, hi)`: the first starts at `lo`,
each of the others starts where the one before it ends, and the last ends at `hi`. -/
def Consecutive : Int → List (Int × Int) → Int → Prop
  | lo, [], hi => lo = hi
  | lo, r :: rest, hi => r.1 = lo ∧ r.1 ≤ r.2 ∧ Consecutive r.2 rest hi

/-! ## float64 arithmetic with rounding -/

/-- The power `2 ^ k` of an integer `k`, as a rational. -/
def pow2 (k : Int) : ℚ :=
  if 0 ≤ k then ((2 ^ k.toNat : Nat) : ℚ) else 1 / ((2 ^ (-k).toNat : Nat) : ℚ)

/-- The number of binary digits of `n`, counted by halving `n` at most `fuel` times; `n`
halvings are enough for `n`. -/
def bitLength : Nat → Nat → Nat
  | 0, _ => 0
  | fuel + 1, n => if n = 0 then 0 else bitLength fuel (n / 2) + 1

/-- The binary exponent of a positive rational `q`: the integer `e` with
`2 ^ e ≤ q < 2 ^ (e + 1)`.  It is the difference of the numbers of binary digits of the
numerator and the denominator, or one less. -/
def binExp (q : ℚ) : Int :=
  let e0 : Int := (bitLength q.num.natAbs q.num.natAbs : Int) - (bitLength q.den q.den : Int)
  if pow2 e0 ≤ q then e0 else e0 - 1

/-- The integer nearest to `m`; a tie goes to the even one. -/
def roundEven (m : ℚ) : Int :=
  if m - ⌊m⌋ < 1 / 2 then ⌊m⌋
  else if 1 / 2 < m - ⌊m⌋ then ⌊m⌋ + 1
  else if ⌊m⌋ % 2 = 0 then ⌊m⌋ else ⌊m⌋ + 1

/-- The `float64` nearest to the real number `q` (IEEE 754 binary64, round to nearest, ties
to even): 53 significant bits, least exponent `-1022` with gradual underflow, and an
infinity when the rounded magnitude passes `math.MaxFloat64`.  The sign of a zero is not
kept. -/
def round64 (q : ℚ) : F64 :=
  if q = 0 then F64.fin 0
  else
    let ulp := pow2 (max (binExp (if 0 < q then q else -q)) (-1022) - 52)
    let r : ℚ := (roundEven ((if 0 < q then q else -q) / ulp) : ℚ) * ulp
    if MaxFloat64 < r then (if 0 < q then F64.pinf else F64.ninf)
    else F64.fin (if 0 < q then r else -r)

namespace F64

/-- The `float64` negation `-x`. -/
def neg : F64 → F64
  | fin a => fin (-a)
  | pinf => ninf
  | ninf => pinf
  | nan => nan

/-- The `float64` sum `x + y`: the exact sum rounded; `Inf + -Inf` is `NaN`. -/
def add64 : F64 → F64 → F64
  | fin a, fin b => round64 (a + b)
  | nan, _ => nan
  | _, nan => nan
  | pinf, ninf => nan
  | ninf, pinf => nan
  | pinf, _ => pinf
  | _, pinf => pinf
  | ninf, _ => ninf
  | _, ninf => ninf

/-- The `float64` difference `x - y`: the exact difference rounded; `Inf - Inf` is `NaN`. -/
def sub64 : F64 → F64 → F64
  | fin a, fin b => round64 (a - b)
  | nan, _ => nan
  | _, nan => nan
  | pinf, pinf => nan
  | ninf, ninf => nan
  | pinf, _ => pinf
  | _, ninf => pinf
  | ninf, _ => ninf
  | _, pinf => ninf

/-- The `float64` product `x * y`: the exact product rounded; `0 * Inf` is `NaN`. -/
def mul64 : F64 → F64 → F64
  | fin a, fin b => round64 (a * b)
  | fin a, pinf => if 0 < a then pinf else if a < 0 then ninf else nan
  | fin a, ninf => if 0 < a then ninf else if a < 0 then pinf else nan
  | pinf, fin b => if 0 < b then pinf else if b < 0 then ninf else nan
  | ninf, fin b => if 0 < b then ninf else if b < 0 then pinf else nan
  | pinf, pinf => pinf
  | pinf, ninf => ninf
  | ninf, pinf => ninf
  | ninf, ninf => pinf
  | nan, _ => nan
  | _, nan => nan

/-- The `float64` quotient `x / y`: the exact quotient rounded; `x / 0` is `+Inf`, `-Inf` or
`NaN` by the sign of `x`, and `Inf / Inf` is `NaN`. -/
def div64 : F64 → F64 → F64
  | fin a, fin b =>
    if b = 0 then (if 0 < a then pinf else if a < 0 then ninf else nan) else round64 (a / b)
  | fin _, pinf => fin 0
  | fin _, ninf => fin 0
  | pinf, fin b => if 0 ≤ b then pinf else ninf
  | ninf, fin b => if 0 ≤ b then ninf else pinf
  | pinf, pinf => nan
  | pinf, ninf => nan
  | ninf, pinf => nan
  | ninf, ninf => nan
  | nan, _ => nan
  | _, nan => nan

end F64

/-- The `float64` components of a vector with finite components. -/
def Vector3.toF64 (v : Vector3) : Vector3F :=
  ⟨F64.fin v.X, F64.fin v.Y, F64.fin v.Z⟩

namespace Vector3F

/-- The method `SubVectors` in `float64` arithmetic: the receiver becomes `a - b`. -/
def SubVectors (a b : Vector3F) : Vector3F :=
  ⟨F64.sub64 a.X b.X, F64.sub64 a.Y b.Y, F64.sub64 a.Z b.Z⟩

/-- The method `Dot` in `float64` arithmetic; the sum associates to the left. -/
def Dot (v src : Vector3F) : F64 :=
  F64.add64 (F64.add64 (F64.mul64 v.X src.X) (F64.mul64 v.Y src.Y)) (F64.mul64 v.Z src.Z)

/-- The method `Cross` in `float64` arithmetic: the receiver `v` becomes `v × src`. -/
def Cross (v src : Vector3F) : Vector3F :=
  let x := v.X
  let y := v.Y
  let z := v.Z
  ⟨F64.sub64 (F64.mul64 y src.Z) (F64.mul64 z src.Y),
    F64.sub64 (F64.mul64 z src.X) (F64.mul64 x src.Z),
    F64.sub64 (F64.mul64 x src.Y) (F64.mul64 y src.X)⟩

/-- The method `CrossVectors` in `float64` arithmetic: the receiver becomes `a × b`. -/
def CrossVectors (a b : Vector3F) : Vector3F :=
  ⟨F64.sub64 (F64.mul64 a.Y b.Z) (F64.mul64 a.Z b.Y),
    F64.sub64 (F64.mul64 a.Z b.X) (F64.mul64 a.X b.Z),
    F64.sub64 (F64.mul64 a.X b.Y) (F64.mul64 a.Y b.X)⟩

end Vector3F

/-! ## BVH.go: the ray query in float64 arithmetic -/

/-- The function `IntersectRayTriangle` with every operation rounded to `float64`; `none` is
the nil result.  A `NaN` for `DdN` fails both comparisons with zero and gives nil. -/
def IntersectRayTriangle64 (a b c rayOrigin rayDirection : Vector3F) (backfaceCulling : Bool) :
    Option Vector3F :=
  let edge1 := Vector3F.SubVectors b a
  let edge2 := Vector3F.SubVectors c a
  let normal := Vector3F.CrossVectors edge1 edge2
  let DdN := rayDirection.Dot normal
  if F64.gt DdN (F64.fin 0) && backfaceCulling then none
  else if !F64.gt DdN (F64.fin 0) && !F64.lt DdN (F64.fin 0) then none
  else
    let sign : F64 := if F64.gt DdN (F64.fin 0) then F64.fin 1 else F64.fin (-1)
    let DdN := if F64.gt DdN (F64.fin 0) then DdN else F64.neg DdN
    let diff := Vector3F.SubVectors rayOrigin a
    let DdQxE2 := F64.mul64 sign (rayDirection.Dot (Vector3F.CrossVectors diff edge2))
    if F64.lt DdQxE2 (F64.fin 0) then none
    else
      let DdE1xQ := F64.mul64 sign (rayDirection.Dot (Vector3F.Cross edge1 diff))
      if F64.lt DdE1xQ (F64.fin 0) then none
      else if F64.gt (F64.add64 DdQxE2 DdE1xQ) DdN then none
      else
        let QdN := F64.mul64 (F64.neg sign) (diff.Dot normal)
        if F64.lt QdN (F64.fin 0) then none
        else
          let t := F64.div64 QdN DdN
          some ⟨F64.add64 (F64.mul64 rayDirection.X t) rayOrigin.X,
            F64.add64 (F64.mul64 rayDirection.Y t) rayOrigin.Y,
            F64.add64 (F64.mul64 rayDirection.Z t) rayOrigin.Z⟩

/-- The reciprocal direction computed by `IntersectRay`, in `float64` arithmetic. -/
def invDirection64 (rayDirection : Vector3) : Vector3F :=
  ⟨F64.div64 (F64.fin 1) (F64.fin rayDirection.X),
    F64.div64 (F64.fin 1) (F64.fin rayDirection.Y),
    F64.div64 (F64.fin 1) (F64.fin rayDirection.Z)⟩

/-- The function `CalcTValues` in `float64` arithmetic. -/
def CalcTValues64 (minVal maxVal rayOriginCoord : ℚ) (invdir : F64) : TValues :=
  if F64.ge invdir (F64.fin 0) then
    { Min := F64.mul64 (F64.sub64 (F64.fin minVal) (F64.fin rayOriginCoord)) invdir
      Max := F64.mul64 (F64.sub64 (F64.fin maxVal) (F64.fin rayOriginCoord)) invdir }
  else
    { Min := F64.mul64 (F64.sub64 (F64.fin maxVal) (F64.fin rayOriginCoord)) invdir
      Max := F64.mul64 (F64.sub64 (F64.fin minVal) (F64.fin rayOriginCoord)) invdir }

/-- The function `IntersectNodeBox` in `float64` arithmetic. -/
def IntersectNodeBox64 (rayOrigin : Vector3) (invRayDirection : Vector3F) (node : Node) :
    Bool :=
  let t := CalcTValues64 node.ExtentsMin.X node.ExtentsMax.X rayOrigin.X invRayDirection.X
  let ty := CalcTValues64 node.ExtentsMin.Y node.ExtentsMax.Y rayOrigin.Y invRayDirection.Y
  if F64.gt t.Min ty.Max || F64.gt ty.Min t.Max then false
  else
    let tMin := if F64.gt ty.Min t.Min || isNaN t.Min then ty.Min else t.Min
    let tMax := if F64.lt ty.Max t.Max || isNaN t.Max then ty.Max else t.Max
    let tz := CalcTValues64 node.ExtentsMin.Z node.ExtentsMax.Z rayOrigin.Z invRayDirection.Z
    if F64.gt tMin tz.Max || F64.gt tz.Min tMax then false
    else
      let tMax2 := if F64.lt tz.Max tMax || isNaN tMax then tz.Max else tMax
      if F64.lt tMax2 (F64.fin 0) then false else true

/-- The first loop of `IntersectRay` with the box test in `float64` arithmetic, run for at
most `fuel` iterations. -/
def traverse64 (bboxArray : List ℚ) (rayOrigin : Vector3) (invRayDirection : Vector3F) :
    Nat → List Node → List Int → List Int
  | 0, _, trianglesInIntersectingNodes => trianglesInIntersectingNodes
  | _ + 1, [], trianglesInIntersectingNodes => trianglesInIntersectingNodes
  | fuel + 1, node :: rest, trianglesInIntersectingNodes =>
    if IntersectNodeBox64 rayOrigin invRayDirection node then
      let s0 := if node.Node0.isRef then node.Node0 :: rest else rest
      let s1 := if node.Node1.isRef then node.Node1 :: s0 else s0
      traverse64 bboxArray rayOrigin invRayDirection fuel s1
        (trianglesInIntersectingNodes ++
          (intRange node.StartIndex node.EndIndex).map (fun i => toInt (rd bboxArray (i * 7))))
    else
      traverse64 bboxArray rayOrigin invRayDirection fuel rest trianglesInIntersectingNodes

/-- The struct `IntersectionResult` for a query in `float64` arithmetic: the point may have
infinite or not-a-number components. -/
structure IntersectionResult64 where
  Triangle : Triangle
  TriangleIndex : Int
  IntersectionPoint : Vector3F
deriving DecidableEq

/-- The vectors `a`, `b`, `c` of `IntersectRay` and the hits found so far, for a query in
`float64` arithmetic. -/
structure TestState64 where
  a : Vector3
  b : Vector3
  c : Vector3
  hits : List (Int × Vector3F)

/-- One iteration of the second loop of `IntersectRay`, in `float64` arithmetic. -/
def testCandidate64 (vertexArray : List ℚ) (rayOrigin rayDirection : Vector3)
    (backfaceCulling : Bool) (st : TestState64) (triIndex : Int) : TestState64 :=
  let a := Vector3.SetFromArray vertexArray (triIndex * 9)
  let b := Vector3.SetFromArray vertexArray (triIndex * 9 + 3)
  let c := Vector3.SetFromArray vertexArray (triIndex * 9 + 6)
  match IntersectRayTriangle64 a.toF64 b.toF64 c.toF64 rayOrigin.toF64 rayDirection.toF64
    backfaceCulling with
  | some intersectionPoint =>
    { a := a, b := b, c := c, hits := st.hits ++ [(triIndex, intersectionPoint)] }
  | none => { a := a, b := b, c := c, hits := st.hits }

/-- The slice `trianglesInIntersectingNodes` when the first loop of `IntersectRay` ends, in
`float64` arithmetic. -/
def candidates64 (bvh : BVH) (rayOrigin rayDirection : Vector3) : List Int :=
  traverse64 bvh.bboxArray rayOrigin (invDirection64 rayDirection) bvh.rootNode.size
    [bvh.rootNode] []

/-- The method `IntersectRay` with every arithmetic operation rounded to `float64`, each one
on its own (no fused multiply-add).  The tree, the buffers, the ray origin and the ray
direction hold finite `float64` values. -/
def IntersectRay64 (bvh : BVH) (rayOrigin rayDirection : Vector3) (backfaceCulling : Bool) :
    List IntersectionResult64 :=
  let st := (candidates64 bvh rayOrigin rayDirection).foldl
    (testCandidate64 bvh.vertexArray rayOrigin rayDirection backfaceCulling)
    { a := ⟨0, 0, 0⟩, b := ⟨0, 0, 0⟩, c := ⟨0, 0, 0⟩, hits := [] }
  st.hits.map (fun h =>
    { Triangle := ⟨st.a, st.b, st.c⟩, TriangleIndex := h.1, IntersectionPoint := h.2 })

/-- The slots whose ids the first loop of `IntersectRay` collects from the subtree of a node
when the box test runs in `float64` arithmetic, in the order of the loop. -/
def collectSlots64 (rayOrigin : Vector3) (invRayDirection : Vector3F) : Node → List Int
  | Node.nil => []
  | Node.ref mn mx s e l n0 n1 =>
    if IntersectNodeBox64 rayOrigin invRayDirection (Node.ref mn mx s e l n0 n1) then
      intRange s e ++ collectSlots64 rayOrigin invRayDirection n1 ++
        collectSlots64 rayOrigin invRayDirection n0
    else []

/-- The call of `IntersectRayTriangle`, in `float64` arithmetic, on triangle `i` of the vertex
buffer. -/
def hitOf64 (vertexArray : List ℚ) (rayOrigin rayDirection : Vector3) (backfaceCulling : Bool)
    (i : Int) : Option Vector3F :=
  IntersectRayTriangle64 (triangleAt vertexArray i).P0.toF64 (triangleAt vertexArray i).P1.toF64
    (triangleAt vertexArray i).P2.toF64 rayOrigin.toF64 rayDirection.toF64 backfaceCulling

/-- A triangle in the plane `z = 0` whose normal points in `+z`. -/
def edgeTriangle : Triangle :=
  NewTriangle 5 (-3) 0 0 4 0 (-3) 2 0

/-- The `float64` value nearest to `2.4`. -/
def near2_4 : ℚ := 5404319552844595 / 2251799813685248

/-! # Theorems -/

/-! ## The triangle test -/

theorem IntersectRayTriangle_eq (a b c o d : Vector3) (cull : Bool) :
    IntersectRayTriangle a b c o d cull =
      if 0 < d.Dot (triNormal a b c) then
        if cull = true then none
        else if triU a c o d < 0 ∨ triV a b o d < 0 ∨
            d.Dot (triNormal a b c) < triU a c o d + triV a b o d ∨ 0 < triW a b c o then none
        else some (rayPoint o d (-triW a b c o / d.Dot (triNormal a b c)))
      else if d.Dot (triNormal a b c) < 0 then
        if 0 < triU a c o d ∨ 0 < triV a b o d ∨
            triU a c o d + triV a b o d < d.Dot (triNormal a b c) ∨ triW a b c o < 0 then none
        else some (rayPoint o d (triW a b c o / -d.Dot (triNormal a b c)))
      else none := by
  simp only [IntersectRayTriangle, triNormal, triU, triV, triW]
  generalize d.Dot (Vector3.CrossVectors (Vector3.SubVectors b a) (Vector3.SubVectors c a)) = N
  generalize d.Dot (Vector3.CrossVectors (Vector3.SubVectors o a) (Vector3.SubVectors c a)) = U
  generalize d.Dot (Vector3.Cross (Vector3.SubVectors b a) (Vector3.SubVectors o a)) = V
  generalize (Vector3.SubVectors o a).Dot
    (Vector3.CrossVectors (Vector3.SubVectors b a) (Vector3.SubVectors c a)) = W
  have e1 : ∀ x : ℚ, -1 * x = -x := fun x => by ring
  have e2 : ∀ x : ℚ, - -1 * x = x := fun x => by ring
  have e3 : ∀ x : ℚ, 1 * x = x := fun x => by ring
  have e4 : ∀ t : ℚ, (⟨d.X * t + o.X, d.Y * t + o.Y, d.Z * t + o.Z⟩ : Vector3) = rayPoint o d t :=
    fun t => by simp only [rayPoint, Vector3.mk.injEq]; refine ⟨?_, ?_, ?_⟩ <;> ring
  rcases lt_trichotomy N 0 with hN | hN | hN
  · have h1 : ¬ 0 < N := not_lt.mpr hN.le
    simp only [h1, false_and, if_false, hN.ne, hN, if_true, e1, e2, e4]
    by_cases hU : 0 < U
    · simp [hU]
    by_cases hV : 0 < V
    · simp [hU, hV]
    by_cases hS : U + V < N
    · have : -U + -V > -N := by linarith
      simp [hU, hV, hS, this]
    by_cases hW : W < 0
    · simp [hU, hV, hS, hW]
    · have : ¬ (-U + -V > -N) := by intro h; apply hS; linarith
      simp [hU, hV, hS, hW, this]
  · subst hN
    simp
  · have h1 : ¬ N < 0 := not_lt.mpr hN.le
    have h2 : N ≠ 0 := hN.ne'
    cases cull
    · simp only [hN, h1, h2, Bool.false_eq_true, and_false, if_false, if_true, e1, e3, e4,
        gt_iff_lt]
      by_cases hU : U < 0
      · simp [hU]
      by_cases hV : V < 0
      · simp [hU, hV]
      by_cases hS : N < U + V
      · simp [hU, hV, hS]
      by_cases hW : 0 < W
      · simp [hU, hV, hS, hW]
      · simp [hU, hV, hS, hW]
    · simp [hN]

theorem rayPoint_eq_baryPoint (a b c o d : Vector3) (t : ℚ)
    (ht : t * d.Dot (triNormal a b c) = -triW a b c o) (hN : d.Dot (triNormal a b c) ≠ 0) :
    rayPoint o d t = baryPoint a b c (triU a c o d / d.Dot (triNormal a b c))
      (triV a b o d / d.Dot (triNormal a b c)) := by
  obtain ⟨ax, ay, az⟩ := a
  obtain ⟨bx, by_, bz⟩ := b
  obtain ⟨cx, cy, cz⟩ := c
  obtain ⟨ox, oy, oz⟩ := o
  obtain ⟨dx, dy, dz⟩ := d
  simp only [rayPoint, baryPoint, triNormal, triU, triV, triW, Vector3.SubVectors,
    Vector3.CrossVectors, Vector3.Cross, Vector3.Dot, Vector3.mk.injEq] at *
  refine ⟨?_, ?_, ?_⟩
  · field_simp
    linear_combination dx * ht
  · field_simp
    linear_combination dy * ht
  · field_simp
    linear_combination dz * ht

theorem IntersectRayTriangle_sound (a b c o d : Vector3) (cull : Bool) (P : Vector3)
    (h : IntersectRayTriangle a b c o d cull = some P) : InTriangleOnRay a b c o d P := by
  rw [IntersectRayTriangle_eq] at h
  by_cases hN : 0 < d.Dot (triNormal a b c)
  · rw [if_pos hN] at h
    split_ifs at h with h1 h2
    simp only [not_or, not_lt] at h2
    obtain ⟨hU, hV, hS, hW⟩ := h2
    have hP : P = rayPoint o d (-triW a b c o / d.Dot (triNormal a b c)) :=
      (Option.some.inj h).symm
    refine ⟨triU a c o d / d.Dot (triNormal a b c), triV a b o d / d.Dot (triNormal a b c),
      -triW a b c o / d.Dot (triNormal a b c), div_nonneg hU hN.le, div_nonneg hV hN.le, ?_,
      div_nonneg (by linarith) hN.le, ?_, hP⟩
    · rw [← add_div, div_le_one hN]
      exact hS
    · rw [hP]
      exact rayPoint_eq_baryPoint a b c o d _ (by field_simp) hN.ne'
  · rw [if_neg hN] at h
    split_ifs at h with h1 h2
    simp only [not_or, not_lt] at h2
    obtain ⟨hU, hV, hS, hW⟩ := h2
    have hP : P = rayPoint o d (triW a b c o / -d.Dot (triNormal a b c)) :=
      (Option.some.inj h).symm
    have hN' : 0 < -d.Dot (triNormal a b c) := by linarith
    refine ⟨triU a c o d / d.Dot (triNormal a b c), triV a b o d / d.Dot (triNormal a b c),
      triW a b c o / -d.Dot (triNormal a b c), div_nonneg_of_nonpos hU h1.le,
      div_nonneg_of_nonpos hV h1.le, ?_, div_nonneg hW hN'.le, ?_, hP⟩
    · rw [← add_div, div_le_one_of_neg h1]
      exact hS
    · rw [hP]
      refine rayPoint_eq_baryPoint a b c o d _ ?_ h1.ne
      field_simp

/-! ## The second loop of `IntersectRay` -/

theorem foldl_testCandidate_hits (va : List ℚ) (o d : Vector3) (cull : Bool) (cands : List Int)
    (st : TestState) :
    (cands.foldl (testCandidate va o d cull) st).hits =
      st.hits ++ cands.filterMap (fun i => (hitOf va o d cull i).map (fun P => (i, P))) := by
  induction cands generalizing st with
  | nil => simp
  | cons i rest ih =>
    rw [List.foldl_cons, ih]
    simp only [testCandidate, hitOf, triangleAt, List.filterMap_cons]
    cases IntersectRayTriangle (Vector3.SetFromArray va (i * 9))
      (Vector3.SetFromArray va (i * 9 + 3)) (Vector3.SetFromArray va (i * 9 + 6)) o d cull with
    | none => simp
    | some P => simp

theorem IntersectRay_hits (bvh : BVH) (o d : Vector3) (cull : Bool) :
    (IntersectRay bvh o d cull).map (fun r => (r.TriangleIndex, r.IntersectionPoint)) =
      (candidates bvh o d).filterMap
        (fun i => (hitOf bvh.vertexArray o d cull i).map (fun P => (i, P))) := by
  simp only [IntersectRay, List.map_map, foldl_testCandidate_hits, List.nil_append]
  exact List.map_id _

/-- Claim C3.  Whenever `IntersectRayTriangle` returns a point `P`, that point is
`a + b1 (b - a) + b2 (c - a)` with `b1, b2 ≥ 0`, `b1 + b2 ≤ 1`, and `origin + t direction`
with `t ≥ 0`; and so is the point of every record returned by `IntersectRay`, for the
triangle of the vertex buffer named by the index of the record. -/
theorem hit_containment :
    (∀ (a b c o d : Vector3) (cull : Bool) (P : Vector3),
      IntersectRayTriangle a b c o d cull = some P → InTriangleOnRay a b c o d P) ∧
    (∀ (bvh : BVH) (o d : Vector3) (cull : Bool) (r : IntersectionResult),
      r ∈ IntersectRay bvh o d cull →
        InTriangleOnRay (triangleAt bvh.vertexArray r.TriangleIndex).P0
          (triangleAt bvh.vertexArray r.TriangleIndex).P1
          (triangleAt bvh.vertexArray r.TriangleIndex).P2 o d r.IntersectionPoint) := by
  refine ⟨IntersectRayTriangle_sound, ?_⟩
  intro bvh o d cull r hr
  have h1 : (r.TriangleIndex, r.IntersectionPoint) ∈
      (IntersectRay bvh o d cull).map (fun r => (r.TriangleIndex, r.IntersectionPoint)) :=
    List.mem_map.mpr ⟨r, hr, rfl⟩
  rw [IntersectRay_hits, List.mem_filterMap] at h1
  obtain ⟨i, _, hi⟩ := h1
  cases hP : hitOf bvh.vertexArray o d cull i with
  | none => simp [hP] at hi
  | some P =>
    simp only [hP, Option.map_some', Option.some.injEq, Prod.mk.injEq] at hi
    obtain ⟨rfl, rfl⟩ := hi
    exact IntersectRayTriangle_sound _ _ _ _ _ _ _ hP

/-- A use of `hit_containment` on the second triangle and the ray of `demo1`. -/
theorem hit_containment_witness :
    InTriangleOnRay ⟨0, 0, 0⟩ ⟨2000, 0, 0⟩ ⟨2000, 1000, 0⟩ ⟨1500, 3, 1000⟩ ⟨0, 0, -1⟩
      ⟨1500, 3, 0⟩ :=
  hit_containment.1 _ _ _ _ _ true _ (by decide!)

/-! ## Concrete runs -/

/-- Claim C9.  The query of `demo1` returns exactly one record, with `TriangleIndex` 1 and
`IntersectionPoint` `(1500, 3, 0)`. -/
theorem demo1_result :
    demo1 = [{ Triangle := NewTriangle 0 0 0 2000 0 0 2000 1000 0, TriangleIndex := 1,
               IntersectionPoint := ⟨1500, 3, 0⟩ }] := by
  decide!

/-- Claim C4.  On the two triangles of `demo1` and the ray from `(500, 3, 1000)` along
`(0, 0, -1)` both triangles are hit, and both returned records show the vertices of
triangle 1: the record with `TriangleIndex` 0 does not carry the vertices stored at scalars
`[0, 9)` of the vertex buffer. -/
theorem IntersectRay_triangle_aliased :
    IntersectRay (NewBVH demo1Triangles 7) ⟨500, 3, 1000⟩ ⟨0, 0, -1⟩ true =
      [{ Triangle := NewTriangle 0 0 0 2000 0 0 2000 1000 0, TriangleIndex := 0,
         IntersectionPoint := ⟨500, 3, 0⟩ },
       { Triangle := NewTriangle 0 0 0 2000 0 0 2000 1000 0, TriangleIndex := 1,
         IntersectionPoint := ⟨500, 3, 0⟩ }] ∧
    triangleAt (NewBVH demo1Triangles 7).vertexArray 0 = NewTriangle 0 0 0 1000 0 0 1000 1000 0 := by
  decide!

/-! ## Slices and bounding-box records -/

@[simp] theorem length_wr (a : List ℚ) (i : Int) (v : ℚ) : (wr a i v).length = a.length := by
  unfold wr; split <;> simp

theorem rd_wr_eq (a : List ℚ) (i : Int) (v : ℚ) (h0 : 0 ≤ i) (h1 : i < a.length) :
    rd (wr a i v) i = v := by
  have h2 : i.toNat < a.length := by omega
  simp [rd, wr, h0, List.getD_eq_getElem?_getD, List.getElem?_set, h2]

theorem rd_wr_ne (a : List ℚ) (i j : Int) (v : ℚ) (h : i ≠ j) :
    rd (wr a i v) j = rd a j := by
  unfold rd wr
  by_cases hj : 0 ≤ j
  · by_cases hi : 0 ≤ i
    · have h2 : i.toNat ≠ j.toNat := by omega
      simp [hi, hj, List.getD_eq_getElem?_getD, List.getElem?_set, h2]
    · simp [hi, hj]
  · simp [hj]

theorem toInt_intCast (i : Int) : toInt (i : ℚ) = i := by
  unfold toInt
  split <;> simp

theorem length_SetBox (a : List ℚ) (pos id : Int) (x1 x2 x3 x4 x5 x6 : ℚ) :
    (SetBox a pos id x1 x2 x3 x4 x5 x6).length = a.length := by
  simp [SetBox]

theorem GetBox_SetBox_eq (a : List ℚ) (pos id : Int) (x1 x2 x3 x4 x5 x6 : ℚ) (h0 : 0 ≤ pos)
    (h1 : pos * 7 + 7 ≤ a.length) :
    GetBox (SetBox a pos id x1 x2 x3 x4 x5 x6) pos = ⟨id, x1, x2, x3, x4, x5, x6⟩ := by
  simp only [GetBox, SetBox, BoundingBox.mk.injEq]
  refine ⟨?_, ?_, ?_, ?_, ?_, ?_, ?_⟩
  · rw [rd_wr_ne _ _ _ _ (by omega), rd_wr_ne _ _ _ _ (by omega), rd_wr_ne _ _ _ _ (by omega),
      rd_wr_ne _ _ _ _ (by omega), rd_wr_ne _ _ _ _ (by omega), rd_wr_ne _ _ _ _ (by omega),
      rd_wr_eq _ _ _ (by omega) (by omega), toInt_intCast]
  · rw [rd_wr_ne _ _ _ _ (by omega), rd_wr_ne _ _ _ _ (by omega), rd_wr_ne _ _ _ _ (by omega),
      rd_wr_ne _ _ _ _ (by omega), rd_wr_ne _ _ _ _ (by omega),
      rd_wr_eq _ _ _ (by omega) (by simp only [length_wr]; omega)]
  · rw [rd_wr_ne _ _ _ _ (by omega), rd_wr_ne _ _ _ _ (by omega), rd_wr_ne _ _ _ _ (by omega),
      rd_wr_ne _ _ _ _ (by omega),
      rd_wr_eq _ _ _ (by omega) (by simp only [length_wr]; omega)]
  · rw [rd_wr_ne _ _ _ _ (by omega), rd_wr_ne _ _ _ _ (by omega), rd_wr_ne _ _ _ _ (by omega),
      rd_wr_eq _ _ _ (by omega) (by simp only [length_wr]; omega)]
  · rw [rd_wr_ne _ _ _ _ (by omega), rd_wr_ne _ _ _ _ (by omega),
      rd_wr_eq _ _ _ (by omega) (by simp only [length_wr]; omega)]
  · rw [rd_wr_ne _ _ _ _ (by omega),
      rd_wr_eq _ _ _ (by omega) (by simp only [length_wr]; omega)]
  · rw [rd_wr_eq _ _ _ (by omega) (by simp only [length_wr]; omega)]

theorem GetBox_SetBox_ne (a : List ℚ) (pos q id : Int) (x1 x2 x3 x4 x5 x6 : ℚ) (h : q ≠ pos) :
    GetBox (SetBox a pos id x1 x2 x3 x4 x5 x6) q = GetBox a q := by
  simp only [GetBox, SetBox]
  congr 1 <;> [congr 1; skip; skip; skip; skip; skip; skip] <;>
  rw [rd_wr_ne _ _ _ _ (by omega), rd_wr_ne _ _ _ _ (by omega), rd_wr_ne _ _ _ _ (by omega),
      rd_wr_ne _ _ _ _ (by omega), rd_wr_ne _ _ _ _ (by omega), rd_wr_ne _ _ _ _ (by omega),
      rd_wr_ne _ _ _ _ (by omega)]

theorem length_CopyBox (src : List ℚ) (sp : Int) (dst : List ℚ) (dp : Int) :
    (CopyBox src sp dst dp).length = dst.length := by
  simp [CopyBox]

theorem GetBox_CopyBox_eq (src : List ℚ) (sp : Int) (dst : List ℚ) (dp : Int) (h0 : 0 ≤ dp)
    (h1 : dp * 7 + 7 ≤ dst.length) :
    GetBox (CopyBox src sp dst dp) dp = GetBox src sp := by
  simp only [GetBox, CopyBox, BoundingBox.mk.injEq]
  refine ⟨?_, ?_, ?_, ?_, ?_, ?_, ?_⟩
  · rw [rd_wr_ne _ _ _ _ (by omega), rd_wr_ne _ _ _ _ (by omega), rd_wr_ne _ _ _ _ (by omega),
      rd_wr_ne _ _ _ _ (by omega), rd_wr_ne _ _ _ _ (by omega), rd_wr_ne _ _ _ _ (by omega),
      rd_wr_eq _ _ _ (by omega) (by omega)]
  · rw [rd_wr_ne _ _ _ _ (by omega), rd_wr_ne _ _ _ _ (by omega), rd_wr_ne _ _ _ _ (by omega),
      rd_wr_ne _ _ _ _ (by omega), rd_wr_ne _ _ _ _ (by omega),
      rd_wr_eq _ _ _ (by omega) (by simp only [length_wr]; omega)]
  · rw [rd_wr_ne _ _ _ _ (by omega), rd_wr_ne _ _ _ _ (by omega), rd_wr_ne _ _ _ _ (by omega),
      rd_wr_ne _ _ _ _ (by omega),
      rd_wr_eq _ _ _ (by omega) (by simp only [length_wr]; omega)]
  · rw [rd_wr_ne _ _ _ _ (by omega), rd_wr_ne _ _ _ _ (by omega), rd_wr_ne _ _ _ _ (by omega),
      rd_wr_eq _ _ _ (by omega) (by simp only [length_wr]; omega)]
  · rw [rd_wr_ne _ _ _ _ (by omega), rd_wr_ne _ _ _ _ (by omega),
      rd_wr_eq _ _ _ (by omega) (by simp only [length_wr]; omega)]
  · rw [rd_wr_ne _ _ _ _ (by omega),
      rd_wr_eq _ _ _ (by omega) (by simp only [length_wr]; omega)]
  · rw [rd_wr_eq _ _ _ (by omega) (by simp only [length_wr]; omega)]

theorem GetBox_CopyBox_ne (src : List ℚ) (sp : Int) (dst : List ℚ) (dp q : Int) (h : q ≠ dp) :
    GetBox (CopyBox src sp dst dp) q = GetBox dst q := by
  simp only [GetBox, CopyBox]
  congr 1 <;> [congr 1; skip; skip; skip; skip; skip; skip] <;>
  rw [rd_wr_ne _ _ _ _ (by omega), rd_wr_ne _ _ _ _ (by omega), rd_wr_ne _ _ _ _ (by omega),
      rd_wr_ne _ _ _ _ (by omega), rd_wr_ne _ _ _ _ (by omega), rd_wr_ne _ _ _ _ (by omega),
      rd_wr_ne _ _ _ _ (by omega)]

/-! ## Integer ranges -/

theorem mem_intRange (lo hi i : Int) : i ∈ intRange lo hi ↔ lo ≤ i ∧ i < hi := by
  simp only [intRange, List.mem_map, List.mem_range]
  constructor
  · rintro ⟨k, hk, rfl⟩
    omega
  · rintro ⟨h1, h2⟩
    exact ⟨(i - lo).toNat, by omega, by omega⟩

theorem intRange_empty (lo hi : Int) (h : hi ≤ lo) : intRange lo hi = [] := by
  have : (hi - lo).toNat = 0 := by omega
  simp [intRange, this]

theorem intRange_cons (lo hi : Int) (h : lo < hi) :
    intRange lo hi = lo :: intRange (lo + 1) hi := by
  have h1 : (hi - lo).toNat = (hi - (lo + 1)).toNat + 1 := by omega
  simp only [intRange, h1, List.range_succ_eq_map, List.map_cons, List.map_map]
  simp only [Nat.cast_zero, add_zero, List.cons.injEq, true_and]
  apply List.map_congr_left
  intro k _
  simp only [Function.comp, Nat.cast_succ]
  omega

theorem length_intRange (lo hi : Int) : (intRange lo hi).length = (hi - lo).toNat := by
  simp [intRange]

theorem intRange_append (lo k hi : Int) (h1 : lo ≤ k) (h2 : k ≤ hi) :
    intRange lo hi = intRange lo k ++ intRange k hi := by
  obtain ⟨n, hn⟩ : ∃ n : Nat, k - lo = n := ⟨(k - lo).toNat, by omega⟩
  induction n generalizing lo with
  | zero =>
    have : lo = k := by omega
    subst this
    simp [intRange_empty]
  | succ n ih =>
    have hlt : lo < k := by omega
    rw [intRange_cons lo hi (by omega), intRange_cons lo k hlt, ih (lo + 1) (by omega)
      (by push_cast at hn; omega)]
    rfl

theorem nodup_intRange (lo hi : Int) : (intRange lo hi).Nodup := by
  unfold intRange
  refine (List.nodup_range _).map ?_
  intro a b h
  simpa using h

/-! ## The reordering of `SplitNode` -/

theorem copyElements_spec (src : List ℚ) (els : List Int) (helper : List ℚ) (hp : Int)
    (h0 : 0 ≤ hp) (h1 : (hp + els.length) * 7 ≤ helper.length) :
    (copyElements src els helper hp).length = helper.length ∧
    (intRange hp (hp + els.length)).map (GetBox (copyElements src els helper hp)) =
      els.map (GetBox src) ∧
    ∀ q, q < hp ∨ hp + els.length ≤ q →
      GetBox (copyElements src els helper hp) q = GetBox helper q := by
  induction els generalizing helper hp with
  | nil => simp [copyElements, intRange_empty]
  | cons x rest ih =>
    have hc : copyElements src (x :: rest) helper hp =
        copyElements src rest (CopyBox src x helper hp) (hp + 1) := rfl
    have hl : ((x :: rest).length : Int) = rest.length + 1 := by simp
    rw [hl] at h1 ⊢
    obtain ⟨ih1, ih2, ih3⟩ := ih (CopyBox src x helper hp) (hp + 1) (by omega)
      (by rw [length_CopyBox]; omega)
    rw [hc]
    refine ⟨by rw [ih1, length_CopyBox], ?_, ?_⟩
    · rw [intRange_cons hp _ (by omega), List.map_cons, List.map_cons]
      have e : hp + (↑rest.length + 1) = hp + 1 + ↑rest.length := by ring
      rw [e, ih2, ih3 hp (by omega), GetBox_CopyBox_eq _ _ _ _ h0 (by omega)]
    · intro q hq
      rw [ih3 q (by omega), GetBox_CopyBox_ne _ _ _ _ _ (by omega)]

theorem length_copyInto_slice (dst h : List ℚ) (lo hi : Int) (h0 : 0 ≤ lo) (h1 : lo ≤ hi)
    (h2 : hi ≤ dst.length) (h3 : h.length = dst.length) :
    (copyInto dst lo (slice h lo hi)).length = dst.length := by
  simp only [copyInto, slice, List.length_append, List.length_take, List.length_drop]
  omega

theorem rd_copyInto_slice (dst h : List ℚ) (lo hi : Int) (h0 : 0 ≤ lo) (h1 : lo ≤ hi)
    (h2 : hi ≤ dst.length) (h3 : h.length = dst.length) (j : Int) :
    rd (copyInto dst lo (slice h lo hi)) j = if lo ≤ j ∧ j < hi then rd h j else rd dst j := by
  obtain ⟨a, rfl⟩ := Int.eq_ofNat_of_zero_le h0
  obtain ⟨b, rfl⟩ := Int.eq_ofNat_of_zero_le (le_trans h0 h1)
  by_cases hj : 0 ≤ j
  · obtain ⟨c, rfl⟩ := Int.eq_ofNat_of_zero_le hj
    have hab : a ≤ b := by omega
    have hb : b ≤ dst.length := by omega
    have hn : min (dst.length - a) (min b h.length - a) = b - a := by omega
    simp only [rd, copyInto, slice, Int.toNat_ofNat, List.length_drop, List.length_take, hn,
      Nat.cast_nonneg, if_true, Nat.cast_le, Nat.cast_lt, List.getD_eq_getElem?_getD]
    have hab2 : a + (b - a) = b := by omega
    rw [hab2]
    by_cases hc1 : c < a
    · have : ¬ (a ≤ c ∧ c < b) := by omega
      rw [if_neg this, List.append_assoc, List.getElem?_append_left (by simp; omega),
        List.getElem?_take_of_lt hc1]
    · by_cases hc2 : c < b
      · rw [if_pos ⟨by omega, hc2⟩, List.append_assoc,
          List.getElem?_append_right (by simp; omega),
          List.getElem?_append_left (by simp; omega)]
        simp only [List.length_take, List.getElem?_take, List.getElem?_drop]
        have e1 : min a dst.length = a := by omega
        rw [e1, if_pos (by omega), if_pos (by omega)]
        congr 2
        omega
      · have : ¬ (a ≤ c ∧ c < b) := by omega
        rw [if_neg this, List.getElem?_append_right (by simp; omega)]
        simp only [List.length_append, List.length_take, List.length_drop, List.getElem?_drop]
        congr 2
        omega
  · have : ¬ ((a : Int) ≤ j ∧ j < (b : Int)) := by omega
    simp [rd, hj]

theorem GetBox_copyInto_slice (dst h : List ℚ) (s e : Int) (h0 : 0 ≤ s) (h1 : s ≤ e)
    (h2 : e * 7 ≤ dst.length) (h3 : h.length = dst.length) (i : Int) :
    GetBox (copyInto dst (s * 7) (slice h (s * 7) (e * 7))) i =
      if s ≤ i ∧ i < e then GetBox h i else GetBox dst i := by
  simp only [GetBox, rd_copyInto_slice dst h (s * 7) (e * 7) (by omega) (by omega) h2 h3]
  by_cases hi : s ≤ i ∧ i < e
  · rw [if_pos hi, if_pos (by omega), if_pos (by omega), if_pos (by omega), if_pos (by omega),
      if_pos (by omega), if_pos (by omega), if_pos (by omega)]
  · rw [if_neg hi, if_neg (by omega), if_neg (by omega), if_neg (by omega), if_neg (by omega),
      if_neg (by omega), if_neg (by omega), if_neg (by omega)]

/-! ## The split decision of `SplitNode` -/

theorem sortInsert_perm (less : Nat → Nat → Bool) (x : Nat) (acc : List Nat) :
    (sortInsert less x acc).Perm (x :: acc) := by
  induction acc with
  | nil => exact List.Perm.refl _
  | cons p rest ih =>
    unfold sortInsert
    split
    · exact ((List.Perm.cons p ih).trans (List.Perm.swap x p rest))
    · exact List.Perm.refl _

theorem sortSlice_perm (less : Nat → Nat → Bool) (xs : List Nat) :
    (sortSlice less xs).Perm xs := by
  unfold sortSlice
  have h : ∀ (ys acc : List Nat),
      (ys.foldl (fun acc x => sortInsert less x acc) acc).Perm (ys.reverse ++ acc) := by
    intro ys
    induction ys with
    | nil => intro acc; exact List.Perm.refl _
    | cons y rest ih =>
      intro acc
      rw [List.foldl_cons, List.reverse_cons, List.append_assoc]
      exact (ih _).trans (List.Perm.append_left _ (sortInsert_perm less y acc))
  have h2 := h xs []
  rw [List.append_nil] at h2
  exact (List.reverse_perm _).trans (h2.trans (List.reverse_perm _))

theorem mem_splitOrder (node : Node) (j : Nat) : j ∈ splitOrder node ↔ j = 0 ∨ j = 1 ∨ j = 2 := by
  unfold splitOrder
  rw [(sortSlice_perm _ _).mem_iff]
  simp

theorem chosenAxis_some (bbox : List ℚ) (node : Node)
    (h : ¬ (splitFailed bbox node 0 = true ∧ splitFailed bbox node 1 = true ∧
      splitFailed bbox node 2 = true)) :
    ∃ c, chosenAxis bbox node = some c ∧ splitFailed bbox node c = false := by
  unfold chosenAxis
  cases hf : (splitOrder node).find? (fun c => !splitFailed bbox node c) with
  | none =>
    exfalso
    rw [List.find?_eq_none] at hf
    apply h
    refine ⟨?_, ?_, ?_⟩
    · simpa using hf 0 ((mem_splitOrder node 0).mpr (Or.inl rfl))
    · simpa using hf 1 ((mem_splitOrder node 1).mpr (Or.inr (Or.inl rfl)))
    · simpa using hf 2 ((mem_splitOrder node 2).mpr (Or.inr (Or.inr rfl)))
  | some c =>
    refine ⟨c, rfl, ?_⟩
    have := List.find?_some hf
    simpa using this

theorem left_right_perm (bbox : List ℚ) (node : Node) (j : Nat) :
    (leftNode bbox node j ++ rightNode bbox node j).Perm
      (intRange node.StartIndex node.EndIndex) := by
  unfold leftNode rightNode
  exact List.filter_append_perm _ _

theorem left_right_length (bbox : List ℚ) (node : Node) (j : Nat)
    (h : node.StartIndex ≤ node.EndIndex) :
    ((leftNode bbox node j).length : Int) + (rightNode bbox node j).length =
      node.EndIndex - node.StartIndex := by
  have h1 := (left_right_perm bbox node j).length_eq
  rw [List.length_append, length_intRange] at h1
  omega

theorem splitFailed_false (bbox : List ℚ) (node : Node) (j : Nat)
    (h : splitFailed bbox node j = false) :
    0 < (leftNode bbox node j).length ∧ 0 < (rightNode bbox node j).length := by
  unfold splitFailed at h
  simp only [Bool.or_eq_false_iff, beq_eq_false_iff_ne, ne_eq] at h
  omega

theorem reorder_spec (bbox helper : List ℚ) (s e : Int) (els : List Int) (h0 : 0 ≤ s)
    (hlen : (els.length : Int) = e - s) (h2 : e * 7 ≤ bbox.length)
    (h3 : helper.length = bbox.length) :
    (copyElements bbox els helper s).length = bbox.length ∧
    (copyInto bbox (s * 7) (slice (copyElements bbox els helper s) (s * 7) (e * 7))).length =
      bbox.length ∧
    (intRange s e).map (GetBox
      (copyInto bbox (s * 7) (slice (copyElements bbox els helper s) (s * 7) (e * 7)))) =
      els.map (GetBox bbox) ∧
    ∀ i, i < s ∨ e ≤ i → GetBox
      (copyInto bbox (s * 7) (slice (copyElements bbox els helper s) (s * 7) (e * 7))) i =
      GetBox bbox i := by
  obtain ⟨c1, c2, _⟩ := copyElements_spec bbox els helper s h0 (by rw [hlen, h3]; omega)
  have hl : (copyElements bbox els helper s).length = bbox.length := by rw [c1, h3]
  have hse : s ≤ e := by omega
  refine ⟨hl, length_copyInto_slice _ _ _ _ (by omega) (by omega) h2 hl, ?_, ?_⟩
  · rw [← c2, hlen]
    have e1 : s + (e - s) = e := by ring
    rw [e1]
    apply List.map_congr_left
    intro i hi
    rw [mem_intRange] at hi
    rw [GetBox_copyInto_slice _ _ _ _ h0 hse h2 hl, if_pos hi]
  · intro i hi
    rw [GetBox_copyInto_slice _ _ _ _ h0 hse h2 hl, if_neg (by omega)]

/-! ## `CalcExtents` -/

theorem foldl_min_spec (f : Int → ℚ) (l : List Int) (init : ℚ) :
    l.foldl (fun a i => min (f i) a) init ≤ init ∧
    (∀ i ∈ l, l.foldl (fun a i => min (f i) a) init ≤ f i) ∧
    (l.foldl (fun a i => min (f i) a) init = init ∨
      ∃ i ∈ l, l.foldl (fun a i => min (f i) a) init = f i) := by
  induction l generalizing init with
  | nil => simp
  | cons x rest ih =>
    obtain ⟨h1, h2, h3⟩ := ih (min (f x) init)
    rw [List.foldl_cons]
    refine ⟨h1.trans (min_le_right _ _), ?_, ?_⟩
    · intro i hi
      rcases List.mem_cons.mp hi with rfl | hi
      · exact h1.trans (min_le_left _ _)
      · exact h2 i hi
    · rcases h3 with h3 | ⟨i, hi, h3⟩
      · rcases min_choice (f x) init with hm | hm
        · exact Or.inr ⟨x, List.mem_cons_self _ _, by rw [h3, hm]⟩
        · exact Or.inl (by rw [h3, hm])
      · exact Or.inr ⟨i, List.mem_cons_of_mem _ hi, h3⟩

theorem foldl_max_spec (f : Int → ℚ) (l : List Int) (init : ℚ) :
    init ≤ l.foldl (fun a i => max (f i) a) init ∧
    (∀ i ∈ l, f i ≤ l.foldl (fun a i => max (f i) a) init) ∧
    (l.foldl (fun a i => max (f i) a) init = init ∨
      ∃ i ∈ l, l.foldl (fun a i => max (f i) a) init = f i) := by
  induction l generalizing init with
  | nil => simp
  | cons x rest ih =>
    obtain ⟨h1, h2, h3⟩ := ih (max (f x) init)
    rw [List.foldl_cons]
    refine ⟨(le_max_right _ _).trans h1, ?_, ?_⟩
    · intro i hi
      rcases List.mem_cons.mp hi with rfl | hi
      · exact (le_max_left _ _).trans h1
      · exact h2 i hi
    · rcases h3 with h3 | ⟨i, hi, h3⟩
      · rcases max_choice (f x) init with hm | hm
        · exact Or.inr ⟨x, List.mem_cons_self _ _, by rw [h3, hm]⟩
        · exact Or.inl (by rw [h3, hm])
      · exact Or.inr ⟨i, List.mem_cons_of_mem _ hi, h3⟩

theorem foldl_step_fields (bbox : List ℚ) (l : List Int) (acc : Bounds) :
    (l.foldl (CalcExtents.step bbox) acc).minX =
      l.foldl (fun a i => min ((GetBox bbox i).MinX) a) acc.minX ∧
    (l.foldl (CalcExtents.step bbox) acc).minY =
      l.foldl (fun a i => min ((GetBox bbox i).MinY) a) acc.minY ∧
    (l.foldl (CalcExtents.step bbox) acc).minZ =
      l.foldl (fun a i => min ((GetBox bbox i).MinZ) a) acc.minZ ∧
    (l.foldl (CalcExtents.step bbox) acc).maxX =
      l.foldl (fun a i => max ((GetBox bbox i).MaxX) a) acc.maxX ∧
    (l.foldl (CalcExtents.step bbox) acc).maxY =
      l.foldl (fun a i => max ((GetBox bbox i).MaxY) a) acc.maxY ∧
    (l.foldl (CalcExtents.step bbox) acc).maxZ =
      l.foldl (fun a i => max ((GetBox bbox i).MaxZ) a) acc.maxZ := by
  induction l generalizing acc with
  | nil => simp
  | cons x rest ih =>
    simp only [List.foldl_cons]
    exact ih _

theorem EPSILON_pos : 0 < EPSILON := by norm_num [EPSILON]

theorem capped_zero : Capped ⟨0, 0, 0⟩ ⟨0, 0, 0⟩ := by
  norm_num [Capped, EPSILON, MaxFloat64]

theorem CalcExtents_fields (bbox : List ℚ) (s e : Int) (eps : ℚ) (h : s < e) :
    (CalcExtents bbox s e eps).1.X =
      (intRange s e).foldl (fun a i => min ((GetBox bbox i).MinX) a) MaxFloat64 - eps ∧
    (CalcExtents bbox s e eps).1.Y =
      (intRange s e).foldl (fun a i => min ((GetBox bbox i).MinY) a) MaxFloat64 - eps ∧
    (CalcExtents bbox s e eps).1.Z =
      (intRange s e).foldl (fun a i => min ((GetBox bbox i).MinZ) a) MaxFloat64 - eps ∧
    (CalcExtents bbox s e eps).2.X =
      (intRange s e).foldl (fun a i => max ((GetBox bbox i).MaxX) a) (-MaxFloat64) + eps ∧
    (CalcExtents bbox s e eps).2.Y =
      (intRange s e).foldl (fun a i => max ((GetBox bbox i).MaxY) a) (-MaxFloat64) + eps ∧
    (CalcExtents bbox s e eps).2.Z =
      (intRange s e).foldl (fun a i => max ((GetBox bbox i).MaxZ) a) (-MaxFloat64) + eps := by
  have hn : ¬ s ≥ e := by omega
  obtain ⟨f1, f2, f3, f4, f5, f6⟩ := foldl_step_fields bbox (intRange s e)
    ⟨MaxFloat64, MaxFloat64, MaxFloat64, -MaxFloat64, -MaxFloat64, -MaxFloat64⟩
  simp only [CalcExtents, if_neg hn]
  exact ⟨by rw [f1], by rw [f2], by rw [f3], by rw [f4], by rw [f5], by rw [f6]⟩

theorem CalcExtents_spec (bbox : List ℚ) (s e : Int) (h : s < e) :
    Encloses bbox (CalcExtents bbox s e EPSILON).1 (CalcExtents bbox s e EPSILON).2 s e ∧
    Capped (CalcExtents bbox s e EPSILON).1 (CalcExtents bbox s e EPSILON).2 ∧
    ∀ pmn pmx, Encloses bbox pmn pmx s e → Capped pmn pmx →
      pmn.X ≤ (CalcExtents bbox s e EPSILON).1.X ∧ pmn.Y ≤ (CalcExtents bbox s e EPSILON).1.Y ∧
      pmn.Z ≤ (CalcExtents bbox s e EPSILON).1.Z ∧ (CalcExtents bbox s e EPSILON).2.X ≤ pmx.X ∧
      (CalcExtents bbox s e EPSILON).2.Y ≤ pmx.Y ∧ (CalcExtents bbox s e EPSILON).2.Z ≤ pmx.Z := by
  obtain ⟨f1, f2, f3, f4, f5, f6⟩ := CalcExtents_fields bbox s e EPSILON h
  obtain ⟨a1, b1, c1⟩ := foldl_min_spec (fun i => (GetBox bbox i).MinX) (intRange s e) MaxFloat64
  obtain ⟨a2, b2, c2⟩ := foldl_min_spec (fun i => (GetBox bbox i).MinY) (intRange s e) MaxFloat64
  obtain ⟨a3, b3, c3⟩ := foldl_min_spec (fun i => (GetBox bbox i).MinZ) (intRange s e) MaxFloat64
  obtain ⟨a4, b4, c4⟩ := foldl_max_spec (fun i => (GetBox bbox i).MaxX) (intRange s e)
    (-MaxFloat64)
  obtain ⟨a5, b5, c5⟩ := foldl_max_spec (fun i => (GetBox bbox i).MaxY) (intRange s e)
    (-MaxFloat64)
  obtain ⟨a6, b6, c6⟩ := foldl_max_spec (fun i => (GetBox bbox i).MaxZ) (intRange s e)
    (-MaxFloat64)
  refine ⟨?_, ?_, ?_⟩
  · intro i hi1 hi2
    have hi : i ∈ intRange s e := (mem_intRange s e i).mpr ⟨hi1, hi2⟩
    have := b1 i hi; have := b2 i hi; have := b3 i hi
    have := b4 i hi; have := b5 i hi; have := b6 i hi
    refine ⟨?_, ?_, ?_, ?_, ?_, ?_⟩ <;> linarith
  · refine ⟨?_, ?_, ?_, ?_, ?_, ?_⟩ <;> linarith
  · intro pmn pmx hE hC
    obtain ⟨k1, k2, k3, k4, k5, k6⟩ := hC
    refine ⟨?_, ?_, ?_, ?_, ?_, ?_⟩
    · rcases c1 with c | ⟨i, hi, c⟩
      · rw [f1, c]; exact k1
      · rw [f1, c]; rw [mem_intRange] at hi; exact (hE i hi.1 hi.2).1
    · rcases c2 with c | ⟨i, hi, c⟩
      · rw [f2, c]; exact k2
      · rw [f2, c]; rw [mem_intRange] at hi; exact (hE i hi.1 hi.2).2.1
    · rcases c3 with c | ⟨i, hi, c⟩
      · rw [f3, c]; exact k3
      · rw [f3, c]; rw [mem_intRange] at hi; exact (hE i hi.1 hi.2).2.2.1
    · rcases c4 with c | ⟨i, hi, c⟩
      · rw [f4, c]; linarith
      · rw [f4, c]; rw [mem_intRange] at hi; exact (hE i hi.1 hi.2).2.2.2.1
    · rcases c5 with c | ⟨i, hi, c⟩
      · rw [f5, c]; linarith
      · rw [f5, c]; rw [mem_intRange] at hi; exact (hE i hi.1 hi.2).2.2.2.2.1
    · rcases c6 with c | ⟨i, hi, c⟩
      · rw [f6, c]; linarith
      · rw [f6, c]; rw [mem_intRange] at hi; exact (hE i hi.1 hi.2).2.2.2.2.2

/-! ## The tree invariant -/

theorem objectCenter_congr (a b : List ℚ) (i : Int) (j : Nat) (h : GetBox a i = GetBox b i) :
    objectCenter a i j = objectCenter b i j := by
  simp only [GetBox, BoundingBox.mk.injEq] at h
  obtain ⟨_, h1, h2, h3, h4, h5, h6⟩ := h
  unfold objectCenter
  split <;> simp only [h1, h2, h3, h4, h5, h6]

theorem splitFailed_congr (a b : List ℚ) (node : Node) (j : Nat)
    (h : ∀ i, node.StartIndex ≤ i → i < node.EndIndex → GetBox a i = GetBox b i) :
    splitFailed a node j = splitFailed b node j := by
  have hl : leftNode a node j = leftNode b node j := by
    unfold leftNode
    apply List.filter_congr
    intro i hi
    rw [mem_intRange] at hi
    rw [objectCenter_congr a b i j (h i hi.1 hi.2)]
  have hr : rightNode a node j = rightNode b node j := by
    unfold rightNode
    apply List.filter_congr
    intro i hi
    rw [mem_intRange] at hi
    rw [objectCenter_congr a b i j (h i hi.1 hi.2)]
  unfold splitFailed
  rw [hl, hr]

theorem Final_congr (a b : List ℚ) (m : Int) (node : Node)
    (h : ∀ i, node.StartIndex ≤ i → i < node.EndIndex → GetBox a i = GetBox b i)
    (hf : Final b m node) : Final a m node := by
  rcases hf with hf | ⟨h0, h1, h2⟩
  · exact Or.inl hf
  · exact Or.inr ⟨by rw [splitFailed_congr a b node 0 h]; exact h0,
      by rw [splitFailed_congr a b node 1 h]; exact h1,
      by rw [splitFailed_congr a b node 2 h]; exact h2⟩

theorem Inv_bounds {bbox : List ℚ} {m : Int} {work : List (List Bool)} {p : List Bool}
    {n : Node} {lo hi : Int} (h : Inv bbox m work p n lo hi) : 0 ≤ lo ∧ lo ≤ hi := by
  cases h with
  | leaf => exact ⟨by assumption, by assumption⟩
  | inner => exact ⟨by assumption, by omega⟩

theorem Inv_frame {bbox bbox' : List ℚ} {m : Int} {work work' : List (List Bool)}
    {p : List Bool} {n : Node} {lo hi : Int} (h : Inv bbox m work p n lo hi)
    (hb : ∀ i, lo ≤ i → i < hi → GetBox bbox' i = GetBox bbox i)
    (hw : ∀ w, p <+: w → w ∈ work → w ∈ work') : Inv bbox' m work' p n lo hi := by
  induction h with
  | leaf p mn mx s e l h0 h1 hl hE hC hF =>
    refine Inv.leaf p mn mx s e l h0 h1 hl ?_ hC ?_
    · intro i hi1 hi2
      rw [hb i hi1 hi2]
      exact hE i hi1 hi2
    · rcases hF with hF | hF
      · exact Or.inl (hw p (List.prefix_refl p) hF)
      · exact Or.inr (Final_congr bbox' bbox m _ (fun i a b => hb i a b) hF)
  | inner p mn mx l n0 n1 s k e h0 h1 h2 hl hE hC _ _ hB0 hB1 ih0 ih1 =>
    refine Inv.inner p mn mx l n0 n1 s k e h0 h1 h2 hl ?_ hC ?_ ?_ hB0 hB1
    · intro i hi1 hi2
      rw [hb i hi1 hi2]
      exact hE i hi1 hi2
    · exact ih0 (fun i a b => hb i a (by omega))
        (fun w hp => hw w ((List.prefix_append p [false]).trans hp))
    · exact ih1 (fun i a b => hb i (by omega) b)
        (fun w hp => hw w ((List.prefix_append p [true]).trans hp))

theorem Inv_get_leaf {bbox : List ℚ} {m : Int} {work : List (List Bool)} {p : List Bool}
    {n : Node} {lo hi : Int} (h : Inv bbox m work p n lo hi) (q : List Bool)
    (hq : (n.get q).ElementCount ≠ 0) :
    ∃ mn mx s e l, n.get q = Node.ref mn mx s e l Node.nil Node.nil ∧ lo ≤ s ∧ e ≤ hi ∧
      0 ≤ s ∧ s ≤ e := by
  induction h generalizing q with
  | leaf p mn mx s e l h0 h1 hl hE hC hF =>
    cases q with
    | nil => exact ⟨mn, mx, s, e, l, rfl, le_refl _, le_refl _, h0, h1⟩
    | cons b q' =>
      exfalso
      apply hq
      cases b <;> cases q' <;> simp [Node.get, Node.ElementCount, Node.EndIndex, Node.StartIndex]
  | inner p mn mx l n0 n1 s k e h0 h1 h2 hl hE hC _ _ hB0 hB1 ih0 ih1 =>
    cases q with
    | nil =>
      exfalso
      apply hq
      simp [Node.get, Node.ElementCount, Node.EndIndex, Node.StartIndex]
    | cons b q' =>
      cases b with
      | false =>
        obtain ⟨mn', mx', s', e', l', hg, a1, a2, a3, a4⟩ := ih0 q' (by simpa [Node.get] using hq)
        exact ⟨mn', mx', s', e', l', by simpa [Node.get] using hg, by omega, by omega, a3, a4⟩
      | true =>
        obtain ⟨mn', mx', s', e', l', hg, a1, a2, a3, a4⟩ := ih1 q' (by simpa [Node.get] using hq)
        exact ⟨mn', mx', s', e', l', by simpa [Node.get] using hg, by omega, by omega, a3, a4⟩

theorem Encloses_reorder {bbox bbox' : List ℚ} {mn mx : Vector3} {lo hi s e : Int}
    (hE : Encloses bbox mn mx lo hi) (h1 : lo ≤ s) (h2 : e ≤ hi)
    (ha : ∀ i, i < s ∨ e ≤ i → GetBox bbox' i = GetBox bbox i)
    (hb : ∀ i, s ≤ i → i < e → ∃ i', s ≤ i' ∧ i' < e ∧ GetBox bbox' i = GetBox bbox i') :
    Encloses bbox' mn mx lo hi := by
  intro i hi1 hi2
  by_cases hin : s ≤ i ∧ i < e
  · obtain ⟨i', h3, h4, h5⟩ := hb i hin.1 hin.2
    rw [h5]
    exact hE i' (by omega) (by omega)
  · rw [ha i (by omega)]
    exact hE i hi1 hi2

theorem modify_extents (f : Node → Node) (hf : ∀ x, (f x).ExtentsMin = x.ExtentsMin ∧
    (f x).ExtentsMax = x.ExtentsMax) (n : Node) (q : List Bool) :
    (n.modify f q).ExtentsMin = n.ExtentsMin ∧ (n.modify f q).ExtentsMax = n.ExtentsMax := by
  cases q with
  | nil => cases n <;> exact hf _
  | cons b q' =>
    cases n with
    | nil => exact ⟨rfl, rfl⟩
    | ref mn mx s e l n0 n1 =>
      cases b <;> exact ⟨rfl, rfl⟩

theorem Inv_split {bbox bbox' : List ℚ} {m : Int} {work : List (List Bool)}
    (work' : List (List Bool)) {mn mx : Vector3} {s e l : Int} (k : Int) (q : List Bool)
    (ha : ∀ i, i < s ∨ e ≤ i → GetBox bbox' i = GetBox bbox i)
    (hb : ∀ i, s ≤ i → i < e → ∃ i', s ≤ i' ∧ i' < e ∧ GetBox bbox' i = GetBox bbox i')
    (hsk : s < k) (hke : k < e) {p : List Bool} {n : Node} {lo hi : Int}
    (h : Inv bbox m work p n lo hi)
    (hg : n.get q = Node.ref mn mx s e l Node.nil Node.nil)
    (hw : ∀ w, w ∈ work → w ≠ p ++ q → w ∈ work')
    (hw0 : p ++ q ++ [false] ∈ work') (hw1 : p ++ q ++ [true] ∈ work') :
    Inv bbox' m work' p (n.modify (fun x => Node.ref x.ExtentsMin x.ExtentsMax (-1) (-1) x.Level
      (NewBVHNode (CalcExtents bbox' s k EPSILON).1 (CalcExtents bbox' s k EPSILON).2 s k
        (l + 1))
      (NewBVHNode (CalcExtents bbox' k e EPSILON).1 (CalcExtents bbox' k e EPSILON).2 k e
        (l + 1))) q) lo hi := by
  induction q generalizing p n lo hi with
  | nil =>
    have hn : n = Node.ref mn mx s e l Node.nil Node.nil := by
      cases n with
      | nil => simp [Node.get] at hg
      | ref _ _ _ _ _ _ _ => simpa [Node.get] using hg
    subst hn
    cases h with
    | inner _ _ _ _ _ _ _ _ _ _ _ _ _ _ _ hI0 => cases hI0
    | leaf _ _ _ _ _ _ h0 h1 hl hE hC hF =>
      simp only [Node.modify, Node.ExtentsMin, Node.ExtentsMax, Node.Level]
      have hE' : Encloses bbox' mn mx s e := Encloses_reorder hE (le_refl _) (le_refl _) ha hb
      obtain ⟨c1, c2, c3⟩ := CalcExtents_spec bbox' s k hsk
      obtain ⟨d1, d2, d3⟩ := CalcExtents_spec bbox' k e hke
      simp only [List.append_nil] at hw0 hw1
      refine Inv.inner p mn mx l _ _ s k e h0 hsk hke hl hE' hC ?_ ?_ ?_ ?_
      · exact Inv.leaf _ _ _ s k (l + 1) h0 hsk.le (by simp [hl]) c1 c2 (Or.inl hw0)
      · exact Inv.leaf _ _ _ k e (l + 1) (by omega) hke.le (by simp [hl]) d1 d2 (Or.inl hw1)
      · exact c3 mn mx (fun i a b => hE' i a (by omega)) hC
      · exact d3 mn mx (fun i a b => hE' i (by omega) b) hC
  | cons b q' ih =>
    cases h with
    | leaf _ _ _ _ _ _ h0 h1 hl hE hC hF =>
      exfalso
      cases b <;> cases q' <;> simp [Node.get] at hg
    | inner _ mn' mx' l' n0 n1 s' k' e' h0 h1 h2 hl hE hC hI0 hI1 hB0 hB1 =>
      have hf : ∀ x : Node, (Node.ref x.ExtentsMin x.ExtentsMax (-1) (-1) x.Level
          (NewBVHNode (CalcExtents bbox' s k EPSILON).1 (CalcExtents bbox' s k EPSILON).2 s k
            (l + 1))
          (NewBVHNode (CalcExtents bbox' k e EPSILON).1 (CalcExtents bbox' k e EPSILON).2 k e
            (l + 1))).ExtentsMin = x.ExtentsMin ∧
          (Node.ref x.ExtentsMin x.ExtentsMax (-1) (-1) x.Level
          (NewBVHNode (CalcExtents bbox' s k EPSILON).1 (CalcExtents bbox' s k EPSILON).2 s k
            (l + 1))
          (NewBVHNode (CalcExtents bbox' k e EPSILON).1 (CalcExtents bbox' k e EPSILON).2 k e
            (l + 1))).ExtentsMax = x.ExtentsMax := fun x => ⟨rfl, rfl⟩
      cases b with
      | false =>
        simp only [Node.get, Bool.false_eq_true, if_false] at hg
        simp only [Node.modify, Bool.false_eq_true, if_false]
        obtain ⟨_, _, _, _, _, hg', b1, b2, _, _⟩ := Inv_get_leaf hI0 q' (by
          rw [hg]; simp [Node.ElementCount, Node.EndIndex, Node.StartIndex]; omega)
        rw [hg] at hg'
        simp only [Node.ref.injEq] at hg'
        obtain ⟨_, _, rfl, rfl, _⟩ := hg'
        refine Inv.inner p mn' mx' l' _ n1 lo k' hi h0 h1 h2 hl
          (Encloses_reorder hE (by omega) (by omega) ha hb) hC ?_ ?_ ?_ hB1
        · refine ih hI0 hg ?_ ?_ ?_
          · intro w hw1 hw2
            exact hw w hw1 (by simpa using hw2)
          · simpa using hw0
          · simpa using hw1
        · refine Inv_frame hI1 (fun i a b => ha i (by omega)) ?_
          intro w hp hw1
          refine hw w hw1 ?_
          rintro rfl
          rw [List.prefix_append_right_inj] at hp
          simp at hp
        · obtain ⟨e1, e2⟩ := modify_extents _ hf n0 q'
          unfold BoxWithin
          rw [e1, e2]
          exact hB0
      | true =>
        simp only [Node.get, if_true] at hg
        simp only [Node.modify, if_true]
        obtain ⟨_, _, _, _, _, hg', b1, b2, _, _⟩ := Inv_get_leaf hI1 q' (by
          rw [hg]; simp [Node.ElementCount, Node.EndIndex, Node.StartIndex]; omega)
        rw [hg] at hg'
        simp only [Node.ref.injEq] at hg'
        obtain ⟨_, _, rfl, rfl, _⟩ := hg'
        refine Inv.inner p mn' mx' l' n0 _ lo k' hi h0 h1 h2 hl
          (Encloses_reorder hE (by omega) (by omega) ha hb) hC ?_ ?_ hB0 ?_
        · refine Inv_frame hI0 (fun i a b => ha i (by omega)) ?_
          intro w hp hw1
          refine hw w hw1 ?_
          rintro rfl
          rw [List.prefix_append_right_inj] at hp
          simp at hp
        · refine ih hI1 hg ?_ ?_ ?_
          · intro w hw1 hw2
            exact hw w hw1 (by simpa using hw2)
          · simpa using hw0
          · simpa using hw1
        · obtain ⟨e1, e2⟩ := modify_extents _ hf n1 q'
          unfold BoxWithin
          rw [e1, e2]
          exact hB1

theorem Inv_pop {bbox : List ℚ} {m : Int} {work work' : List (List Bool)}
    {p : List Bool} {n : Node} {lo hi : Int} (h : Inv bbox m work p n lo hi)
    (hw : ∀ q, p ++ q ∈ work → p ++ q ∈ work' ∨ Final bbox m (n.get q)) :
    Inv bbox m work' p n lo hi := by
  induction h with
  | leaf p mn mx s e l h0 h1 hl hE hC hF =>
    refine Inv.leaf p mn mx s e l h0 h1 hl hE hC ?_
    rcases hF with hF | hF
    · have := hw [] (by simpa using hF)
      simpa [Node.get] using this
    · exact Or.inr hF
  | inner p mn mx l n0 n1 s k e h0 h1 h2 hl hE hC _ _ hB0 hB1 ih0 ih1 =>
    refine Inv.inner p mn mx l n0 n1 s k e h0 h1 h2 hl hE hC ?_ ?_ hB0 hB1
    · apply ih0
      intro q hq
      have := hw (false :: q) (by simpa using hq)
      simpa [Node.get] using this
    · apply ih1
      intro q hq
      have := hw (true :: q) (by simpa using hq)
      simpa [Node.get] using this

theorem leaves_ref (mn mx : Vector3) (s e l : Int) (n0 n1 : Node)
    (h : n0.isRef = true ∨ n1.isRef = true) :
    (Node.ref mn mx s e l n0 n1).leaves = n0.leaves + n1.leaves := by
  cases n0 <;> cases n1 <;> simp_all [Node.leaves, Node.isRef]

theorem isRef_of_get {n : Node} {q : List Bool} (h : (n.get q).isRef = true) :
    n.isRef = true := by
  cases n with
  | nil => cases q <;> simp [Node.get, Node.isRef] at h
  | ref _ _ _ _ _ _ _ => rfl

theorem isRef_modify (f : Node → Node) (hf : ∀ x, (f x).isRef = true) (n : Node) (q : List Bool)
    (h : n.isRef = true) : (n.modify f q).isRef = true := by
  cases n with
  | nil => simp [Node.isRef] at h
  | ref mn mx s e l n0 n1 =>
    cases q with
    | nil => exact hf _
    | cons b q' => cases b <;> rfl

theorem leaves_modify (f : Node → Node) (hf : ∀ x, (f x).isRef = true)
    (hf2 : ∀ x, (f x).leaves = 2) (n : Node) (q : List Bool) (mn mx : Vector3) (s e l : Int)
    (h : n.get q = Node.ref mn mx s e l Node.nil Node.nil) :
    (n.modify f q).leaves = n.leaves + 1 := by
  induction q generalizing n with
  | nil =>
    have hn : n = Node.ref mn mx s e l Node.nil Node.nil := by
      cases n with
      | nil => simp [Node.get] at h
      | ref _ _ _ _ _ _ _ => simpa [Node.get] using h
    subst hn
    simp [Node.modify, hf2, Node.leaves]
  | cons b q' ih =>
    cases n with
    | nil => simp [Node.get] at h
    | ref mn' mx' s' e' l' n0 n1 =>
      cases b with
      | false =>
        simp only [Node.get, Bool.false_eq_true, if_false] at h
        have hr : n0.isRef = true := isRef_of_get (by rw [h]; rfl)
        simp only [Node.modify, Bool.false_eq_true, if_false]
        rw [leaves_ref _ _ _ _ _ _ _ (Or.inl (isRef_modify f hf n0 q' hr)),
          leaves_ref _ _ _ _ _ _ _ (Or.inl hr), ih n0 h]
        omega
      | true =>
        simp only [Node.get, if_true] at h
        have hr : n1.isRef = true := isRef_of_get (by rw [h]; rfl)
        simp only [Node.modify, if_true]
        rw [leaves_ref _ _ _ _ _ _ _ (Or.inr (isRef_modify f hf n1 q' hr)),
          leaves_ref _ _ _ _ _ _ _ (Or.inr hr), ih n1 h]
        omega

theorem Inv_isRef {bbox : List ℚ} {m : Int} {work : List (List Bool)} {p : List Bool}
    {n : Node} {lo hi : Int} (h : Inv bbox m work p n lo hi) : n.isRef = true := by
  cases h <;> rfl

theorem Inv_leaves {bbox : List ℚ} {m : Int} {work : List (List Bool)} {p : List Bool}
    {n : Node} {lo hi : Int} (h : Inv bbox m work p n lo hi) :
    1 ≤ n.leaves ∧ (n.leaves : Int) ≤ max (hi - lo) 1 := by
  induction h with
  | leaf p mn mx s e l h0 h1 hl hE hC hF =>
    simp [Node.leaves]
  | inner p mn mx l n0 n1 s k e h0 h1 h2 hl hE hC hI0 hI1 hB0 hB1 ih0 ih1 =>
    rw [leaves_ref _ _ _ _ _ _ _ (Or.inl (Inv_isRef hI0))]
    have e1 : max (k - s) 1 = k - s := max_eq_left (by omega)
    have e2 : max (e - k) 1 = e - k := max_eq_left (by omega)
    have e3 : max (e - s) 1 = e - s := max_eq_left (by omega)
    rw [e1] at ih0
    rw [e2] at ih1
    rw [e3]
    push_cast
    omega

/-! ## One call of `SplitNode` -/

theorem SplitNode_skip (bvh : BVH) (p : List Bool)
    (h : (bvh.rootNode.get p).ElementCount ≤ bvh.maxTrianglesPerNode ∨
      (bvh.rootNode.get p).ElementCount = 0) : SplitNode bvh p = bvh := by
  simp only [SplitNode, if_pos h]

theorem SplitNode_failed (bvh : BVH) (p : List Bool)
    (h : AllAxesFailed bvh.bboxArray (bvh.rootNode.get p)) : SplitNode bvh p = bvh := by
  obtain ⟨h0, h1, h2⟩ := h
  simp only [SplitNode, h0, h1, h2, Bool.and_self, if_true, ite_self]

theorem SplitNode_split (bvh : BVH) (p : List Bool) (c : Nat)
    (h1 : ¬ ((bvh.rootNode.get p).ElementCount ≤ bvh.maxTrianglesPerNode ∨
      (bvh.rootNode.get p).ElementCount = 0))
    (h2 : ¬ AllAxesFailed bvh.bboxArray (bvh.rootNode.get p))
    (hc : chosenAxis bvh.bboxArray (bvh.rootNode.get p) = some c) :
    SplitNode bvh p =
      { bvh with
        bboxArray := copyInto bvh.bboxArray ((bvh.rootNode.get p).StartIndex * 7)
          (slice (copyElements bvh.bboxArray
            (leftNode bvh.bboxArray (bvh.rootNode.get p) c ++
              rightNode bvh.bboxArray (bvh.rootNode.get p) c) bvh.bboxHelper
            (bvh.rootNode.get p).StartIndex) ((bvh.rootNode.get p).StartIndex * 7)
            ((bvh.rootNode.get p).EndIndex * 7))
        bboxHelper := copyElements bvh.bboxArray
            (leftNode bvh.bboxArray (bvh.rootNode.get p) c ++
              rightNode bvh.bboxArray (bvh.rootNode.get p) c) bvh.bboxHelper
            (bvh.rootNode.get p).StartIndex
        rootNode := bvh.rootNode.modify (fun n =>
          Node.ref n.ExtentsMin n.ExtentsMax (-1) (-1) n.Level
            (NewBVHNode
              (CalcExtents (copyInto bvh.bboxArray ((bvh.rootNode.get p).StartIndex * 7)
                (slice (copyElements bvh.bboxArray
                  (leftNode bvh.bboxArray (bvh.rootNode.get p) c ++
                    rightNode bvh.bboxArray (bvh.rootNode.get p) c) bvh.bboxHelper
                  (bvh.rootNode.get p).StartIndex) ((bvh.rootNode.get p).StartIndex * 7)
                  ((bvh.rootNode.get p).EndIndex * 7)))
                (bvh.rootNode.get p).StartIndex
                ((bvh.rootNode.get p).StartIndex +
                  ((leftNode bvh.bboxArray (bvh.rootNode.get p) c).length : Int)) EPSILON).1
              (CalcExtents (copyInto bvh.bboxArray ((bvh.rootNode.get p).StartIndex * 7)
                (slice (copyElements bvh.bboxArray
                  (leftNode bvh.bboxArray (bvh.rootNode.get p) c ++
                    rightNode bvh.bboxArray (bvh.rootNode.get p) c) bvh.bboxHelper
                  (bvh.rootNode.get p).StartIndex) ((bvh.rootNode.get p).StartIndex * 7)
                  ((bvh.rootNode.get p).EndIndex * 7)))
                (bvh.rootNode.get p).StartIndex
                ((bvh.rootNode.get p).StartIndex +
                  ((leftNode bvh.bboxArray (bvh.rootNode.get p) c).length : Int)) EPSILON).2
              (bvh.rootNode.get p).StartIndex
              ((bvh.rootNode.get p).StartIndex +
                  ((leftNode bvh.bboxArray (bvh.rootNode.get p) c).length : Int))
              ((bvh.rootNode.get p).Level + 1))
            (NewBVHNode
              (CalcExtents (copyInto bvh.bboxArray ((bvh.rootNode.get p).StartIndex * 7)
                (slice (copyElements bvh.bboxArray
                  (leftNode bvh.bboxArray (bvh.rootNode.get p) c ++
                    rightNode bvh.bboxArray (bvh.rootNode.get p) c) bvh.bboxHelper
                  (bvh.rootNode.get p).StartIndex) ((bvh.rootNode.get p).StartIndex * 7)
                  ((bvh.rootNode.get p).EndIndex * 7)))
                ((bvh.rootNode.get p).StartIndex +
                  ((leftNode bvh.bboxArray (bvh.rootNode.get p) c).length : Int))
                (bvh.rootNode.get p).EndIndex EPSILON).1
              (CalcExtents (copyInto bvh.bboxArray ((bvh.rootNode.get p).StartIndex * 7)
                (slice (copyElements bvh.bboxArray
                  (leftNode bvh.bboxArray (bvh.rootNode.get p) c ++
                    rightNode bvh.bboxArray (bvh.rootNode.get p) c) bvh.bboxHelper
                  (bvh.rootNode.get p).StartIndex) ((bvh.rootNode.get p).StartIndex * 7)
                  ((bvh.rootNode.get p).EndIndex * 7)))
                ((bvh.rootNode.get p).StartIndex +
                  ((leftNode bvh.bboxArray (bvh.rootNode.get p) c).length : Int))
                (bvh.rootNode.get p).EndIndex EPSILON).2
              ((bvh.rootNode.get p).StartIndex +
                  ((leftNode bvh.bboxArray (bvh.rootNode.get p) c).length : Int))
              (bvh.rootNode.get p).EndIndex
              ((bvh.rootNode.get p).Level + 1))) p
        nodesToSplit := (p ++ [true]) :: (p ++ [false]) :: bvh.nodesToSplit } := by
  have h3 : ¬ ((splitFailed bvh.bboxArray (bvh.rootNode.get p) 0 &&
      splitFailed bvh.bboxArray (bvh.rootNode.get p) 1 &&
      splitFailed bvh.bboxArray (bvh.rootNode.get p) 2) = true) := by
    intro h
    apply h2
    simp only [Bool.and_eq_true] at h
    exact ⟨h.1.1, h.1.2, h.2⟩
  simp only [SplitNode, if_neg h1, if_neg h3, hc]

theorem AllAxesFailed_of_empty (bbox : List ℚ) (node : Node) (h : node.ElementCount = 0) :
    AllAxesFailed bbox node := by
  have he : intRange node.StartIndex node.EndIndex = [] :=
    intRange_empty _ _ (by unfold Node.ElementCount at h; omega)
  refine ⟨?_, ?_, ?_⟩ <;> simp [splitFailed, leftNode, he]

theorem records_reorder {bbox bbox' : List ℚ} {n s e : Int} (els : List Int)
    (h0 : 0 ≤ s) (h1 : s ≤ e) (h2 : e ≤ n)
    (hp : els.Perm (intRange s e))
    (hm : (intRange s e).map (GetBox bbox') = els.map (GetBox bbox))
    (ha : ∀ i, i < s ∨ e ≤ i → GetBox bbox' i = GetBox bbox i) :
    ((intRange 0 n).map (GetBox bbox')).Perm ((intRange 0 n).map (GetBox bbox)) := by
  rw [intRange_append 0 s n h0 (by omega), intRange_append s e n h1 h2]
  simp only [List.map_append]
  have e1 : (intRange 0 s).map (GetBox bbox') = (intRange 0 s).map (GetBox bbox) := by
    apply List.map_congr_left
    intro i hi
    rw [mem_intRange] at hi
    exact ha i (Or.inl hi.2)
  have e2 : (intRange e n).map (GetBox bbox') = (intRange e n).map (GetBox bbox) := by
    apply List.map_congr_left
    intro i hi
    rw [mem_intRange] at hi
    exact ha i (Or.inr hi.1)
  rw [e1, e2, hm]
  exact List.Perm.append_left _ (List.Perm.append_right _ (hp.map _))

theorem SplitNode_LoopInv (va : List ℚ) (n : Int) (bvh : BVH) (p : List Bool)
    (rest : List (List Bool)) (hI : LoopInv va n bvh) (hw : bvh.nodesToSplit = p :: rest) :
    LoopInv va n (SplitNode { bvh with nodesToSplit := rest } p) ∧
    potential n (SplitNode { bvh with nodesToSplit := rest } p) < potential n bvh := by
  obtain ⟨hA, hH, hR, hT⟩ := hI
  rw [hw] at hT
  have hpop : ∀ (_ : Final bvh.bboxArray bvh.maxTrianglesPerNode (bvh.rootNode.get p)),
      LoopInv va n { bvh with nodesToSplit := rest } ∧
      potential n { bvh with nodesToSplit := rest } < potential n bvh := by
    intro hF
    refine ⟨⟨hA, hH, hR, ?_⟩, ?_⟩
    · refine Inv_pop hT ?_
      intro q hq
      simp only [List.nil_append, List.mem_cons] at hq ⊢
      rcases hq with rfl | hq
      · exact Or.inr hF
      · exact Or.inl hq
    · simp only [potential, hw, List.length_cons]
      push_cast
      omega
  by_cases h1 : (bvh.rootNode.get p).ElementCount ≤ bvh.maxTrianglesPerNode ∨
      (bvh.rootNode.get p).ElementCount = 0
  · rw [SplitNode_skip { bvh with nodesToSplit := rest } p h1]
    rcases h1 with h1 | h1
    · exact hpop (Or.inl h1)
    · exact hpop (Or.inr (AllAxesFailed_of_empty _ _ h1))
  by_cases h2 : AllAxesFailed bvh.bboxArray (bvh.rootNode.get p)
  · rw [SplitNode_failed { bvh with nodesToSplit := rest } p h2]
    exact hpop (Or.inr h2)
  obtain ⟨c, hc, hcf⟩ := chosenAxis_some bvh.bboxArray (bvh.rootNode.get p) h2
  rw [SplitNode_split { bvh with nodesToSplit := rest } p c h1 h2 hc]
  obtain ⟨mn, mx, s, e, l, hg, _, hen, h0, hse⟩ := Inv_get_leaf hT p (by
    intro h; exact h1 (Or.inr h))
  simp only [hg, Node.StartIndex, Node.EndIndex, Node.Level]
  have hg' : (Node.ref mn mx s e l Node.nil Node.nil) = bvh.rootNode.get p := hg.symm
  obtain ⟨hl1, hl2⟩ := splitFailed_false _ _ _ hcf
  have hlr := left_right_length bvh.bboxArray (bvh.rootNode.get p) c (by rw [hg]; exact hse)
  have hperm := left_right_perm bvh.bboxArray (bvh.rootNode.get p) c
  rw [hg] at hl1 hl2 hlr hperm
  simp only [Node.StartIndex, Node.EndIndex] at hlr hperm
  obtain ⟨r1, r2, r3, r4⟩ := reorder_spec bvh.bboxArray bvh.bboxHelper s e
    (leftNode bvh.bboxArray (Node.ref mn mx s e l Node.nil Node.nil) c ++
      rightNode bvh.bboxArray (Node.ref mn mx s e l Node.nil Node.nil) c) h0
    (by rw [List.length_append]; push_cast; omega) (by omega) hH
  have hb : ∀ i, s ≤ i → i < e → ∃ i', s ≤ i' ∧ i' < e ∧
      GetBox (copyInto bvh.bboxArray (s * 7) (slice (copyElements bvh.bboxArray
        (leftNode bvh.bboxArray (Node.ref mn mx s e l Node.nil Node.nil) c ++
          rightNode bvh.bboxArray (Node.ref mn mx s e l Node.nil Node.nil) c) bvh.bboxHelper s)
        (s * 7) (e * 7))) i = GetBox bvh.bboxArray i' := by
    intro i hi1 hi2
    have hm : GetBox (copyInto bvh.bboxArray (s * 7) (slice (copyElements bvh.bboxArray
        (leftNode bvh.bboxArray (Node.ref mn mx s e l Node.nil Node.nil) c ++
          rightNode bvh.bboxArray (Node.ref mn mx s e l Node.nil Node.nil) c) bvh.bboxHelper s)
        (s * 7) (e * 7))) i ∈ (intRange s e).map (GetBox (copyInto bvh.bboxArray (s * 7)
          (slice (copyElements bvh.bboxArray
        (leftNode bvh.bboxArray (Node.ref mn mx s e l Node.nil Node.nil) c ++
          rightNode bvh.bboxArray (Node.ref mn mx s e l Node.nil Node.nil) c) bvh.bboxHelper s)
        (s * 7) (e * 7)))) :=
      List.mem_map.mpr ⟨i, (mem_intRange s e i).mpr ⟨hi1, hi2⟩, rfl⟩
    rw [r3, List.mem_map] at hm
    obtain ⟨i', hi', hi'2⟩ := hm
    have := (mem_intRange s e i').mp (hperm.mem_iff.mp hi')
    exact ⟨i', this.1, this.2, hi'2.symm⟩
  refine ⟨⟨?_, ?_, ?_, ?_⟩, ?_⟩
  · simp only []
    rw [r2]; exact hA
  · simp only []
    rw [r1, r2]
  · exact (records_reorder _ h0 hse hen hperm r3 r4).trans hR
  · simp only []
    have := Inv_split ((p ++ [true]) :: (p ++ [false]) :: rest) (s +
      ((leftNode bvh.bboxArray (Node.ref mn mx s e l Node.nil Node.nil) c).length : Int))
      p r4 hb (by omega) (by omega) hT hg
      (by
        intro w hw1 hw2
        simp only [List.nil_append, List.mem_cons] at hw1 hw2 ⊢
        rcases hw1 with rfl | hw1
        · exact absurd rfl hw2
        · exact Or.inr (Or.inr hw1))
      (by simp) (by simp)
    exact this
  · simp only [potential, hw, List.length_cons]
    rw [leaves_modify _ ?_ ?_ _ p mn mx s e l hg]
    · push_cast
      omega
    · intro x; rfl
    · intro x; rfl

/-! ## `CalcBoundingBoxes` and the worklist loop -/

theorem foldl_SetBox_spec (va : List ℚ) (l : List Int) (arr : List ℚ)
    (hb : ∀ i ∈ l, 0 ≤ i ∧ i * 7 + 7 ≤ arr.length) (hn : l.Nodup) :
    (l.foldl (fun bboxArray i =>
      SetBox bboxArray i i
        (min (min (rd va (i * 9)) (rd va (i * 9 + 3))) (rd va (i * 9 + 6)))
        (min (min (rd va (i * 9 + 1)) (rd va (i * 9 + 4))) (rd va (i * 9 + 7)))
        (min (min (rd va (i * 9 + 2)) (rd va (i * 9 + 5))) (rd va (i * 9 + 8)))
        (max (max (rd va (i * 9)) (rd va (i * 9 + 3))) (rd va (i * 9 + 6)))
        (max (max (rd va (i * 9 + 1)) (rd va (i * 9 + 4))) (rd va (i * 9 + 7)))
        (max (max (rd va (i * 9 + 2)) (rd va (i * 9 + 5))) (rd va (i * 9 + 8)))) arr).length =
      arr.length ∧
    (∀ i ∈ l, GetBox (l.foldl (fun bboxArray i =>
      SetBox bboxArray i i
        (min (min (rd va (i * 9)) (rd va (i * 9 + 3))) (rd va (i * 9 + 6)))
        (min (min (rd va (i * 9 + 1)) (rd va (i * 9 + 4))) (rd va (i * 9 + 7)))
        (min (min (rd va (i * 9 + 2)) (rd va (i * 9 + 5))) (rd va (i * 9 + 8)))
        (max (max (rd va (i * 9)) (rd va (i * 9 + 3))) (rd va (i * 9 + 6)))
        (max (max (rd va (i * 9 + 1)) (rd va (i * 9 + 4))) (rd va (i * 9 + 7)))
        (max (max (rd va (i * 9 + 2)) (rd va (i * 9 + 5))) (rd va (i * 9 + 8)))) arr) i =
      triangleBox va i) ∧
    (∀ i, i ∉ l → GetBox (l.foldl (fun bboxArray i =>
      SetBox bboxArray i i
        (min (min (rd va (i * 9)) (rd va (i * 9 + 3))) (rd va (i * 9 + 6)))
        (min (min (rd va (i * 9 + 1)) (rd va (i * 9 + 4))) (rd va (i * 9 + 7)))
        (min (min (rd va (i * 9 + 2)) (rd va (i * 9 + 5))) (rd va (i * 9 + 8)))
        (max (max (rd va (i * 9)) (rd va (i * 9 + 3))) (rd va (i * 9 + 6)))
        (max (max (rd va (i * 9 + 1)) (rd va (i * 9 + 4))) (rd va (i * 9 + 7)))
        (max (max (rd va (i * 9 + 2)) (rd va (i * 9 + 5))) (rd va (i * 9 + 8)))) arr) i =
      GetBox arr i) := by
  induction l generalizing arr with
  | nil => simp
  | cons x rest ih =>
    rw [List.foldl_cons]
    obtain ⟨hx, hrest⟩ := List.nodup_cons.mp hn
    obtain ⟨i1, i2, i3⟩ := ih (SetBox arr x x _ _ _ _ _ _) (by
      intro i hi
      rw [length_SetBox]
      exact hb i (List.mem_cons_of_mem _ hi)) hrest
    refine ⟨by rw [i1, length_SetBox], ?_, ?_⟩
    · intro i hi
      rcases List.mem_cons.mp hi with rfl | hi
      · rw [i3 i hx, GetBox_SetBox_eq _ _ _ _ _ _ _ _ _ (hb i (List.mem_cons_self _ _)).1
          (hb i (List.mem_cons_self _ _)).2]
        rfl
      · exact i2 i hi
    · intro i hi
      rw [List.mem_cons, not_or] at hi
      rw [i3 i hi.2, GetBox_SetBox_ne _ _ _ _ _ _ _ _ _ _ hi.1]

theorem CalcBoundingBoxes_spec (va : List ℚ) :
    ((CalcBoundingBoxes va).length : Int) = triangleCount va * 7 ∧
    ∀ i, 0 ≤ i → i < triangleCount va → GetBox (CalcBoundingBoxes va) i = triangleBox va i := by
  obtain ⟨h1, h2, _⟩ := foldl_SetBox_spec va (intRange 0 (triangleCount va))
    (List.replicate (triangleCount va * 7).toNat 0) (by
      intro i hi
      rw [mem_intRange] at hi
      rw [List.length_replicate]
      unfold triangleCount at hi ⊢
      omega) (nodup_intRange _ _)
  refine ⟨?_, ?_⟩
  · unfold CalcBoundingBoxes
    simp only []
    unfold triangleCount at h1 ⊢
    rw [h1, List.length_replicate]
    omega
  · intro i hi1 hi2
    exact h2 i ((mem_intRange _ _ _).mpr ⟨hi1, hi2⟩)

theorem SplitNode_fields (bvh : BVH) (p : List Bool) :
    (SplitNode bvh p).vertexArray = bvh.vertexArray ∧
    (SplitNode bvh p).maxTrianglesPerNode = bvh.maxTrianglesPerNode := by
  unfold SplitNode
  simp only []
  split_ifs <;> exact ⟨rfl, rfl⟩

theorem splitLoop_fields (fuel : Nat) (bvh : BVH) :
    (splitLoop fuel bvh).vertexArray = bvh.vertexArray ∧
    (splitLoop fuel bvh).maxTrianglesPerNode = bvh.maxTrianglesPerNode := by
  induction fuel generalizing bvh with
  | zero => exact ⟨rfl, rfl⟩
  | succ fuel ih =>
    unfold splitLoop
    cases hw : bvh.nodesToSplit with
    | nil => exact ⟨rfl, rfl⟩
    | cons p rest =>
      simp only []
      obtain ⟨a1, a2⟩ := ih (SplitNode { bvh with nodesToSplit := rest } p)
      obtain ⟨b1, b2⟩ := SplitNode_fields { bvh with nodesToSplit := rest } p
      exact ⟨a1.trans b1, a2.trans b2⟩

theorem potential_ge (va : List ℚ) (n : Int) (bvh : BVH) (hI : LoopInv va n bvh) :
    (bvh.nodesToSplit.length : Int) ≤ potential n bvh := by
  have := (Inv_leaves hI.tree).2
  unfold potential
  simp only [sub_zero] at this
  omega

theorem splitLoop_LoopInv (va : List ℚ) (n : Int) (fuel : Nat) (bvh : BVH)
    (hI : LoopInv va n bvh) (hf : potential n bvh ≤ fuel) :
    LoopInv va n (splitLoop fuel bvh) ∧ (splitLoop fuel bvh).nodesToSplit = [] := by
  induction fuel generalizing bvh with
  | zero =>
    have h1 := potential_ge va n bvh hI
    have h2 : bvh.nodesToSplit.length = 0 := by
      simp only [Nat.cast_zero] at hf
      omega
    exact ⟨hI, List.length_eq_zero.mp h2⟩
  | succ fuel ih =>
    unfold splitLoop
    cases hw : bvh.nodesToSplit with
    | nil => exact ⟨hI, hw⟩
    | cons p rest =>
      simp only []
      obtain ⟨s1, s2⟩ := SplitNode_LoopInv va n bvh p rest hI hw
      exact ih _ s1 (by push_cast at hf; omega)

theorem NewBVHFromVertexArray_inv (va : List ℚ) (m : Int) :
    LoopInv va (triangleCount va) (NewBVHFromVertexArray va m) ∧
    (NewBVHFromVertexArray va m).nodesToSplit = [] ∧
    (NewBVHFromVertexArray va m).vertexArray = va ∧
    (NewBVHFromVertexArray va m).maxTrianglesPerNode = m := by
  obtain ⟨c1, c2⟩ := CalcBoundingBoxes_spec va
  have hn : 0 ≤ triangleCount va := by unfold triangleCount; omega
  have hinit : LoopInv va (triangleCount va)
      { vertexArray := va, maxTrianglesPerNode := m, bboxArray := CalcBoundingBoxes va,
        bboxHelper := CalcBoundingBoxes va,
        rootNode := NewBVHNode (CalcExtents (CalcBoundingBoxes va) 0 (triangleCount va) EPSILON).1
          (CalcExtents (CalcBoundingBoxes va) 0 (triangleCount va) EPSILON).2 0
          (triangleCount va) 0,
        nodesToSplit := [[]] } := by
    refine ⟨c1, rfl, ?_, ?_⟩
    · simp only []
      rw [List.map_congr_left (fun i hi => c2 i ((mem_intRange _ _ _).mp hi).1
        ((mem_intRange _ _ _).mp hi).2)]
    · simp only [NewBVHNode]
      rcases hn.lt_or_eq with h | h
      · obtain ⟨e1, e2, _⟩ := CalcExtents_spec (CalcBoundingBoxes va) 0 (triangleCount va) h
        exact Inv.leaf [] _ _ 0 _ 0 (le_refl _) hn rfl e1 e2 (Or.inl (List.mem_singleton.mpr rfl))
      · rw [← h]
        have : CalcExtents (CalcBoundingBoxes va) 0 0 EPSILON = (⟨0, 0, 0⟩, ⟨0, 0, 0⟩) := by
          simp [CalcExtents]
        rw [this]
        exact Inv.leaf [] _ _ 0 _ 0 (le_refl _) (le_refl _) rfl (fun i a b => by omega)
          capped_zero (Or.inl (List.mem_singleton.mpr rfl))
  have hpot : potential (triangleCount va)
      { vertexArray := va, maxTrianglesPerNode := m, bboxArray := CalcBoundingBoxes va,
        bboxHelper := CalcBoundingBoxes va,
        rootNode := NewBVHNode (CalcExtents (CalcBoundingBoxes va) 0 (triangleCount va) EPSILON).1
          (CalcExtents (CalcBoundingBoxes va) 0 (triangleCount va) EPSILON).2 0
          (triangleCount va) 0,
        nodesToSplit := [[]] } ≤ ((2 * (va.length / 9) + 1 : Nat) : Int) := by
    simp only [potential, NewBVHNode, Node.leaves, List.length_singleton, triangleCount]
    push_cast
    omega
  obtain ⟨l1, l2⟩ := splitLoop_LoopInv va (triangleCount va) _ _ hinit hpot
  obtain ⟨f1, f2⟩ := splitLoop_fields (2 * (va.length / 9) + 1)
      { vertexArray := va, maxTrianglesPerNode := m, bboxArray := CalcBoundingBoxes va,
        bboxHelper := CalcBoundingBoxes va,
        rootNode := NewBVHNode (CalcExtents (CalcBoundingBoxes va) 0 (triangleCount va) EPSILON).1
          (CalcExtents (CalcBoundingBoxes va) 0 (triangleCount va) EPSILON).2 0
          (triangleCount va) 0,
        nodesToSplit := [[]] }
  exact ⟨l1, l2, f1, f2⟩

/-! ## Invariants of the built tree -/

theorem get_nil_path (n : Node) : n.get [] = n := by
  cases n <;> rfl

theorem Inv_get {bbox : List ℚ} {m : Int} {work : List (List Bool)} (q : List Bool)
    {p : List Bool} {n : Node} {lo hi : Int} (h : Inv bbox m work p n lo hi)
    (hq : (n.get q).isRef = true) :
    ∃ lo' hi', Inv bbox m work (p ++ q) (n.get q) lo' hi' ∧ lo ≤ lo' ∧ hi' ≤ hi := by
  induction q generalizing p n lo hi with
  | nil =>
    rw [get_nil_path, List.append_nil]
    exact ⟨lo, hi, h, le_refl _, le_refl _⟩
  | cons b q' ih =>
    cases h with
    | leaf _ _ _ _ _ _ h0 h1 hl hE hC hF =>
      exfalso
      cases b <;> cases q' <;> simp [Node.get, Node.isRef] at hq
    | inner _ mn mx l n0 n1 s k e h0 h1 h2 hl hE hC hI0 hI1 hB0 hB1 =>
      cases b with
      | false =>
        simp only [Node.get, Bool.false_eq_true, if_false] at hq ⊢
        obtain ⟨lo', hi', a1, a2, a3⟩ := ih hI0 hq
        exact ⟨lo', hi', by simpa using a1, a2, by omega⟩
      | true =>
        simp only [Node.get, if_true] at hq ⊢
        obtain ⟨lo', hi', a1, a2, a3⟩ := ih hI1 hq
        exact ⟨lo', hi', by simpa using a1, by omega, a3⟩

theorem isRef_of_isLeaf {n : Node} (h : n.isLeaf = true) : n.isRef = true := by
  cases n with
  | nil => simp [Node.isLeaf] at h
  | ref _ _ _ _ _ _ _ => rfl

theorem leafIds_Inv {bbox : List ℚ} {m : Int} {work : List (List Bool)} {p : List Bool}
    {n : Node} {lo hi : Int} (h : Inv bbox m work p n lo hi) :
    leafIds bbox n = (intRange lo hi).map (fun i => (GetBox bbox i).TriangleID) := by
  induction h with
  | leaf p mn mx s e l h0 h1 hl hE hC hF => rfl
  | inner p mn mx l n0 n1 s k e h0 h1 h2 hl hE hC hI0 hI1 hB0 hB1 ih0 ih1 =>
    have hr : n0.isRef = true := Inv_isRef hI0
    have : leafIds bbox (Node.ref mn mx (-1) (-1) l n0 n1) = leafIds bbox n0 ++ leafIds bbox n1 := by
      cases n0 with
      | nil => simp [Node.isRef] at hr
      | ref _ _ _ _ _ _ _ => rfl
    rw [this, ih0, ih1, intRange_append s k e (by omega) (by omega), List.map_append]

/-- Claim C2.  In the tree built by `NewBVHFromVertexArray`, the triangle ids stored in
`bboxArray` over the ranges of all leaves are the ids `0, ..., triangleCount - 1`, each
exactly once. -/
theorem permutation_invariant (vertexArray : List ℚ) (maxTrianglesPerNode : Int) :
    (leafIds (NewBVHFromVertexArray vertexArray maxTrianglesPerNode).bboxArray
      (NewBVHFromVertexArray vertexArray maxTrianglesPerNode).rootNode).Perm
      (intRange 0 (triangleCount vertexArray)) := by
  obtain ⟨hI, _, _, _⟩ := NewBVHFromVertexArray_inv vertexArray maxTrianglesPerNode
  rw [leafIds_Inv hI.tree]
  have h := hI.records.map BoundingBox.TriangleID
  rw [List.map_map, List.map_map] at h
  have e : (intRange 0 (triangleCount vertexArray)).map
      (BoundingBox.TriangleID ∘ triangleBox vertexArray) = intRange 0 (triangleCount vertexArray) := by
    conv_rhs => rw [← List.map_id (intRange 0 (triangleCount vertexArray))]
    rfl
  rw [e] at h
  exact h

theorem AxisFails_of_splitFailed (bbox : List ℚ) (node : Node) (j : Nat)
    (h : splitFailed bbox node j = true) : AxisFails bbox node j := by
  unfold splitFailed at h
  simp only [Bool.or_eq_true, beq_iff_eq, List.length_eq_zero] at h
  rcases h with h | h
  · left
    intro i hi1 hi2
    unfold leftNode at h
    rw [List.filter_eq_nil_iff] at h
    have := h i ((mem_intRange _ _ _).mpr ⟨hi1, hi2⟩)
    simpa using this
  · right
    intro i hi1 hi2
    unfold rightNode at h
    rw [List.filter_eq_nil_iff] at h
    have := h i ((mem_intRange _ _ _).mpr ⟨hi1, hi2⟩)
    simpa using this

theorem leaf_over_threshold (vertexArray : List ℚ) (m : Int) (p : List Bool)
    (hleaf : ((NewBVHFromVertexArray vertexArray m).rootNode.get p).isLeaf = true)
    (hcount : m < ((NewBVHFromVertexArray vertexArray m).rootNode.get p).ElementCount) :
    AxisFails (NewBVHFromVertexArray vertexArray m).bboxArray
      ((NewBVHFromVertexArray vertexArray m).rootNode.get p) 0 ∧
    AxisFails (NewBVHFromVertexArray vertexArray m).bboxArray
      ((NewBVHFromVertexArray vertexArray m).rootNode.get p) 1 ∧
    AxisFails (NewBVHFromVertexArray vertexArray m).bboxArray
      ((NewBVHFromVertexArray vertexArray m).rootNode.get p) 2 := by
  obtain ⟨hI, hw, _, hm⟩ := NewBVHFromVertexArray_inv vertexArray m
  obtain ⟨lo, hi, hn, _, _⟩ := Inv_get p hI.tree (isRef_of_isLeaf hleaf)
  rw [hw, hm] at hn
  revert hleaf hcount
  generalize (NewBVHFromVertexArray vertexArray m).rootNode.get p = node at hn ⊢
  intro hleaf hcount
  cases hn with
  | leaf _ mn mx s e l h0 h1 hl hE hC hF =>
    rcases hF with hF | hF | ⟨f0, f1, f2⟩
    · simp at hF
    · omega
    · exact ⟨AxisFails_of_splitFailed _ _ _ f0, AxisFails_of_splitFailed _ _ _ f1,
        AxisFails_of_splitFailed _ _ _ f2⟩
  | inner _ mn mx l n0 n1 s k e h0 h1 h2 hl hE hC hI0 hI1 hB0 hB1 =>
    exfalso
    have := Inv_isRef hI0
    cases n0 with
    | nil => simp [Node.isRef] at this
    | ref _ _ _ _ _ _ _ => simp [Node.isLeaf] at hleaf

/-- Claim C5.  In the tree built by `NewBVHFromVertexArray` with threshold `m`, every leaf
whose element count exceeds `m` is a node for which the split fails on each of the three
axes. -/
theorem threshold_invariant (vertexArray : List ℚ) (m : Int) (p : List Bool)
    (hleaf : ((NewBVHFromVertexArray vertexArray m).rootNode.get p).isLeaf = true)
    (hcount : m < ((NewBVHFromVertexArray vertexArray m).rootNode.get p).ElementCount) :
    AxisFails (NewBVHFromVertexArray vertexArray m).bboxArray
      ((NewBVHFromVertexArray vertexArray m).rootNode.get p) 0 ∧
    AxisFails (NewBVHFromVertexArray vertexArray m).bboxArray
      ((NewBVHFromVertexArray vertexArray m).rootNode.get p) 1 ∧
    AxisFails (NewBVHFromVertexArray vertexArray m).bboxArray
      ((NewBVHFromVertexArray vertexArray m).rootNode.get p) 2 :=
  leaf_over_threshold vertexArray m p hleaf hcount

/-- A use of `threshold_invariant`: one triangle, threshold 0, the root. -/
theorem threshold_invariant_witness :
    AxisFails (NewBVHFromVertexArray [0, 0, 0, 1, 0, 0, 0, 1, 0] 0).bboxArray
      ((NewBVHFromVertexArray [0, 0, 0, 1, 0, 0, 0, 1, 0] 0).rootNode.get []) 0 ∧
    AxisFails (NewBVHFromVertexArray [0, 0, 0, 1, 0, 0, 0, 1, 0] 0).bboxArray
      ((NewBVHFromVertexArray [0, 0, 0, 1, 0, 0, 0, 1, 0] 0).rootNode.get []) 1 ∧
    AxisFails (NewBVHFromVertexArray [0, 0, 0, 1, 0, 0, 0, 1, 0] 0).bboxArray
      ((NewBVHFromVertexArray [0, 0, 0, 1, 0, 0, 0, 1, 0] 0).rootNode.get []) 2 :=
  threshold_invariant [0, 0, 0, 1, 0, 0, 0, 1, 0] 0 [] (by decide!) (by decide!)

theorem BoxIn_of_PaddedIn {b : BoundingBox} {mn mx : Vector3} (h : PaddedIn b mn mx) :
    BoxIn b mn mx := by
  obtain ⟨h1, h2, h3, h4, h5, h6⟩ := h
  have := EPSILON_pos
  exact ⟨by linarith, by linarith, by linarith, by linarith, by linarith, by linarith⟩

/-- Claim C6.  In the tree built by `NewBVHFromVertexArray`, for the node at any path: if it
is a leaf, the box of every record of its range lies in its box `[ExtentsMin, ExtentsMax]`;
if it has a child, the boxes of both children lie in its box, componentwise. -/
theorem containment_invariant (vertexArray : List ℚ) (m : Int) (p : List Bool) :
    (((NewBVHFromVertexArray vertexArray m).rootNode.get p).isLeaf = true →
      ∀ i, ((NewBVHFromVertexArray vertexArray m).rootNode.get p).StartIndex ≤ i →
        i < ((NewBVHFromVertexArray vertexArray m).rootNode.get p).EndIndex →
        BoxIn (GetBox (NewBVHFromVertexArray vertexArray m).bboxArray i)
          ((NewBVHFromVertexArray vertexArray m).rootNode.get p).ExtentsMin
          ((NewBVHFromVertexArray vertexArray m).rootNode.get p).ExtentsMax) ∧
    (((NewBVHFromVertexArray vertexArray m).rootNode.get p).Node0.isRef = true ∨
      ((NewBVHFromVertexArray vertexArray m).rootNode.get p).Node1.isRef = true →
      BoxWithin ((NewBVHFromVertexArray vertexArray m).rootNode.get p).Node0
        ((NewBVHFromVertexArray vertexArray m).rootNode.get p).ExtentsMin
        ((NewBVHFromVertexArray vertexArray m).rootNode.get p).ExtentsMax ∧
      BoxWithin ((NewBVHFromVertexArray vertexArray m).rootNode.get p).Node1
        ((NewBVHFromVertexArray vertexArray m).rootNode.get p).ExtentsMin
        ((NewBVHFromVertexArray vertexArray m).rootNode.get p).ExtentsMax) := by
  obtain ⟨hI, _, _, _⟩ := NewBVHFromVertexArray_inv vertexArray m
  have key : ((NewBVHFromVertexArray vertexArray m).rootNode.get p).isRef = true →
      ∃ lo' hi', Inv (NewBVHFromVertexArray vertexArray m).bboxArray
        (NewBVHFromVertexArray vertexArray m).maxTrianglesPerNode
        (NewBVHFromVertexArray vertexArray m).nodesToSplit ([] ++ p)
        ((NewBVHFromVertexArray vertexArray m).rootNode.get p) lo' hi' ∧
        0 ≤ lo' ∧ hi' ≤ triangleCount vertexArray := Inv_get p hI.tree
  revert key
  generalize (NewBVHFromVertexArray vertexArray m).rootNode.get p = node
  intro key
  constructor
  · intro hleaf i hi1 hi2
    obtain ⟨lo, hi, hn, _, _⟩ := key (isRef_of_isLeaf hleaf)
    cases hn with
    | leaf _ mn mx s e l h0 h1 hl hE hC hF =>
      exact BoxIn_of_PaddedIn (hE i hi1 hi2)
    | inner _ mn mx l n0 n1 s k e h0 h1 h2 hl hE hC hI0 hI1 hB0 hB1 =>
      exfalso
      have := Inv_isRef hI0
      cases n0 with
      | nil => simp [Node.isRef] at this
      | ref _ _ _ _ _ _ _ => simp [Node.isLeaf] at hleaf
  · intro hchild
    have hr : node.isRef = true := by
      cases node with
      | nil => simp [Node.Node0, Node.Node1, Node.isRef] at hchild
      | ref _ _ _ _ _ _ _ => rfl
    obtain ⟨lo, hi, hn, _, _⟩ := key hr
    cases hn with
    | leaf _ mn mx s e l h0 h1 hl hE hC hF =>
      simp [Node.Node0, Node.Node1, Node.isRef] at hchild
    | inner _ mn mx l n0 n1 s k e h0 h1 h2 hl hE hC hI0 hI1 hB0 hB1 =>
      exact ⟨hB0, hB1⟩

/-- A use of `containment_invariant`: the two triangles of `demo1`, threshold 1, the root
and its child `Node0`. -/
theorem containment_invariant_witness :
    BoxWithin ((NewBVH demo1Triangles 1).rootNode.get []).Node0
      ((NewBVH demo1Triangles 1).rootNode.get []).ExtentsMin
      ((NewBVH demo1Triangles 1).rootNode.get []).ExtentsMax ∧
    BoxIn (GetBox (NewBVH demo1Triangles 1).bboxArray 0)
      ((NewBVH demo1Triangles 1).rootNode.get [false]).ExtentsMin
      ((NewBVH demo1Triangles 1).rootNode.get [false]).ExtentsMax :=
  ⟨((containment_invariant _ 1 []).2 (Or.inl (by decide!))).1,
    (containment_invariant _ 1 [false]).1 (by decide!) 0 (by decide!) (by decide!)⟩

/-! ## Inputs the specification wants rejected -/

theorem rd_take (va : List ℚ) (k : Nat) (i : Int) (h : i < k) : rd (va.take k) i = rd va i := by
  unfold rd
  split
  · have : i.toNat < k := by omega
    simp [List.getD_eq_getElem?_getD, List.getElem?_take, this]
  · rfl

theorem CalcBoundingBoxes_take (va : List ℚ) :
    CalcBoundingBoxes (va.take (9 * (va.length / 9))) = CalcBoundingBoxes va := by
  have hl : (va.take (9 * (va.length / 9))).length / 9 = va.length / 9 := by
    rw [List.length_take]
    omega
  unfold CalcBoundingBoxes
  simp only [hl]
  apply List.foldl_ext
  intro arr i hi
  rw [mem_intRange] at hi
  have hr : ∀ k : Int, 0 ≤ k → k < 9 → rd (va.take (9 * (va.length / 9))) (i * 9 + k) =
      rd va (i * 9 + k) := by
    intro k hk1 hk2
    apply rd_take
    push_cast
    omega
  have h0 := hr 0 (by omega) (by omega)
  rw [add_zero] at h0
  rw [h0, hr 1 (by omega) (by omega), hr 2 (by omega) (by omega), hr 3 (by omega) (by omega),
    hr 4 (by omega) (by omega), hr 5 (by omega) (by omega), hr 6 (by omega) (by omega),
    hr 7 (by omega) (by omega), hr 8 (by omega) (by omega)]

theorem SplitNode_vertexArray (bvh : BVH) (v : List ℚ) (p : List Bool) :
    SplitNode { bvh with vertexArray := v } p = { SplitNode bvh p with vertexArray := v } := by
  unfold SplitNode
  simp only []
  split_ifs <;> rfl

theorem splitLoop_vertexArray (fuel : Nat) (bvh : BVH) (v : List ℚ) :
    splitLoop fuel { bvh with vertexArray := v } =
      { splitLoop fuel bvh with vertexArray := v } := by
  induction fuel generalizing bvh with
  | zero => rfl
  | succ fuel ih =>
    unfold splitLoop
    cases hw : bvh.nodesToSplit with
    | nil => simp only [hw]
    | cons p rest =>
      simp only [hw]
      rw [← ih]
      congr 1
      exact SplitNode_vertexArray { bvh with nodesToSplit := rest } v p

/-- Claim C7, as the code has it.  `NewBVHFromVertexArray` accepts a vertex buffer of any
length: the worklist loop runs to the end, the result has a root node, and the tree and the
bounding-box buffer are those built from the first `9 * (len / 9)` scalars, so that the
trailing `len mod 9` scalars are ignored. -/
theorem trailing_scalars_ignored (vertexArray : List ℚ) (m : Int) :
    (NewBVHFromVertexArray vertexArray m).nodesToSplit = [] ∧
    (NewBVHFromVertexArray vertexArray m).rootNode.isRef = true ∧
    (NewBVHFromVertexArray vertexArray m).rootNode =
      (NewBVHFromVertexArray (vertexArray.take (9 * (vertexArray.length / 9))) m).rootNode ∧
    (NewBVHFromVertexArray vertexArray m).bboxArray =
      (NewBVHFromVertexArray (vertexArray.take (9 * (vertexArray.length / 9))) m).bboxArray := by
  obtain ⟨hI, hw, _, _⟩ := NewBVHFromVertexArray_inv vertexArray m
  have hl : (vertexArray.take (9 * (vertexArray.length / 9))).length / 9 =
      vertexArray.length / 9 := by
    rw [List.length_take]
    omega
  have key : NewBVHFromVertexArray (vertexArray.take (9 * (vertexArray.length / 9))) m =
      { NewBVHFromVertexArray vertexArray m with
        vertexArray := vertexArray.take (9 * (vertexArray.length / 9)) } := by
    unfold NewBVHFromVertexArray
    simp only [hl, CalcBoundingBoxes_take]
    exact splitLoop_vertexArray _
      { vertexArray := vertexArray, maxTrianglesPerNode := m,
        bboxArray := CalcBoundingBoxes vertexArray, bboxHelper := CalcBoundingBoxes vertexArray,
        rootNode := NewBVHNode
          (CalcExtents (CalcBoundingBoxes vertexArray) 0 ((vertexArray.length / 9 : Nat) : Int)
            EPSILON).1
          (CalcExtents (CalcBoundingBoxes vertexArray) 0 ((vertexArray.length / 9 : Nat) : Int)
            EPSILON).2 0 ((vertexArray.length / 9 : Nat) : Int) 0,
        nodesToSplit := [[]] } _
  refine ⟨hw, Inv_isRef hI.tree, ?_, ?_⟩
  · rw [key]
  · rw [key]

/-- Claim C7 fails as stated: a buffer of 10 scalars is accepted, the tree built has a leaf
root holding triangle 0, and a ray query on it returns a hit on triangle 0. -/
theorem ragged_buffer_accepted :
    ([0, 0, 0, 4, 0, 0, 0, 4, 0, 5] : List ℚ).length % 9 ≠ 0 ∧
    (NewBVHFromVertexArray [0, 0, 0, 4, 0, 0, 0, 4, 0, 5] 7).rootNode.isLeaf = true ∧
    (NewBVHFromVertexArray [0, 0, 0, 4, 0, 0, 0, 4, 0, 5] 7).rootNode.StartIndex = 0 ∧
    (NewBVHFromVertexArray [0, 0, 0, 4, 0, 0, 0, 4, 0, 5] 7).rootNode.EndIndex = 1 ∧
    (NewBVHFromVertexArray [0, 0, 0, 4, 0, 0, 0, 4, 0, 5] 7).nodesToSplit = [] ∧
    (IntersectRay (NewBVHFromVertexArray [0, 0, 0, 4, 0, 0, 0, 4, 0, 5] 7) ⟨1, 1, 3⟩ ⟨0, 0, -1⟩
      true).map (fun r => (r.TriangleIndex, r.IntersectionPoint)) = [(0, ⟨1, 1, 0⟩)] := by
  decide!

/-- Claim C8, as the code has it.  A threshold `m ≤ 0` is accepted by `NewBVHFromVertexArray`
(and so by `NewBVH`): the worklist loop runs to the end, the result has a root node, and every
leaf that holds at least one record is a node for which the split fails on all three axes. -/
theorem nonpositive_threshold_accepted (vertexArray : List ℚ) (m : Int) (hm : m ≤ 0) :
    (NewBVHFromVertexArray vertexArray m).nodesToSplit = [] ∧
    (NewBVHFromVertexArray vertexArray m).rootNode.isRef = true ∧
    ∀ p, ((NewBVHFromVertexArray vertexArray m).rootNode.get p).isLeaf = true →
      ((NewBVHFromVertexArray vertexArray m).rootNode.get p).ElementCount ≠ 0 →
      AxisFails (NewBVHFromVertexArray vertexArray m).bboxArray
        ((NewBVHFromVertexArray vertexArray m).rootNode.get p) 0 ∧
      AxisFails (NewBVHFromVertexArray vertexArray m).bboxArray
        ((NewBVHFromVertexArray vertexArray m).rootNode.get p) 1 ∧
      AxisFails (NewBVHFromVertexArray vertexArray m).bboxArray
        ((NewBVHFromVertexArray vertexArray m).rootNode.get p) 2 := by
  obtain ⟨hI, hw, _, _⟩ := NewBVHFromVertexArray_inv vertexArray m
  refine ⟨hw, Inv_isRef hI.tree, ?_⟩
  intro p hleaf hne
  refine leaf_over_threshold vertexArray m p hleaf ?_
  obtain ⟨_, _, _, _, _, hg, _, _, _, hse⟩ := Inv_get_leaf hI.tree p hne
  rw [hg] at hne ⊢
  simp only [Node.ElementCount, Node.EndIndex, Node.StartIndex] at hne ⊢
  omega

/-- A use of `nonpositive_threshold_accepted`: the triangles of `demo1`, threshold `-3`. -/
theorem nonpositive_threshold_accepted_witness :
    (-3 : Int) ≤ 0 ∧ (NewBVH demo1Triangles (-3)).nodesToSplit = [] ∧
    (NewBVH demo1Triangles (-3)).rootNode.isRef = true :=
  ⟨by decide, (nonpositive_threshold_accepted _ (-3) (by decide)).1,
    (nonpositive_threshold_accepted _ (-3) (by decide)).2.1⟩

/-- Claim C8 fails as stated: with threshold 0 (and with threshold -3) `NewBVH` builds a tree
on the triangles of `demo1`, the root split into two leaves of one triangle each, and the
query of `demo1` on it returns its hit. -/
theorem nonpositive_threshold_builds :
    (NewBVH demo1Triangles 0).nodesToSplit = [] ∧
    ((NewBVH demo1Triangles 0).rootNode.get [false]).isLeaf = true ∧
    ((NewBVH demo1Triangles 0).rootNode.get [true]).isLeaf = true ∧
    ((NewBVH demo1Triangles 0).rootNode.get [false]).ElementCount = 1 ∧
    ((NewBVH demo1Triangles 0).rootNode.get [true]).ElementCount = 1 ∧
    (NewBVH demo1Triangles (-3)).rootNode = (NewBVH demo1Triangles 0).rootNode ∧
    (IntersectRay (NewBVH demo1Triangles 0) ⟨1500, 3, 1000⟩ ⟨0, 0, -1⟩ true).map
      (fun r => (r.TriangleIndex, r.IntersectionPoint)) = [(1, ⟨1500, 3, 0⟩)] := by
  decide!

/-! ## The box test for rays with non-zero direction components -/

theorem F64_ge_fin (a b : ℚ) : F64.ge (F64.fin a) (F64.fin b) = !decide (a < b) := rfl

theorem F64_mul_fin (a b : ℚ) : F64.mul (F64.fin a) (F64.fin b) = F64.fin (a * b) := rfl

theorem CalcTValues_fin (mn mx o dx : ℚ) (hd : dx ≠ 0) :
    ∃ l h, CalcTValues mn mx o (F64.divRat 1 dx) = ⟨F64.fin l, F64.fin h⟩ ∧
      ∀ t, mn ≤ o + t * dx → o + t * dx ≤ mx → l ≤ t ∧ t ≤ h := by
  have hr : F64.divRat 1 dx = F64.fin (1 / dx) := by simp [F64.divRat, hd]
  rw [hr]
  rcases lt_or_gt_of_ne hd with hneg | hpos
  · have h1 : 1 / dx < 0 := one_div_neg.mpr hneg
    refine ⟨(mx - o) * (1 / dx), (mn - o) * (1 / dx), ?_, ?_⟩
    · unfold CalcTValues
      rw [F64_ge_fin]
      simp only [h1, decide_True, Bool.not_true, Bool.false_eq_true, if_false, F64_mul_fin]
    · intro t h2 h3
      constructor
      · rw [mul_one_div, div_le_iff_of_neg hneg]; linarith
      · rw [mul_one_div, le_div_iff_of_neg hneg]; linarith
  · have h1 : ¬ 1 / dx < 0 := not_lt.mpr (one_div_pos.mpr hpos).le
    refine ⟨(mn - o) * (1 / dx), (mx - o) * (1 / dx), ?_, ?_⟩
    · unfold CalcTValues
      rw [F64_ge_fin]
      simp only [h1, decide_False, Bool.not_false, if_true, F64_mul_fin]
    · intro t h2 h3
      constructor
      · rw [mul_one_div, div_le_iff₀ hpos]; linarith
      · rw [mul_one_div, le_div_iff₀ hpos]; linarith

theorem IntersectNodeBox_of_point (o d : Vector3) (node : Node) (t : ℚ) (hx : d.X ≠ 0)
    (hy : d.Y ≠ 0) (hz : d.Z ≠ 0) (ht : 0 ≤ t)
    (h1 : node.ExtentsMin.X ≤ o.X + t * d.X) (h2 : o.X + t * d.X ≤ node.ExtentsMax.X)
    (h3 : node.ExtentsMin.Y ≤ o.Y + t * d.Y) (h4 : o.Y + t * d.Y ≤ node.ExtentsMax.Y)
    (h5 : node.ExtentsMin.Z ≤ o.Z + t * d.Z) (h6 : o.Z + t * d.Z ≤ node.ExtentsMax.Z) :
    IntersectNodeBox o (invDirection d) node = true := by
  obtain ⟨lx, ux, ex, bx⟩ := CalcTValues_fin node.ExtentsMin.X node.ExtentsMax.X o.X d.X hx
  obtain ⟨ly, uy, ey, by_⟩ := CalcTValues_fin node.ExtentsMin.Y node.ExtentsMax.Y o.Y d.Y hy
  obtain ⟨lz, uz, ez, bz⟩ := CalcTValues_fin node.ExtentsMin.Z node.ExtentsMax.Z o.Z d.Z hz
  obtain ⟨a1, a2⟩ := bx t h1 h2
  obtain ⟨a3, a4⟩ := by_ t h3 h4
  obtain ⟨a5, a6⟩ := bz t h5 h6
  simp only [IntersectNodeBox, invDirection, ex, ey, ez, F64.gt, F64.lt, isNaN, F64.IsInf,
    Bool.or_false, Bool.or_eq_true, decide_eq_true_eq]
  rw [if_neg (by rintro (h | h) <;> linarith)]
  have hmin : ∃ a, (if ly > lx then F64.fin ly else F64.fin lx) = F64.fin a ∧ a ≤ t := by
    split
    · exact ⟨ly, rfl, a3⟩
    · exact ⟨lx, rfl, a1⟩
  have hmax : ∃ b, (if uy < ux then F64.fin uy else F64.fin ux) = F64.fin b ∧ t ≤ b := by
    split
    · exact ⟨uy, rfl, a4⟩
    · exact ⟨ux, rfl, a2⟩
  obtain ⟨a, ea, ha⟩ := hmin
  obtain ⟨b, eb, hb⟩ := hmax
  simp only [gt_iff_lt] at ea
  simp only [ea, eb, decide_eq_true_eq, Bool.or_false]
  rw [if_neg (by rintro (h | h) <;> linarith)]
  split <;> simp <;> linarith

/-! ## The first loop of `IntersectRay` -/

theorem size_pos_of_isRef {n : Node} (h : n.isRef = true) : 1 ≤ n.size := by
  cases n with
  | nil => simp [Node.isRef] at h
  | ref _ _ _ _ _ _ _ => simp [Node.size]; omega

theorem traverse_eq (bbox : List ℚ) (o : Vector3) (inv : Vector3F) (fuel : Nat)
    (stack : List Node) (acc : List Int) (hf : (stack.map Node.size).sum ≤ fuel)
    (hr : ∀ n ∈ stack, n.isRef = true) :
    traverse bbox o inv fuel stack acc =
      acc ++ (stack.flatMap (collectSlots o inv)).map (fun i => toInt (rd bbox (i * 7))) := by
  induction fuel generalizing stack acc with
  | zero =>
    cases stack with
    | nil => simp [traverse]
    | cons n rest =>
      exfalso
      have := size_pos_of_isRef (hr n (List.mem_cons_self _ _))
      simp only [List.map_cons, List.sum_cons] at hf
      omega
  | succ fuel ih =>
    cases stack with
    | nil => simp [traverse]
    | cons n rest =>
      cases n with
      | nil =>
        exfalso
        have := hr Node.nil (List.mem_cons_self _ _)
        simp [Node.isRef] at this
      | ref mn mx s e l n0 n1 =>
        simp only [List.map_cons, List.sum_cons, Node.size] at hf
        have hrest : ∀ n ∈ rest, n.isRef = true := fun n hn => hr n (List.mem_cons_of_mem _ hn)
        unfold traverse
        by_cases hb : IntersectNodeBox o inv (Node.ref mn mx s e l n0 n1) = true
        · simp only [hb, if_true, Node.Node0, Node.Node1, Node.StartIndex, Node.EndIndex]
          rw [ih]
          · simp only [List.flatMap_cons, collectSlots, hb, if_true, List.map_append,
              List.append_assoc]
            congr 2
            cases n1 <;> cases n0 <;>
              simp [Node.isRef, collectSlots, List.flatMap_cons]
          · cases n1 <;> cases n0 <;>
              simp only [Node.isRef, if_true, Bool.false_eq_true, if_false, List.map_cons,
                List.sum_cons, Node.size] <;> simp only [Node.size] at hf <;> omega
          · intro n hn
            cases n1 <;> cases n0 <;>
              simp only [Node.isRef, if_true, Bool.false_eq_true, if_false,
                List.mem_cons] at hn
            · exact hrest n hn
            · rcases hn with rfl | hn
              · rfl
              · exact hrest n hn
            · rcases hn with rfl | hn
              · rfl
              · exact hrest n hn
            · rcases hn with rfl | rfl | hn
              · rfl
              · rfl
              · exact hrest n hn
        · simp only [hb, Bool.false_eq_true, if_false]
          rw [ih _ _ (by omega) hrest]
          simp only [List.flatMap_cons, collectSlots, hb, Bool.false_eq_true, if_false,
            List.nil_append]

theorem candidates_eq (bvh : BVH) (o d : Vector3) (h : bvh.rootNode.isRef = true) :
    candidates bvh o d = (collectSlots o (invDirection d) bvh.rootNode).map
      (fun i => (GetBox bvh.bboxArray i).TriangleID) := by
  unfold candidates
  rw [traverse_eq _ _ _ _ _ _ (by simp) (by simpa using h)]
  simp only [List.nil_append, List.flatMap_cons, List.flatMap_nil, List.append_nil]
  rfl

theorem collectSlots_Inv {bbox : List ℚ} {m : Int} {work : List (List Bool)} {p : List Bool}
    {n : Node} {lo hi : Int} (o : Vector3) (inv : Vector3F)
    (h : Inv bbox m work p n lo hi) :
    (collectSlots o inv n).Nodup ∧ ∀ i ∈ collectSlots o inv n, lo ≤ i ∧ i < hi := by
  induction h with
  | leaf p mn mx s e l h0 h1 hl hE hC hF =>
    unfold collectSlots
    split
    · simp only [collectSlots, List.append_nil]
      exact ⟨nodup_intRange s e, fun i hi => (mem_intRange s e i).mp hi⟩
    · simp
  | inner p mn mx l n0 n1 s k e h0 h1 h2 hl hE hC hI0 hI1 hB0 hB1 ih0 ih1 =>
    unfold collectSlots
    split
    · rw [intRange_empty (-1) (-1) (le_refl _), List.nil_append]
      refine ⟨List.Nodup.append ih1.1 ih0.1 ?_, ?_⟩
      · intro i hi1 hi0
        have := ih1.2 i hi1
        have := ih0.2 i hi0
        omega
      · intro i hi
        rcases List.mem_append.mp hi with hi | hi
        · have := ih1.2 i hi; omega
        · have := ih0.2 i hi; omega
    · simp

theorem collectSlots_complete {bbox : List ℚ} {m : Int} {work : List (List Bool)}
    {p : List Bool} {n : Node} {lo hi : Int} (o d : Vector3) (hx : d.X ≠ 0) (hy : d.Y ≠ 0)
    (hz : d.Z ≠ 0) (h : Inv bbox m work p n lo hi) (i : Int) (hi1 : lo ≤ i) (hi2 : i < hi)
    (hm : RayMeets o d (GetBox bbox i)) : i ∈ collectSlots o (invDirection d) n := by
  obtain ⟨t, ht, m1, m2, m3, m4, m5, m6⟩ := hm
  have heps := EPSILON_pos
  induction h with
  | leaf p mn mx s e l h0 h1 hl hE hC hF =>
    obtain ⟨e1, e2, e3, e4, e5, e6⟩ := hE i hi1 hi2
    have hb : IntersectNodeBox o (invDirection d) (Node.ref mn mx s e l Node.nil Node.nil) =
        true := IntersectNodeBox_of_point o d _ t hx hy hz ht
      (by simp only [Node.ExtentsMin]; linarith) (by simp only [Node.ExtentsMax]; linarith)
      (by simp only [Node.ExtentsMin]; linarith) (by simp only [Node.ExtentsMax]; linarith)
      (by simp only [Node.ExtentsMin]; linarith) (by simp only [Node.ExtentsMax]; linarith)
    simp only [collectSlots, hb, if_true, List.append_nil]
    exact (mem_intRange s e i).mpr ⟨hi1, hi2⟩
  | inner p mn mx l n0 n1 s k e h0 h1 h2 hl hE hC hI0 hI1 hB0 hB1 ih0 ih1 =>
    obtain ⟨e1, e2, e3, e4, e5, e6⟩ := hE i hi1 hi2
    have hb : IntersectNodeBox o (invDirection d) (Node.ref mn mx (-1) (-1) l n0 n1) =
        true := IntersectNodeBox_of_point o d _ t hx hy hz ht
      (by simp only [Node.ExtentsMin]; linarith) (by simp only [Node.ExtentsMax]; linarith)
      (by simp only [Node.ExtentsMin]; linarith) (by simp only [Node.ExtentsMax]; linarith)
      (by simp only [Node.ExtentsMin]; linarith) (by simp only [Node.ExtentsMax]; linarith)
    simp only [collectSlots, hb, if_true, List.mem_append]
    by_cases hik : i < k
    · exact Or.inr (ih0 hi1 hik)
    · exact Or.inl (Or.inr (ih1 (by omega) hi2))

/-! ## Pruning by the tree is exact -/

theorem bary_between (x y z b1 b2 : ℚ) (h1 : 0 ≤ b1) (h2 : 0 ≤ b2) (h3 : b1 + b2 ≤ 1) :
    min (min x y) z ≤ x + b1 * (y - x) + b2 * (z - x) ∧
    x + b1 * (y - x) + b2 * (z - x) ≤ max (max x y) z := by
  have m1 : min (min x y) z ≤ x := (min_le_left _ _).trans (min_le_left _ _)
  have m2 : min (min x y) z ≤ y := (min_le_left _ _).trans (min_le_right _ _)
  have m3 : min (min x y) z ≤ z := min_le_right _ _
  have n1 : x ≤ max (max x y) z := (le_max_left _ _).trans (le_max_left _ _)
  have n2 : y ≤ max (max x y) z := (le_max_right _ _).trans (le_max_left _ _)
  have n3 : z ≤ max (max x y) z := le_max_right _ _
  have h4 : 0 ≤ 1 - b1 - b2 := by linarith
  constructor
  · nlinarith [mul_nonneg h4 (sub_nonneg.mpr m1), mul_nonneg h1 (sub_nonneg.mpr m2),
      mul_nonneg h2 (sub_nonneg.mpr m3)]
  · nlinarith [mul_nonneg h4 (sub_nonneg.mpr n1), mul_nonneg h1 (sub_nonneg.mpr n2),
      mul_nonneg h2 (sub_nonneg.mpr n3)]

theorem triangleAt_eq (va : List ℚ) (i : Int) :
    triangleAt va i =
      ⟨⟨rd va (i * 9), rd va (i * 9 + 1), rd va (i * 9 + 2)⟩,
       ⟨rd va (i * 9 + 3), rd va (i * 9 + 4), rd va (i * 9 + 5)⟩,
       ⟨rd va (i * 9 + 6), rd va (i * 9 + 7), rd va (i * 9 + 8)⟩⟩ := by
  simp only [triangleAt, Vector3.SetFromArray, add_assoc]
  norm_num

theorem RayMeets_of_hit (va : List ℚ) (o d : Vector3) (cull : Bool) (i : Int) (P : Vector3)
    (h : hitOf va o d cull i = some P) : RayMeets o d (triangleBox va i) := by
  obtain ⟨b1, b2, t, h1, h2, h3, ht, hP, hQ⟩ := IntersectRayTriangle_sound _ _ _ _ _ _ _ h
  rw [hP, triangleAt_eq] at hQ
  simp only [baryPoint, rayPoint, Vector3.mk.injEq] at hQ
  obtain ⟨qx, qy, qz⟩ := hQ
  refine ⟨t, ht, ?_⟩
  simp only [triangleBox]
  rw [← qx, ← qy, ← qz]
  obtain ⟨x1, x2⟩ := bary_between (rd va (i * 9)) (rd va (i * 9 + 3)) (rd va (i * 9 + 6))
    b1 b2 h1 h2 h3
  obtain ⟨y1, y2⟩ := bary_between (rd va (i * 9 + 1)) (rd va (i * 9 + 4)) (rd va (i * 9 + 7))
    b1 b2 h1 h2 h3
  obtain ⟨z1, z2⟩ := bary_between (rd va (i * 9 + 2)) (rd va (i * 9 + 5)) (rd va (i * 9 + 8))
    b1 b2 h1 h2 h3
  exact ⟨x1, x2, y1, y2, z1, z2⟩

theorem records_ids {va : List ℚ} {n : Int} {bbox : List ℚ}
    (h : ((intRange 0 n).map (GetBox bbox)).Perm ((intRange 0 n).map (triangleBox va))) :
    ((intRange 0 n).map (fun i => (GetBox bbox i).TriangleID)).Perm (intRange 0 n) ∧
    (∀ j, 0 ≤ j → j < n → ∃ i, 0 ≤ i ∧ i < n ∧ GetBox bbox i = triangleBox va j) ∧
    (∀ i, 0 ≤ i → i < n → GetBox bbox i = triangleBox va (GetBox bbox i).TriangleID) := by
  refine ⟨?_, ?_, ?_⟩
  · have h2 := h.map BoundingBox.TriangleID
    rw [List.map_map, List.map_map] at h2
    have e : (intRange 0 n).map (BoundingBox.TriangleID ∘ triangleBox va) = intRange 0 n := by
      conv_rhs => rw [← List.map_id (intRange 0 n)]
      rfl
    rw [e] at h2
    exact h2
  · intro j hj1 hj2
    have hm : triangleBox va j ∈ (intRange 0 n).map (triangleBox va) :=
      List.mem_map.mpr ⟨j, (mem_intRange _ _ _).mpr ⟨hj1, hj2⟩, rfl⟩
    rw [← h.mem_iff, List.mem_map] at hm
    obtain ⟨i, hi, hi2⟩ := hm
    rw [mem_intRange] at hi
    exact ⟨i, hi.1, hi.2, hi2⟩
  · intro i hi1 hi2
    have hm : GetBox bbox i ∈ (intRange 0 n).map (GetBox bbox) :=
      List.mem_map.mpr ⟨i, (mem_intRange _ _ _).mpr ⟨hi1, hi2⟩, rfl⟩
    rw [h.mem_iff, List.mem_map] at hm
    obtain ⟨j, _, hj⟩ := hm
    rw [← hj]
    rfl

theorem map_fst_filterMap_hits (f : Int → Option Vector3) (l : List Int) :
    (l.filterMap (fun i => (f i).map (fun P => (i, P)))).map Prod.fst =
      l.filter (fun i => (f i).isSome) := by
  induction l with
  | nil => rfl
  | cons x rest ih =>
    cases hx : f x with
    | none => simp [List.filterMap_cons, List.filter_cons, hx, ih]
    | some P => simp [List.filterMap_cons, List.filter_cons, hx, ih]

theorem IntersectRay_indices (bvh : BVH) (o d : Vector3) (cull : Bool) :
    (IntersectRay bvh o d cull).map (fun r => r.TriangleIndex) =
      (candidates bvh o d).filter (fun i => (hitOf bvh.vertexArray o d cull i).isSome) := by
  rw [← map_fst_filterMap_hits, ← IntersectRay_hits, List.map_map]
  rfl

theorem candidates_built (va : List ℚ) (m : Int) (o d : Vector3) (hx : d.X ≠ 0) (hy : d.Y ≠ 0)
    (hz : d.Z ≠ 0) :
    (candidates (NewBVHFromVertexArray va m) o d).Nodup ∧
    (∀ i ∈ candidates (NewBVHFromVertexArray va m) o d, 0 ≤ i ∧ i < triangleCount va) ∧
    ∀ i, 0 ≤ i → i < triangleCount va → RayMeets o d (triangleBox va i) →
      i ∈ candidates (NewBVHFromVertexArray va m) o d := by
  obtain ⟨hI, _, _, _⟩ := NewBVHFromVertexArray_inv va m
  obtain ⟨r1, r2, r3⟩ := records_ids hI.records
  obtain ⟨c1, c2⟩ := collectSlots_Inv o (invDirection d) hI.tree
  rw [candidates_eq _ _ _ (Inv_isRef hI.tree)]
  have hmem : ∀ i, 0 ≤ i → i < triangleCount va →
      0 ≤ (GetBox (NewBVHFromVertexArray va m).bboxArray i).TriangleID ∧
      (GetBox (NewBVHFromVertexArray va m).bboxArray i).TriangleID < triangleCount va := by
    intro i hi1 hi2
    have : (GetBox (NewBVHFromVertexArray va m).bboxArray i).TriangleID ∈
        (intRange 0 (triangleCount va)).map
          (fun i => (GetBox (NewBVHFromVertexArray va m).bboxArray i).TriangleID) :=
      List.mem_map.mpr ⟨i, (mem_intRange _ _ _).mpr ⟨hi1, hi2⟩, rfl⟩
    rw [r1.mem_iff, mem_intRange] at this
    exact this
  refine ⟨?_, ?_, ?_⟩
  · refine List.Nodup.map_on ?_ c1
    intro a ha b hb hab
    have hnd : ((intRange 0 (triangleCount va)).map
        (fun i => (GetBox (NewBVHFromVertexArray va m).bboxArray i).TriangleID)).Nodup :=
      r1.nodup_iff.mpr (nodup_intRange _ _)
    exact List.inj_on_of_nodup_map hnd ((mem_intRange _ _ _).mpr (c2 a ha))
      ((mem_intRange _ _ _).mpr (c2 b hb)) hab
  · intro i hi
    rw [List.mem_map] at hi
    obtain ⟨a, ha, rfl⟩ := hi
    exact hmem a (c2 a ha).1 (c2 a ha).2
  · intro j hj1 hj2 hray
    obtain ⟨i, hi1, hi2, hi3⟩ := r2 j hj1 hj2
    refine List.mem_map.mpr ⟨i, collectSlots_complete o d hx hy hz hI.tree i hi1 hi2 ?_, ?_⟩
    · rw [hi3]; exact hray
    · rw [hi3]; rfl

/-- Claim C1.  For the tree built by `NewBVHFromVertexArray` from any vertex buffer with any
threshold, and any ray whose three direction components are non-zero: the `TriangleIndex`
values of the list returned by `IntersectRay` are distinct, all lie in
`0, ..., triangleCount - 1`, and an index `i` of that range is among them exactly when
`IntersectRayTriangle` on the three vertices of triangle `i` returns a point. -/
theorem pruning_exact (vertexArray : List ℚ) (m : Int) (o d : Vector3) (cull : Bool)
    (hx : d.X ≠ 0) (hy : d.Y ≠ 0) (hz : d.Z ≠ 0) :
    ((IntersectRay (NewBVHFromVertexArray vertexArray m) o d cull).map
      (fun r => r.TriangleIndex)).Nodup ∧
    (∀ i ∈ (IntersectRay (NewBVHFromVertexArray vertexArray m) o d cull).map
      (fun r => r.TriangleIndex), 0 ≤ i ∧ i < triangleCount vertexArray) ∧
    ∀ i, 0 ≤ i → i < triangleCount vertexArray →
      (i ∈ (IntersectRay (NewBVHFromVertexArray vertexArray m) o d cull).map
        (fun r => r.TriangleIndex) ↔
      (IntersectRayTriangle (triangleAt vertexArray i).P0 (triangleAt vertexArray i).P1
        (triangleAt vertexArray i).P2 o d cull).isSome = true) := by
  obtain ⟨_, _, hva, _⟩ := NewBVHFromVertexArray_inv vertexArray m
  obtain ⟨c1, c2, c3⟩ := candidates_built vertexArray m o d hx hy hz
  rw [IntersectRay_indices, hva]
  refine ⟨c1.filter _, ?_, ?_⟩
  · intro i hi
    exact c2 i (List.mem_filter.mp hi).1
  · intro i hi1 hi2
    rw [List.mem_filter]
    constructor
    · intro h
      exact h.2
    · intro h
      refine ⟨c3 i hi1 hi2 ?_, h⟩
      obtain ⟨P, hP⟩ := Option.isSome_iff_exists.mp h
      exact RayMeets_of_hit vertexArray o d cull i P hP

/-- A use of `pruning_exact`: the vertex buffer of `demo1`, threshold 1, the ray from
`(1500, 3, 1000)` along `(1, 2, -1000)`. -/
theorem pruning_exact_witness :
    (1 : ℚ) ≠ 0 ∧ (2 : ℚ) ≠ 0 ∧ (-1000 : ℚ) ≠ 0 ∧
    ((IntersectRay (NewBVHFromVertexArray
      [0, 0, 0, 1000, 0, 0, 1000, 1000, 0, 0, 0, 0, 2000, 0, 0, 2000, 1000, 0] 1)
      ⟨1500, 3, 1000⟩ ⟨1, 2, -1000⟩ true).map (fun r => r.TriangleIndex)).Nodup :=
  ⟨by decide!, by decide!, by decide!,
    (pruning_exact [0, 0, 0, 1000, 0, 0, 1000, 1000, 0, 0, 0, 0, 2000, 0, 0, 2000, 1000, 0] 1
      ⟨1500, 3, 1000⟩ ⟨1, 2, -1000⟩ true (by decide!) (by decide!) (by decide!)).1⟩

/-! ## One triangle and vertical rays -/

theorem CalcTValues_pinf (mn mx o : ℚ) (h1 : mn < o) (h2 : o < mx) :
    CalcTValues mn mx o F64.pinf = ⟨F64.ninf, F64.pinf⟩ := by
  have a1 : ¬ 0 < mn - o := by linarith
  have a2 : mn - o < 0 := by linarith
  have a3 : 0 < mx - o := by linarith
  simp only [CalcTValues, F64.ge, F64.lt, Bool.not_false, if_true, F64.mul, a1, a2, a3,
    if_false]

theorem IntersectNodeBox_vertical (o : Vector3) (dz : ℚ) (node : Node) (t : ℚ) (hdz : dz ≠ 0)
    (ht : 0 ≤ t) (hx1 : node.ExtentsMin.X < o.X) (hx2 : o.X < node.ExtentsMax.X)
    (hy1 : node.ExtentsMin.Y < o.Y) (hy2 : o.Y < node.ExtentsMax.Y)
    (hz1 : node.ExtentsMin.Z ≤ o.Z + t * dz) (hz2 : o.Z + t * dz ≤ node.ExtentsMax.Z) :
    IntersectNodeBox o (invDirection ⟨0, 0, dz⟩) node = true := by
  obtain ⟨lz, uz, ez, bz⟩ := CalcTValues_fin node.ExtentsMin.Z node.ExtentsMax.Z o.Z dz hdz
  obtain ⟨a5, a6⟩ := bz t hz1 hz2
  have hinf : F64.divRat 1 0 = F64.pinf := by simp [F64.divRat]
  have hu : ¬ uz < 0 := by linarith
  simp only [IntersectNodeBox, invDirection, hinf, CalcTValues_pinf _ _ _ hx1 hx2,
    CalcTValues_pinf _ _ _ hy1 hy2, ez, F64.gt, F64.lt, isNaN, F64.IsInf]
  simp [hu]

theorem single_triangle_tree (va : List ℚ) (m : Int) (h1 : triangleCount va = 1) :
    ∃ mn mx l, (NewBVHFromVertexArray va m).rootNode = Node.ref mn mx 0 1 l Node.nil Node.nil ∧
      PaddedIn (triangleBox va 0) mn mx ∧
      GetBox (NewBVHFromVertexArray va m).bboxArray 0 = triangleBox va 0 := by
  obtain ⟨hI, _, _, _⟩ := NewBVHFromVertexArray_inv va m
  obtain ⟨hA, hH, hR, hT⟩ := hI
  rw [h1] at hR hT
  have e1 : intRange 0 1 = [0] := by decide
  rw [e1] at hR
  simp only [List.map_cons, List.map_nil, List.perm_singleton, List.cons.injEq,
    and_true] at hR
  revert hT
  generalize (NewBVHFromVertexArray va m).rootNode = root
  intro hT
  cases hT with
  | leaf _ mn mx _ _ l h0 h1 hl hE hC hF =>
    refine ⟨mn, mx, l, rfl, ?_, hR⟩
    rw [← hR]
    exact hE 0 (le_refl _) (by omega)
  | inner _ mn mx l n0 n1 _ k _ h0 h1 h2 hl hE hC hI0 hI1 hB0 hB1 =>
    omega

theorem candidates_single (va : List ℚ) (m : Int) (o d : Vector3) (h1 : triangleCount va = 1) :
    candidates (NewBVHFromVertexArray va m) o d =
      if IntersectNodeBox o (invDirection d) (NewBVHFromVertexArray va m).rootNode then [0]
      else [] := by
  obtain ⟨mn, mx, l, hr, _, hg⟩ := single_triangle_tree va m h1
  rw [candidates_eq _ _ _ (by rw [hr]; rfl), hr]
  have e1 : intRange 0 1 = [0] := by decide
  simp only [collectSlots, e1, List.append_nil]
  split
  · simp only [List.map_cons, List.map_nil, hg]
    rfl
  · rfl

theorem IntersectRay_length_single (va : List ℚ) (m : Int) (o d : Vector3) (cull : Bool)
    (h1 : triangleCount va = 1)
    (hb : IntersectNodeBox o (invDirection d) (NewBVHFromVertexArray va m).rootNode = true) :
    (IntersectRay (NewBVHFromVertexArray va m) o d cull).length =
      if (hitOf va o d cull 0).isSome then 1 else 0 := by
  obtain ⟨_, _, hva, _⟩ := NewBVHFromVertexArray_inv va m
  have h2 := congrArg List.length (IntersectRay_indices (NewBVHFromVertexArray va m) o d cull)
  rw [List.length_map, candidates_single va m o d h1, if_pos hb, hva] at h2
  rw [h2]
  simp only [List.filter_cons, List.filter_nil]
  split <;> rfl

theorem flat_triangle_scalars (ax ay bx by_ cx cy u v oz dz : ℚ) :
    (⟨0, 0, dz⟩ : Vector3).Dot (triNormal ⟨ax, ay, 0⟩ ⟨bx, by_, 0⟩ ⟨cx, cy, 0⟩) =
      dz * ((bx - ax) * (cy - ay) - (by_ - ay) * (cx - ax)) ∧
    triU ⟨ax, ay, 0⟩ ⟨cx, cy, 0⟩
      ⟨ax + u * (bx - ax) + v * (cx - ax), ay + u * (by_ - ay) + v * (cy - ay), oz⟩ ⟨0, 0, dz⟩ =
      dz * (u * ((bx - ax) * (cy - ay) - (by_ - ay) * (cx - ax))) ∧
    triV ⟨ax, ay, 0⟩ ⟨bx, by_, 0⟩
      ⟨ax + u * (bx - ax) + v * (cx - ax), ay + u * (by_ - ay) + v * (cy - ay), oz⟩ ⟨0, 0, dz⟩ =
      dz * (v * ((bx - ax) * (cy - ay) - (by_ - ay) * (cx - ax))) ∧
    triW ⟨ax, ay, 0⟩ ⟨bx, by_, 0⟩ ⟨cx, cy, 0⟩
      ⟨ax + u * (bx - ax) + v * (cx - ax), ay + u * (by_ - ay) + v * (cy - ay), oz⟩ =
      oz * ((bx - ax) * (cy - ay) - (by_ - ay) * (cx - ax)) := by
  simp only [triNormal, triU, triV, triW, Vector3.Dot, Vector3.CrossVectors, Vector3.Cross,
    Vector3.SubVectors]
  refine ⟨?_, ?_, ?_, ?_⟩ <;> ring

theorem flat_triangle_hit (ax ay bx by_ cx cy u v oz dz : ℚ) (cull : Bool)
    (hn : 0 < (bx - ax) * (cy - ay) - (by_ - ay) * (cx - ax)) (hu : 0 ≤ u) (hv : 0 ≤ v)
    (huv : u + v ≤ 1) :
    (dz = -1 → 0 ≤ oz → (IntersectRayTriangle ⟨ax, ay, 0⟩ ⟨bx, by_, 0⟩ ⟨cx, cy, 0⟩
      ⟨ax + u * (bx - ax) + v * (cx - ax), ay + u * (by_ - ay) + v * (cy - ay), oz⟩ ⟨0, 0, dz⟩
      cull).isSome = true) ∧
    (dz = 1 → oz ≤ 0 → (IntersectRayTriangle ⟨ax, ay, 0⟩ ⟨bx, by_, 0⟩ ⟨cx, cy, 0⟩
      ⟨ax + u * (bx - ax) + v * (cx - ax), ay + u * (by_ - ay) + v * (cy - ay), oz⟩ ⟨0, 0, dz⟩
      cull).isSome = !cull) := by
  obtain ⟨eN, eU, eV, eW⟩ := flat_triangle_scalars ax ay bx by_ cx cy u v oz dz
  rw [IntersectRayTriangle_eq, eN, eU, eV, eW]
  generalize (bx - ax) * (cy - ay) - (by_ - ay) * (cx - ax) = nz at hn ⊢
  have h1 := mul_nonneg hu hn.le
  have h2 := mul_nonneg hv hn.le
  have h3 : (u + v) * nz ≤ 1 * nz := mul_le_mul_of_nonneg_right huv hn.le
  constructor
  · rintro rfl ho
    have h4 := mul_nonneg ho hn.le
    rw [if_neg (by linarith), if_pos (by linarith), if_neg (by
      rintro (h | h | h | h) <;> nlinarith)]
    rfl
  · rintro rfl ho
    have h4 : oz * nz ≤ 0 := mul_nonpos_of_nonpos_of_nonneg ho hn.le
    rw [if_pos (by linarith)]
    cases cull
    · rw [if_neg (by simp), if_neg (by rintro (h | h | h | h) <;> nlinarith)]
      rfl
    · rfl

/-- Claim C10, in exact arithmetic.  For the tree built by `NewBVH` (any threshold) from one
triangle in the plane `z = 0` whose normal `(b - a) × (c - a)` points in `+z`, and a point
`p = a + u (b - a) + v (c - a)` strictly inside it (`u, v > 0`, `u + v < 1`), with the code
evaluated without rounding: the ray from height `h > 0` above `p` along `(0, 0, -1)` without
culling gives exactly one record; the ray from depth `h` below `p` along `(0, 0, 1)` gives no
record with culling and exactly one without. -/
theorem backface_toggle (ax ay bx by_ cx cy u v h : ℚ) (m : Int)
    (hn : 0 < (triNormal ⟨ax, ay, 0⟩ ⟨bx, by_, 0⟩ ⟨cx, cy, 0⟩).Z)
    (hu : 0 < u) (hv : 0 < v) (huv : u + v < 1) (hh : 0 < h) :
    (IntersectRay (NewBVH [⟨⟨ax, ay, 0⟩, ⟨bx, by_, 0⟩, ⟨cx, cy, 0⟩⟩] m)
      ⟨ax + u * (bx - ax) + v * (cx - ax), ay + u * (by_ - ay) + v * (cy - ay), h⟩
      ⟨0, 0, -1⟩ false).length = 1 ∧
    (IntersectRay (NewBVH [⟨⟨ax, ay, 0⟩, ⟨bx, by_, 0⟩, ⟨cx, cy, 0⟩⟩] m)
      ⟨ax + u * (bx - ax) + v * (cx - ax), ay + u * (by_ - ay) + v * (cy - ay), -h⟩
      ⟨0, 0, 1⟩ true).length = 0 ∧
    (IntersectRay (NewBVH [⟨⟨ax, ay, 0⟩, ⟨bx, by_, 0⟩, ⟨cx, cy, 0⟩⟩] m)
      ⟨ax + u * (bx - ax) + v * (cx - ax), ay + u * (by_ - ay) + v * (cy - ay), -h⟩
      ⟨0, 0, 1⟩ false).length = 1 := by
  have hnz : 0 < (bx - ax) * (cy - ay) - (by_ - ay) * (cx - ax) := by
    simpa [triNormal, Vector3.CrossVectors, Vector3.SubVectors] using hn
  have hbvh : NewBVH [⟨⟨ax, ay, 0⟩, ⟨bx, by_, 0⟩, ⟨cx, cy, 0⟩⟩] m =
      NewBVHFromVertexArray [ax, ay, 0, bx, by_, 0, cx, cy, 0] m := rfl
  have hcount : triangleCount [ax, ay, 0, bx, by_, 0, cx, cy, 0] = 1 := by
    simp [triangleCount]
  have htri : triangleAt [ax, ay, 0, bx, by_, 0, cx, cy, 0] 0 =
      ⟨⟨ax, ay, 0⟩, ⟨bx, by_, 0⟩, ⟨cx, cy, 0⟩⟩ := rfl
  obtain ⟨mn, mx, l, hr, hp, _⟩ := single_triangle_tree [ax, ay, 0, bx, by_, 0, cx, cy, 0] m
    hcount
  have hbox : triangleBox [ax, ay, 0, bx, by_, 0, cx, cy, 0] 0 =
      ⟨0, min (min ax bx) cx, min (min ay by_) cy, min (min 0 0) 0, max (max ax bx) cx,
        max (max ay by_) cy, max (max 0 0) 0⟩ := rfl
  rw [hbox] at hp
  obtain ⟨p1, p2, p3, p4, p5, p6⟩ := hp
  simp only [min_self, max_self] at p3 p6
  obtain ⟨x1, x2⟩ := bary_between ax bx cx u v hu.le hv.le huv.le
  obtain ⟨y1, y2⟩ := bary_between ay by_ cy u v hu.le hv.le huv.le
  have heps := EPSILON_pos
  have hdown : IntersectNodeBox
      ⟨ax + u * (bx - ax) + v * (cx - ax), ay + u * (by_ - ay) + v * (cy - ay), h⟩
      (invDirection ⟨0, 0, -1⟩)
      (NewBVHFromVertexArray [ax, ay, 0, bx, by_, 0, cx, cy, 0] m).rootNode = true := by
    rw [hr]
    refine IntersectNodeBox_vertical _ (-1) _ h (by norm_num) hh.le ?_ ?_ ?_ ?_ ?_ ?_ <;>
      simp only [Node.ExtentsMin, Node.ExtentsMax] <;> linarith
  have hup : IntersectNodeBox
      ⟨ax + u * (bx - ax) + v * (cx - ax), ay + u * (by_ - ay) + v * (cy - ay), -h⟩
      (invDirection ⟨0, 0, 1⟩)
      (NewBVHFromVertexArray [ax, ay, 0, bx, by_, 0, cx, cy, 0] m).rootNode = true := by
    rw [hr]
    refine IntersectNodeBox_vertical _ 1 _ h (by norm_num) hh.le ?_ ?_ ?_ ?_ ?_ ?_ <;>
      simp only [Node.ExtentsMin, Node.ExtentsMax] <;> linarith
  rw [hbvh, IntersectRay_length_single _ m _ _ _ hcount hdown,
    IntersectRay_length_single _ m _ _ _ hcount hup,
    IntersectRay_length_single _ m _ _ _ hcount hup]
  simp only [hitOf, htri]
  rw [(flat_triangle_hit ax ay bx by_ cx cy u v h (-1) false hnz hu.le hv.le huv.le).1 rfl hh.le,
    (flat_triangle_hit ax ay bx by_ cx cy u v (-h) 1 true hnz hu.le hv.le huv.le).2 rfl
      (by linarith),
    (flat_triangle_hit ax ay bx by_ cx cy u v (-h) 1 false hnz hu.le hv.le huv.le).2 rfl
      (by linarith)]
  simp

/-- A use of `backface_toggle`: the triangle `(0,0,0), (4,0,0), (0,4,0)`, the point
`(1, 1, 0)`, height 3, threshold 7. -/
theorem backface_toggle_witness :
    (IntersectRay (NewBVH [⟨⟨0, 0, 0⟩, ⟨4, 0, 0⟩, ⟨0, 4, 0⟩⟩] 7)
      ⟨0 + 1 / 4 * (4 - 0) + 1 / 4 * (0 - 0), 0 + 1 / 4 * (0 - 0) + 1 / 4 * (4 - 0), 3⟩
      ⟨0, 0, -1⟩ false).length = 1 ∧
    (IntersectRay (NewBVH [⟨⟨0, 0, 0⟩, ⟨4, 0, 0⟩, ⟨0, 4, 0⟩⟩] 7)
      ⟨0 + 1 / 4 * (4 - 0) + 1 / 4 * (0 - 0), 0 + 1 / 4 * (0 - 0) + 1 / 4 * (4 - 0), -3⟩
      ⟨0, 0, 1⟩ true).length = 0 ∧
    (IntersectRay (NewBVH [⟨⟨0, 0, 0⟩, ⟨4, 0, 0⟩, ⟨0, 4, 0⟩⟩] 7)
      ⟨0 + 1 / 4 * (4 - 0) + 1 / 4 * (0 - 0), 0 + 1 / 4 * (0 - 0) + 1 / 4 * (4 - 0), -3⟩
      ⟨0, 0, 1⟩ false).length = 1 :=
  backface_toggle 0 0 4 0 0 4 (1 / 4) (1 / 4) 3 7 (by decide!) (by decide!) (by decide!)
    (by decide!) (by decide!)

/-! ## Empty geometry and rays that miss the root box -/

theorem NewBVHFromVertexArray_nil (m : Int) :
    NewBVHFromVertexArray [] m =
      { vertexArray := [], maxTrianglesPerNode := m, bboxArray := [], bboxHelper := [],
        rootNode := Node.ref ⟨0, 0, 0⟩ ⟨0, 0, 0⟩ 0 0 0 Node.nil Node.nil, nodesToSplit := [] } := by
  have hb : CalcBoundingBoxes [] = [] := by decide
  have he : CalcExtents [] 0 0 EPSILON = (⟨0, 0, 0⟩, ⟨0, 0, 0⟩) := by simp [CalcExtents]
  unfold NewBVHFromVertexArray
  simp only [hb, List.length_nil, Nat.zero_div, Nat.cast_zero, he, NewBVHNode, Nat.mul_zero,
    Nat.zero_add]
  unfold splitLoop
  simp only []
  rw [SplitNode_skip
    { vertexArray := [], maxTrianglesPerNode := m, bboxArray := [], bboxHelper := [],
      rootNode := Node.ref ⟨0, 0, 0⟩ ⟨0, 0, 0⟩ 0 0 0 Node.nil Node.nil, nodesToSplit := [] } []
    (Or.inr rfl)]
  rfl

theorem candidates_of_miss (bvh : BVH) (o d : Vector3)
    (h : IntersectNodeBox o (invDirection d) bvh.rootNode = false) :
    candidates bvh o d = [] := by
  unfold candidates
  cases hr : bvh.rootNode with
  | nil => rfl
  | ref mn mx s e l n0 n1 =>
    rw [hr] at h
    simp only [Node.size]
    have : 1 + n0.size + n1.size = (n0.size + n1.size) + 1 := by omega
    rw [this]
    unfold traverse
    simp only [h, Bool.false_eq_true, if_false]
    cases (n0.size + n1.size) <;> rfl

theorem IntersectRay_of_candidates_nil (bvh : BVH) (o d : Vector3) (cull : Bool)
    (h : candidates bvh o d = []) : IntersectRay bvh o d cull = [] := by
  unfold IntersectRay
  simp only [h, List.foldl_nil, List.map_nil]

/-- Claim C11.  `NewBVHFromVertexArray` on the empty vertex buffer, with any threshold, gives
a tree whose root has no children, the range `[0, 0)` (element count 0) and the zero box, and
`IntersectRay` on that tree returns the empty list for every origin, direction and culling
flag. -/
theorem empty_geometry (m : Int) (o d : Vector3) (cull : Bool) :
    (NewBVHFromVertexArray [] m).rootNode =
      Node.ref ⟨0, 0, 0⟩ ⟨0, 0, 0⟩ 0 0 0 Node.nil Node.nil ∧
    (NewBVHFromVertexArray [] m).rootNode.ElementCount = 0 ∧
    IntersectRay (NewBVHFromVertexArray [] m) o d cull = [] := by
  rw [NewBVHFromVertexArray_nil]
  refine ⟨rfl, rfl, ?_⟩
  apply IntersectRay_of_candidates_nil
  unfold candidates
  simp only [Node.size]
  unfold traverse
  simp only [Node.Node0, Node.Node1, Node.isRef, Bool.false_eq_true, if_false, Node.StartIndex,
    Node.EndIndex]
  have e : intRange 0 0 = [] := by decide
  simp only [e, List.map_nil, List.append_nil]
  split <;> rfl

/-- Claim C12.  For the tree built by `NewBVHFromVertexArray` and a ray for which
`IntersectNodeBox` on the root node returns false, `IntersectRay` returns the empty list. -/
theorem miss_property (vertexArray : List ℚ) (m : Int) (o d : Vector3) (cull : Bool)
    (h : IntersectNodeBox o (invDirection d)
      (NewBVHFromVertexArray vertexArray m).rootNode = false) :
    IntersectRay (NewBVHFromVertexArray vertexArray m) o d cull = [] :=
  IntersectRay_of_candidates_nil _ o d cull (candidates_of_miss _ o d h)

/-- A use of `miss_property`: the vertex buffer of `demo1`, threshold 7, the ray from
`(1500, 3, -1000)` along `(0, 0, -1)`, which leaves the box behind. -/
theorem miss_property_witness :
    IntersectNodeBox ⟨1500, 3, -1000⟩ (invDirection ⟨0, 0, -1⟩)
      (NewBVHFromVertexArray
        [0, 0, 0, 1000, 0, 0, 1000, 1000, 0, 0, 0, 0, 2000, 0, 0, 2000, 1000, 0] 7).rootNode =
      false ∧
    IntersectRay (NewBVHFromVertexArray
      [0, 0, 0, 1000, 0, 0, 1000, 1000, 0, 0, 0, 0, 2000, 0, 0, 2000, 1000, 0] 7)
      ⟨1500, 3, -1000⟩ ⟨0, 0, -1⟩ true = [] :=
  ⟨by decide!, miss_property _ 7 _ _ true (by decide!)⟩

/-! ## The axis chosen by `SplitNode` -/

theorem NewBVHFromVertexArray_eq (va : List ℚ) (m : Int) :
    NewBVHFromVertexArray va m = splitLoop (2 * (va.length / 9) + 1) (initState va m) := rfl

theorem splitOrder_cases (node : Node) :
    splitOrder node =
      if extentsLength node 1 < extentsLength node 0 then
        if extentsLength node 2 < extentsLength node 0 then
          if extentsLength node 2 < extentsLength node 1 then [2, 1, 0] else [1, 2, 0]
        else [1, 0, 2]
      else
        if extentsLength node 2 < extentsLength node 1 then
          if extentsLength node 2 < extentsLength node 0 then [2, 0, 1] else [0, 2, 1]
        else [0, 1, 2] := by
  simp only [splitOrder, sortSlice, List.foldl, sortInsert, gt_iff_lt]
  by_cases h01 : extentsLength node 1 < extentsLength node 0 <;>
  by_cases h02 : extentsLength node 2 < extentsLength node 0 <;>
  by_cases h12 : extentsLength node 2 < extentsLength node 1 <;>
    simp only [h01, h02, h12, sortInsert, decide_True, decide_False, if_true, if_false,
      Bool.false_eq_true, List.reverse_cons, List.reverse_nil, List.nil_append,
      List.cons_append]

theorem chosenAxis_least (bbox : List ℚ) (node : Node) (c : Nat)
    (h : chosenAxis bbox node = some c) :
    (c = 0 ∨ c = 1 ∨ c = 2) ∧ splitFailed bbox node c = false ∧
    ∀ j, (j = 0 ∨ j = 1 ∨ j = 2) → splitFailed bbox node j = false →
      extentsLength node c ≤ extentsLength node j ∧
      (extentsLength node j = extentsLength node c → c ≤ j) := by
  unfold chosenAxis at h
  rw [splitOrder_cases] at h
  have key : ∀ (l : List Nat), l.find? (fun x => !splitFailed bbox node x) = some c →
      (∀ x ∈ l, x = 0 ∨ x = 1 ∨ x = 2) →
      (∀ j, (j = 0 ∨ j = 1 ∨ j = 2) → j ∈ l) →
      l.Pairwise (fun a b => extentsLength node a ≤ extentsLength node b ∧
        (extentsLength node b = extentsLength node a → a ≤ b)) →
      (c = 0 ∨ c = 1 ∨ c = 2) ∧ splitFailed bbox node c = false ∧
      ∀ j, (j = 0 ∨ j = 1 ∨ j = 2) → splitFailed bbox node j = false →
        extentsLength node c ≤ extentsLength node j ∧
        (extentsLength node j = extentsLength node c → c ≤ j) := by
    intro l hl hm hall hp
    have hc := List.find?_some hl
    have hcm := List.mem_of_find?_eq_some hl
    simp only [Bool.not_eq_true'] at hc
    refine ⟨hm c hcm, hc, ?_⟩
    intro j hj hfj
    have hjm := hall j hj
    clear hm hall hcm
    induction l with
    | nil => simp at hl
    | cons x rest ih =>
      rw [List.pairwise_cons] at hp
      rw [List.find?_cons] at hl
      by_cases hx : splitFailed bbox node x = true
      · simp only [hx, Bool.not_true] at hl
        have hjr : j ∈ rest := by
          rcases List.mem_cons.mp hjm with rfl | hjr
          · rw [hx] at hfj; exact absurd hfj (by simp)
          · exact hjr
        exact ih hl hp.2 hjr
      · simp only [Bool.not_eq_true] at hx
        simp only [hx, Bool.not_false, Option.some.injEq] at hl
        subst hl
        rcases List.mem_cons.mp hjm with rfl | hjr
        · exact ⟨le_refl _, fun _ => le_refl _⟩
        · exact hp.1 j hjr
  split_ifs at h with h01 h02 h12 h12 h02
  all_goals
    refine key _ h (by simp) (by simp) ?_
    simp only [List.pairwise_cons, List.mem_cons, List.mem_singleton, forall_eq_or_imp,
      forall_eq, List.not_mem_nil, false_implies, implies_true, List.Pairwise.nil, and_true]
    simp only [not_lt] at *
    refine ⟨⟨⟨?_, ?_⟩, ⟨?_, ?_⟩⟩, ⟨?_, ?_⟩⟩ <;> first | linarith | (intro heq; first | omega | linarith)

theorem isRef_of_count {n : Node} (h : n.ElementCount ≠ 0) : n.isRef = true := by
  cases n with
  | nil => exact absurd rfl h
  | ref _ _ _ _ _ _ _ => rfl

theorem get_modify (f : Node → Node) (n : Node) (p : List Bool) (h : (n.get p).isRef = true) :
    (n.modify f p).get p = f (n.get p) := by
  induction p generalizing n with
  | nil => rw [get_nil_path, get_nil_path]; cases n <;> rfl
  | cons b q ih =>
    cases n with
    | nil => simp [Node.get, Node.isRef] at h
    | ref mn mx s e l n0 n1 =>
      cases b with
      | false =>
        simp only [Node.get, Node.modify, Bool.false_eq_true, if_false] at h ⊢
        exact ih n0 h
      | true =>
        simp only [Node.get, Node.modify, if_true] at h ⊢
        exact ih n1 h

theorem SplitNode_children (bvh : BVH) (p : List Bool)
    (h1 : ¬ ((bvh.rootNode.get p).ElementCount ≤ bvh.maxTrianglesPerNode ∨
      (bvh.rootNode.get p).ElementCount = 0))
    (h2 : ¬ AllAxesFailed bvh.bboxArray (bvh.rootNode.get p)) :
    ∃ c, chosenAxis bvh.bboxArray (bvh.rootNode.get p) = some c ∧
      (SplitNode bvh p).bboxArray =
        copyInto bvh.bboxArray ((bvh.rootNode.get p).StartIndex * 7)
          (slice (copyElements bvh.bboxArray
            (leftNode bvh.bboxArray (bvh.rootNode.get p) c ++
              rightNode bvh.bboxArray (bvh.rootNode.get p) c) bvh.bboxHelper
            (bvh.rootNode.get p).StartIndex) ((bvh.rootNode.get p).StartIndex * 7)
            ((bvh.rootNode.get p).EndIndex * 7)) ∧
      (SplitNode bvh p).nodesToSplit = (p ++ [true]) :: (p ++ [false]) :: bvh.nodesToSplit ∧
      (SplitNode bvh p).rootNode.get p =
        Node.ref (bvh.rootNode.get p).ExtentsMin (bvh.rootNode.get p).ExtentsMax (-1) (-1)
          (bvh.rootNode.get p).Level
          (NewBVHNode
            (CalcExtents (SplitNode bvh p).bboxArray (bvh.rootNode.get p).StartIndex
              ((bvh.rootNode.get p).StartIndex +
                ((leftNode bvh.bboxArray (bvh.rootNode.get p) c).length : Int)) EPSILON).1
            (CalcExtents (SplitNode bvh p).bboxArray (bvh.rootNode.get p).StartIndex
              ((bvh.rootNode.get p).StartIndex +
                ((leftNode bvh.bboxArray (bvh.rootNode.get p) c).length : Int)) EPSILON).2
            (bvh.rootNode.get p).StartIndex
            ((bvh.rootNode.get p).StartIndex +
              ((leftNode bvh.bboxArray (bvh.rootNode.get p) c).length : Int))
            ((bvh.rootNode.get p).Level + 1))
          (NewBVHNode
            (CalcExtents (SplitNode bvh p).bboxArray
              ((bvh.rootNode.get p).StartIndex +
                ((leftNode bvh.bboxArray (bvh.rootNode.get p) c).length : Int))
              (bvh.rootNode.get p).EndIndex EPSILON).1
            (CalcExtents (SplitNode bvh p).bboxArray
              ((bvh.rootNode.get p).StartIndex +
                ((leftNode bvh.bboxArray (bvh.rootNode.get p) c).length : Int))
              (bvh.rootNode.get p).EndIndex EPSILON).2
            ((bvh.rootNode.get p).StartIndex +
              ((leftNode bvh.bboxArray (bvh.rootNode.get p) c).length : Int))
            (bvh.rootNode.get p).EndIndex
            ((bvh.rootNode.get p).Level + 1)) := by
  obtain ⟨c, hc, _⟩ := chosenAxis_some bvh.bboxArray (bvh.rootNode.get p) h2
  refine ⟨c, hc, ?_⟩
  rw [SplitNode_split bvh p c h1 h2 hc]
  refine ⟨rfl, rfl, ?_⟩
  simp only []
  rw [get_modify _ _ _ (isRef_of_count (fun h => h1 (Or.inr h)))]

/-- Claim C13, as the code has it.  Whenever `SplitNode` splits the node at path `p` (its
element count is over the threshold and not zero, and not all three axes failed), the axis
`c` whose partition `leftNode c`, `rightNode c` becomes the two children is a non-failed
axis with the smallest extent length `ExtentsMax - ExtentsMin` among the non-failed axes, and
among non-failed axes of equal smallest length it is the first in the order X, Y, Z. -/
theorem split_axis_choice (bvh : BVH) (p : List Bool)
    (h1 : ¬ ((bvh.rootNode.get p).ElementCount ≤ bvh.maxTrianglesPerNode ∨
      (bvh.rootNode.get p).ElementCount = 0))
    (h2 : ¬ AllAxesFailed bvh.bboxArray (bvh.rootNode.get p)) :
    ∃ c, chosenAxis bvh.bboxArray (bvh.rootNode.get p) = some c ∧
      (c = 0 ∨ c = 1 ∨ c = 2) ∧ splitFailed bvh.bboxArray (bvh.rootNode.get p) c = false ∧
      (∀ j, (j = 0 ∨ j = 1 ∨ j = 2) → splitFailed bvh.bboxArray (bvh.rootNode.get p) j = false →
        extentsLength (bvh.rootNode.get p) c ≤ extentsLength (bvh.rootNode.get p) j ∧
        (extentsLength (bvh.rootNode.get p) j = extentsLength (bvh.rootNode.get p) c → c ≤ j)) ∧
      ((SplitNode bvh p).rootNode.get p).Node0.StartIndex = (bvh.rootNode.get p).StartIndex ∧
      ((SplitNode bvh p).rootNode.get p).Node0.EndIndex = (bvh.rootNode.get p).StartIndex +
        ((leftNode bvh.bboxArray (bvh.rootNode.get p) c).length : Int) ∧
      ((SplitNode bvh p).rootNode.get p).Node1.StartIndex = (bvh.rootNode.get p).StartIndex +
        ((leftNode bvh.bboxArray (bvh.rootNode.get p) c).length : Int) ∧
      ((SplitNode bvh p).rootNode.get p).Node1.EndIndex = (bvh.rootNode.get p).EndIndex ∧
      (SplitNode bvh p).bboxArray =
        copyInto bvh.bboxArray ((bvh.rootNode.get p).StartIndex * 7)
          (slice (copyElements bvh.bboxArray
            (leftNode bvh.bboxArray (bvh.rootNode.get p) c ++
              rightNode bvh.bboxArray (bvh.rootNode.get p) c) bvh.bboxHelper
            (bvh.rootNode.get p).StartIndex) ((bvh.rootNode.get p).StartIndex * 7)
            ((bvh.rootNode.get p).EndIndex * 7)) := by
  obtain ⟨c, hc, hb, _, hg⟩ := SplitNode_children bvh p h1 h2
  obtain ⟨a1, a2, a3⟩ := chosenAxis_least _ _ c hc
  refine ⟨c, hc, a1, a2, a3, ?_, ?_, ?_, ?_, hb⟩ <;> rw [hg] <;> rfl

/-- A use of `split_axis_choice`: the first call of `SplitNode` on the buffer `axisDemo`
with threshold 2. -/
theorem split_axis_choice_witness :
    ∃ c, chosenAxis (CalcBoundingBoxes axisDemo) (initState axisDemo 2).rootNode = some c ∧
      (c = 0 ∨ c = 1 ∨ c = 2) ∧
      splitFailed (CalcBoundingBoxes axisDemo) (initState axisDemo 2).rootNode c = false := by
  obtain ⟨c, h1, h2, h3, _⟩ := split_axis_choice
    { initState axisDemo 2 with nodesToSplit := [] } [] (by decide!)
    (by unfold AllAxesFailed; decide!)
  exact ⟨c, h1, h2, h3⟩

/-- Claim C13 fails as stated.  On the buffer `axisDemo` with threshold 2 the root extent is
longer on X than on Y and neither split fails, yet `SplitNode` splits the root on Y: the first
child gets the two triangles with low Y, where the X split would give it one triangle. -/
theorem split_axis_not_largest :
    splitFailed (CalcBoundingBoxes axisDemo) (initState axisDemo 2).rootNode 0 = false ∧
    splitFailed (CalcBoundingBoxes axisDemo) (initState axisDemo 2).rootNode 1 = false ∧
    extentsLength (initState axisDemo 2).rootNode 1 <
      extentsLength (initState axisDemo 2).rootNode 0 ∧
    chosenAxis (CalcBoundingBoxes axisDemo) (initState axisDemo 2).rootNode = some 1 ∧
    (leftNode (CalcBoundingBoxes axisDemo) (initState axisDemo 2).rootNode 0).length = 1 ∧
    (NewBVHFromVertexArray axisDemo 2).rootNode.Node0.StartIndex = 0 ∧
    (NewBVHFromVertexArray axisDemo 2).rootNode.Node0.EndIndex = 2 ∧
    leafIds (NewBVHFromVertexArray axisDemo 2).bboxArray
      (NewBVHFromVertexArray axisDemo 2).rootNode = [0, 2, 1] := by
  decide!

/-! ## The box test -/

theorem CalcTValues_fin_iff (mn mx o dx : ℚ) (hd : dx ≠ 0) :
    ∃ l u, CalcTValues mn mx o (F64.divRat 1 dx) = ⟨F64.fin l, F64.fin u⟩ ∧
      ∀ t, (l ≤ t ∧ t ≤ u) ↔ (mn ≤ o + t * dx ∧ o + t * dx ≤ mx) := by
  have hr : F64.divRat 1 dx = F64.fin (1 / dx) := by simp [F64.divRat, hd]
  rw [hr]
  rcases lt_or_gt_of_ne hd with hneg | hpos
  · have h1 : 1 / dx < 0 := one_div_neg.mpr hneg
    refine ⟨(mx - o) * (1 / dx), (mn - o) * (1 / dx), ?_, ?_⟩
    · unfold CalcTValues
      rw [F64_ge_fin]
      simp only [h1, decide_True, Bool.not_true, Bool.false_eq_true, if_false, F64_mul_fin]
    · intro t
      rw [mul_one_div, mul_one_div, div_le_iff_of_neg hneg, le_div_iff_of_neg hneg]
      constructor <;> rintro ⟨a, b⟩ <;> constructor <;> linarith
  · have h1 : ¬ 1 / dx < 0 := not_lt.mpr (one_div_pos.mpr hpos).le
    refine ⟨(mn - o) * (1 / dx), (mx - o) * (1 / dx), ?_, ?_⟩
    · unfold CalcTValues
      rw [F64_ge_fin]
      simp only [h1, decide_False, Bool.not_false, if_true, F64_mul_fin]
    · intro t
      rw [mul_one_div, mul_one_div, div_le_iff₀ hpos, le_div_iff₀ hpos]
      constructor <;> rintro ⟨a, b⟩ <;> constructor <;> linarith

theorem IntersectNodeBox_fin (o : Vector3) (inv : Vector3F) (node : Node)
    (lx ux ly uy lz uz : ℚ)
    (ex : CalcTValues node.ExtentsMin.X node.ExtentsMax.X o.X inv.X = ⟨F64.fin lx, F64.fin ux⟩)
    (ey : CalcTValues node.ExtentsMin.Y node.ExtentsMax.Y o.Y inv.Y = ⟨F64.fin ly, F64.fin uy⟩)
    (ez : CalcTValues node.ExtentsMin.Z node.ExtentsMax.Z o.Z inv.Z = ⟨F64.fin lz, F64.fin uz⟩)
    (hx : lx ≤ ux) (hy : ly ≤ uy) (hz : lz ≤ uz) :
    IntersectNodeBox o inv node = true ↔
      ∃ t, 0 ≤ t ∧ (lx ≤ t ∧ t ≤ ux) ∧ (ly ≤ t ∧ t ≤ uy) ∧ (lz ≤ t ∧ t ≤ uz) := by
  simp only [IntersectNodeBox, ex, ey, ez, F64.gt, F64.lt, isNaN, F64.IsInf,
    Bool.or_false, Bool.or_eq_true, decide_eq_true_eq]
  constructor
  · intro h
    split_ifs at h with c1 c2 c3 c4 c5 c6 c7 c8 c9 c10 c11 c12
    all_goals simp only [not_or, not_lt, decide_eq_true_eq, or_false, not_false_eq_true,
      and_true] at *
    all_goals
      refine ⟨max (max (max lx ly) lz) 0, le_max_right _ _, ⟨?_, ?_⟩, ⟨?_, ?_⟩, ⟨?_, ?_⟩⟩
    all_goals
      first
      | (simp only [le_max_iff, le_refl, true_or, or_true])
      | (simp only [max_le_iff]; refine ⟨⟨⟨?_, ?_⟩, ?_⟩, ?_⟩ <;> linarith)
  · rintro ⟨t, ht, ⟨a1, a2⟩, ⟨a3, a4⟩, ⟨a5, a6⟩⟩
    rw [if_neg (by rintro (h | h) <;> linarith)]
    have hmin : ∃ a, (if ly > lx then F64.fin ly else F64.fin lx) = F64.fin a ∧ a ≤ t := by
      split
      · exact ⟨ly, rfl, a3⟩
      · exact ⟨lx, rfl, a1⟩
    have hmax : ∃ b, (if uy < ux then F64.fin uy else F64.fin ux) = F64.fin b ∧ t ≤ b := by
      split
      · exact ⟨uy, rfl, a4⟩
      · exact ⟨ux, rfl, a2⟩
    obtain ⟨a, ea, ha⟩ := hmin
    obtain ⟨b, eb, hb⟩ := hmax
    simp only [gt_iff_lt] at ea
    simp only [ea, eb, decide_eq_true_eq, Bool.or_false]
    rw [if_neg (by rintro (h | h) <;> linarith)]
    split <;> simp <;> linarith

theorem IntersectNodeBox_iff (o d : Vector3) (node : Node) (hx : d.X ≠ 0) (hy : d.Y ≠ 0)
    (hz : d.Z ≠ 0) (bx : node.ExtentsMin.X ≤ node.ExtentsMax.X)
    (by_ : node.ExtentsMin.Y ≤ node.ExtentsMax.Y) (bz : node.ExtentsMin.Z ≤ node.ExtentsMax.Z) :
    IntersectNodeBox o (invDirection d) node = true ↔
      RayMeetsBox o d node.ExtentsMin node.ExtentsMax := by
  obtain ⟨lx, ux, ex, ix⟩ := CalcTValues_fin_iff node.ExtentsMin.X node.ExtentsMax.X o.X d.X hx
  obtain ⟨ly, uy, ey, iy⟩ := CalcTValues_fin_iff node.ExtentsMin.Y node.ExtentsMax.Y o.Y d.Y hy
  obtain ⟨lz, uz, ez, iz⟩ := CalcTValues_fin_iff node.ExtentsMin.Z node.ExtentsMax.Z o.Z d.Z hz
  have nonempty : ∀ (mn mx oc dc l u : ℚ), dc ≠ 0 → mn ≤ mx →
      (∀ t, (l ≤ t ∧ t ≤ u) ↔ (mn ≤ oc + t * dc ∧ oc + t * dc ≤ mx)) → l ≤ u := by
    intro mn mx oc dc l u hdc hle hiff
    have h := (hiff ((mn - oc) / dc)).mpr (by
      rw [div_mul_cancel₀ _ hdc]
      constructor <;> linarith)
    exact h.1.trans h.2
  rw [IntersectNodeBox_fin o (invDirection d) node lx ux ly uy lz uz ex ey ez
    (nonempty _ _ _ _ _ _ hx bx ix) (nonempty _ _ _ _ _ _ hy by_ iy)
    (nonempty _ _ _ _ _ _ hz bz iz)]
  unfold RayMeetsBox
  constructor
  · rintro ⟨t, ht, a, b, c⟩
    exact ⟨t, ht, (ix t).mp a, (iy t).mp b, (iz t).mp c⟩
  · rintro ⟨t, ht, a, b, c⟩
    exact ⟨t, ht, (ix t).mpr a, (iy t).mpr b, (iz t).mpr c⟩

/-- Claim C15.  For a node with `ExtentsMin ≤ ExtentsMax` componentwise and a ray whose
three direction components are non-zero, `IntersectNodeBox` (with the reciprocal direction
that `IntersectRay` computes) returns true exactly when some point `origin + t direction`
with `t ≥ 0` lies in the box; in particular it returns true when the origin lies in the
box. -/
theorem box_test_general (o d : Vector3) (node : Node) (hx : d.X ≠ 0) (hy : d.Y ≠ 0)
    (hz : d.Z ≠ 0) (bx : node.ExtentsMin.X ≤ node.ExtentsMax.X)
    (by_ : node.ExtentsMin.Y ≤ node.ExtentsMax.Y) (bz : node.ExtentsMin.Z ≤ node.ExtentsMax.Z) :
    (IntersectNodeBox o (invDirection d) node = true ↔
      RayMeetsBox o d node.ExtentsMin node.ExtentsMax) ∧
    ((node.ExtentsMin.X ≤ o.X ∧ o.X ≤ node.ExtentsMax.X) ∧
      (node.ExtentsMin.Y ≤ o.Y ∧ o.Y ≤ node.ExtentsMax.Y) ∧
      (node.ExtentsMin.Z ≤ o.Z ∧ o.Z ≤ node.ExtentsMax.Z) →
      IntersectNodeBox o (invDirection d) node = true) := by
  refine ⟨IntersectNodeBox_iff o d node hx hy hz bx by_ bz, ?_⟩
  rintro ⟨a, b, c⟩
  rw [IntersectNodeBox_iff o d node hx hy hz bx by_ bz]
  refine ⟨0, le_refl _, ?_, ?_, ?_⟩ <;> simpa using ‹_›

/-- A use of `box_test_general`: the root box of the `demo1` tree and the ray from
`(1500, 3, 1000)` along `(1, 2, -1000)`. -/
theorem box_test_general_witness :
    IntersectNodeBox ⟨1500, 3, 1000⟩ (invDirection ⟨1, 2, -1000⟩)
      (NewBVH demo1Triangles 7).rootNode = true ↔
    RayMeetsBox ⟨1500, 3, 1000⟩ ⟨1, 2, -1000⟩ (NewBVH demo1Triangles 7).rootNode.ExtentsMin
      (NewBVH demo1Triangles 7).rootNode.ExtentsMax :=
  (box_test_general ⟨1500, 3, 1000⟩ ⟨1, 2, -1000⟩ (NewBVH demo1Triangles 7).rootNode
    (by decide!) (by decide!) (by decide!) (by decide!) (by decide!) (by decide!)).1

theorem CalcTValues_pinf_outside (mn mx o : ℚ) (h1 : o < mn) (h2 : mn ≤ mx) :
    CalcTValues mn mx o F64.pinf = ⟨F64.pinf, F64.pinf⟩ := by
  have a1 : 0 < mn - o := by linarith
  have a3 : 0 < mx - o := by linarith
  simp only [CalcTValues, F64.ge, F64.lt, Bool.not_false, if_true, F64.mul, a1, a3]

theorem IntersectNodeBox_accepts_miss (o : Vector3) (node : Node)
    (hx : o.X < node.ExtentsMin.X) (bx : node.ExtentsMin.X ≤ node.ExtentsMax.X)
    (hy1 : node.ExtentsMin.Y < o.Y) (hy2 : o.Y < node.ExtentsMax.Y)
    (bz : node.ExtentsMin.Z ≤ node.ExtentsMax.Z) (hz : node.ExtentsMax.Z < o.Z) :
    IntersectNodeBox o (invDirection ⟨0, 0, -1⟩) node = true := by
  have hinf : F64.divRat 1 0 = F64.pinf := by simp [F64.divRat]
  have hneg : F64.divRat 1 (-1) = F64.fin (-1) := by
    simp only [F64.divRat]; norm_num
  have hz' : CalcTValues node.ExtentsMin.Z node.ExtentsMax.Z o.Z (F64.fin (-1)) =
      ⟨F64.fin ((node.ExtentsMax.Z - o.Z) * -1), F64.fin ((node.ExtentsMin.Z - o.Z) * -1)⟩ := by
    unfold CalcTValues
    rw [F64_ge_fin]
    have : (-1 : ℚ) < 0 := by norm_num
    simp only [this, decide_True, Bool.not_true, Bool.false_eq_true, if_false, F64_mul_fin]
  have hu : ¬ (node.ExtentsMin.Z - o.Z) * -1 < 0 := by
    rw [not_lt]; nlinarith
  simp only [IntersectNodeBox, invDirection, hinf, hneg, CalcTValues_pinf_outside _ _ _ hx bx,
    CalcTValues_pinf _ _ _ hy1 hy2, hz', F64.gt, F64.lt, isNaN, F64.IsInf]
  simp
  linarith

/-- Claim C14.  The box test accepts an axis-aligned ray that misses the box: for the root
node of the `demo1` tree (box `ExtentsMin < ExtentsMax`) and the ray from `(-5, 3, 1000)`
along `(0, 0, -1)`, whose origin has `X` below `ExtentsMin.X`, `Y` strictly inside the box and
`Z` above it, `IntersectNodeBox` returns true although no point of the ray lies in the box. -/
theorem box_test_axis_aligned_accepts_miss :
    (NewBVH demo1Triangles 7).rootNode.ExtentsMin.X <
      (NewBVH demo1Triangles 7).rootNode.ExtentsMax.X ∧
    (NewBVH demo1Triangles 7).rootNode.ExtentsMin.Y <
      (NewBVH demo1Triangles 7).rootNode.ExtentsMax.Y ∧
    (NewBVH demo1Triangles 7).rootNode.ExtentsMin.Z <
      (NewBVH demo1Triangles 7).rootNode.ExtentsMax.Z ∧
    (-5 : ℚ) < (NewBVH demo1Triangles 7).rootNode.ExtentsMin.X ∧
    (NewBVH demo1Triangles 7).rootNode.ExtentsMin.Y < 3 ∧
    (3 : ℚ) < (NewBVH demo1Triangles 7).rootNode.ExtentsMax.Y ∧
    (NewBVH demo1Triangles 7).rootNode.ExtentsMax.Z < 1000 ∧
    IntersectNodeBox ⟨-5, 3, 1000⟩ (invDirection ⟨0, 0, -1⟩)
      (NewBVH demo1Triangles 7).rootNode = true ∧
    ¬ RayMeetsBox ⟨-5, 3, 1000⟩ ⟨0, 0, -1⟩ (NewBVH demo1Triangles 7).rootNode.ExtentsMin
      (NewBVH demo1Triangles 7).rootNode.ExtentsMax := by
  have hX : (-5 : ℚ) < (NewBVH demo1Triangles 7).rootNode.ExtentsMin.X := by decide!
  refine ⟨by decide!, by decide!, by decide!, hX, by decide!, by decide!, by decide!,
    by decide!, ?_⟩
  rintro ⟨t, _, ⟨a, _⟩, _⟩
  simp only [mul_zero, add_zero] at a
  exact absurd hX (not_lt.mpr a)

/-! ## The reordering and the termination of the worklist loop -/

theorem AllAxesFailed_of_le (bbox : List ℚ) (node : Node)
    (h : node.EndIndex ≤ node.StartIndex) : AllAxesFailed bbox node := by
  have he : intRange node.StartIndex node.EndIndex = [] := intRange_empty _ _ h
  refine ⟨?_, ?_, ?_⟩ <;> simp [splitFailed, leftNode, he]

theorem SplitNode_partition (bvh : BVH) (p : List Bool)
    (h1 : ¬ ((bvh.rootNode.get p).ElementCount ≤ bvh.maxTrianglesPerNode ∨
      (bvh.rootNode.get p).ElementCount = 0))
    (h2 : ¬ AllAxesFailed bvh.bboxArray (bvh.rootNode.get p)) :
    ∃ c, chosenAxis bvh.bboxArray (bvh.rootNode.get p) = some c ∧
      0 < (leftNode bvh.bboxArray (bvh.rootNode.get p) c).length ∧
      0 < (rightNode bvh.bboxArray (bvh.rootNode.get p) c).length ∧
      ((leftNode bvh.bboxArray (bvh.rootNode.get p) c).length : Int) +
        (rightNode bvh.bboxArray (bvh.rootNode.get p) c).length =
        (bvh.rootNode.get p).EndIndex - (bvh.rootNode.get p).StartIndex ∧
      ((SplitNode bvh p).rootNode.get p).Node0.StartIndex = (bvh.rootNode.get p).StartIndex ∧
      ((SplitNode bvh p).rootNode.get p).Node0.EndIndex = (bvh.rootNode.get p).StartIndex +
        ((leftNode bvh.bboxArray (bvh.rootNode.get p) c).length : Int) ∧
      ((SplitNode bvh p).rootNode.get p).Node1.StartIndex = (bvh.rootNode.get p).StartIndex +
        ((leftNode bvh.bboxArray (bvh.rootNode.get p) c).length : Int) ∧
      ((SplitNode bvh p).rootNode.get p).Node1.EndIndex = (bvh.rootNode.get p).EndIndex ∧
      (SplitNode bvh p).bboxArray =
        copyInto bvh.bboxArray ((bvh.rootNode.get p).StartIndex * 7)
          (slice (copyElements bvh.bboxArray
            (leftNode bvh.bboxArray (bvh.rootNode.get p) c ++
              rightNode bvh.bboxArray (bvh.rootNode.get p) c) bvh.bboxHelper
            (bvh.rootNode.get p).StartIndex) ((bvh.rootNode.get p).StartIndex * 7)
            ((bvh.rootNode.get p).EndIndex * 7)) := by
  obtain ⟨c, hc, hb, _, hg⟩ := SplitNode_children bvh p h1 h2
  obtain ⟨_, hcf, _⟩ := chosenAxis_least _ _ c hc
  obtain ⟨l1, l2⟩ := splitFailed_false _ _ _ hcf
  have hse : (bvh.rootNode.get p).StartIndex ≤ (bvh.rootNode.get p).EndIndex := by
    by_contra hlt
    exact h2 (AllAxesFailed_of_le _ _ (by omega))
  refine ⟨c, hc, l1, l2, left_right_length _ _ c hse, ?_, ?_, ?_, ?_, hb⟩ <;> rw [hg] <;> rfl

/-- Claim C16.  When `SplitNode` splits the node at path `p` with range `[s, e)` inside the
buffers, on the chosen axis `c`: afterwards the slots `[s, e)` of `bboxArray` hold the records
that were there before, first those whose centre on axis `c` is strictly below the centre of
the node, in their original order, then the others in their original order; the ranges of
the children are `[s, s + count)` and `[s + count, e)` for the number `count` of the former,
both non-empty; the buffer keeps its length and every scalar outside `[7 s, 7 e)` is
unchanged. -/
theorem reorder_stable_partition (bvh : BVH) (p : List Bool)
    (h1 : ¬ ((bvh.rootNode.get p).ElementCount ≤ bvh.maxTrianglesPerNode ∨
      (bvh.rootNode.get p).ElementCount = 0))
    (h2 : ¬ AllAxesFailed bvh.bboxArray (bvh.rootNode.get p))
    (h0 : 0 ≤ (bvh.rootNode.get p).StartIndex)
    (hlen : (bvh.rootNode.get p).EndIndex * 7 ≤ bvh.bboxArray.length)
    (hH : bvh.bboxHelper.length = bvh.bboxArray.length) :
    ∃ c, chosenAxis bvh.bboxArray (bvh.rootNode.get p) = some c ∧
      (intRange (bvh.rootNode.get p).StartIndex (bvh.rootNode.get p).EndIndex).map
          (GetBox (SplitNode bvh p).bboxArray) =
        ((intRange (bvh.rootNode.get p).StartIndex (bvh.rootNode.get p).EndIndex).filter
          (fun i => decide (objectCenter bvh.bboxArray i c <
            extentCenters (bvh.rootNode.get p) c))).map (GetBox bvh.bboxArray) ++
        ((intRange (bvh.rootNode.get p).StartIndex (bvh.rootNode.get p).EndIndex).filter
          (fun i => !decide (objectCenter bvh.bboxArray i c <
            extentCenters (bvh.rootNode.get p) c))).map (GetBox bvh.bboxArray) ∧
      ((SplitNode bvh p).rootNode.get p).Node0.StartIndex = (bvh.rootNode.get p).StartIndex ∧
      ((SplitNode bvh p).rootNode.get p).Node0.EndIndex = (bvh.rootNode.get p).StartIndex +
        (((intRange (bvh.rootNode.get p).StartIndex (bvh.rootNode.get p).EndIndex).filter
          (fun i => decide (objectCenter bvh.bboxArray i c <
            extentCenters (bvh.rootNode.get p) c))).length : Int) ∧
      ((SplitNode bvh p).rootNode.get p).Node1.StartIndex =
        ((SplitNode bvh p).rootNode.get p).Node0.EndIndex ∧
      ((SplitNode bvh p).rootNode.get p).Node1.EndIndex = (bvh.rootNode.get p).EndIndex ∧
      ((SplitNode bvh p).rootNode.get p).Node0.StartIndex <
        ((SplitNode bvh p).rootNode.get p).Node0.EndIndex ∧
      ((SplitNode bvh p).rootNode.get p).Node1.StartIndex <
        ((SplitNode bvh p).rootNode.get p).Node1.EndIndex ∧
      (SplitNode bvh p).bboxArray.length = bvh.bboxArray.length ∧
      ∀ j, j < (bvh.rootNode.get p).StartIndex * 7 ∨ (bvh.rootNode.get p).EndIndex * 7 ≤ j →
        rd (SplitNode bvh p).bboxArray j = rd bvh.bboxArray j := by
  obtain ⟨c, hc, l1, l2, hlr, n1, n2, n3, n4, hb⟩ := SplitNode_partition bvh p h1 h2
  obtain ⟨r1, r2, r3, _⟩ := reorder_spec bvh.bboxArray bvh.bboxHelper
    (bvh.rootNode.get p).StartIndex (bvh.rootNode.get p).EndIndex
    (leftNode bvh.bboxArray (bvh.rootNode.get p) c ++
      rightNode bvh.bboxArray (bvh.rootNode.get p) c) h0
    (by rw [List.length_append]; push_cast; omega) hlen hH
  refine ⟨c, hc, ?_, n1, n2, by rw [n3, n2], n4, by rw [n1, n2]; omega,
    by rw [n3, n4]; omega, by rw [hb, r2], ?_⟩
  · rw [hb, r3, List.map_append]
    rfl
  · intro j hj
    rw [hb, rd_copyInto_slice _ _ _ _ (by omega) (by omega) hlen r1, if_neg (by omega)]

/-- A use of `reorder_stable_partition`: the first call of `SplitNode` on the buffer
`axisDemo` with threshold 2, which moves triangle 2 before triangle 1. -/
theorem reorder_stable_partition_witness :
    (SplitNode { initState axisDemo 2 with nodesToSplit := [] } []).bboxArray.length =
      (CalcBoundingBoxes axisDemo).length := by
  obtain ⟨c, _, _, _, _, _, _, _, _, h, _⟩ := reorder_stable_partition
    { initState axisDemo 2 with nodesToSplit := [] } [] (by decide!)
    (by unfold AllAxesFailed; decide!) (by decide!) (by decide!) (by decide!)
  exact h

theorem splitLoop_more_fuel (f k : Nat) (b : BVH) (h : (splitLoop f b).nodesToSplit = []) :
    splitLoop (f + k) b = splitLoop f b := by
  induction f generalizing b with
  | zero =>
    have hb : b.nodesToSplit = [] := h
    cases k with
    | zero => rfl
    | succ k =>
      rw [Nat.zero_add]
      unfold splitLoop
      simp only [hb]
  | succ f ih =>
    have e : f + 1 + k = (f + k) + 1 := by omega
    rw [e]
    unfold splitLoop
    cases hw : b.nodesToSplit with
    | nil => rfl
    | cons node rest =>
      simp only []
      apply ih
      unfold splitLoop at h
      simpa only [hw] using h

/-- Claim C17.  Construction terminates for every vertex buffer and every threshold: the
worklist of `NewBVHFromVertexArray` is empty after at most `2 * triangleCount + 1` calls of
`SplitNode`, and more iterations change nothing; a split gives two children that each hold at
least one record and fewer than the parent, and a node for which all three axes fail is left
as it is. -/
theorem construction_terminates :
    (∀ (vertexArray : List ℚ) (m : Int),
      (splitLoop (2 * (vertexArray.length / 9) + 1) (initState vertexArray m)).nodesToSplit =
        [] ∧
      NewBVHFromVertexArray vertexArray m =
        splitLoop (2 * (vertexArray.length / 9) + 1) (initState vertexArray m) ∧
      ∀ k, splitLoop (2 * (vertexArray.length / 9) + 1 + k) (initState vertexArray m) =
        NewBVHFromVertexArray vertexArray m) ∧
    (∀ (bvh : BVH) (p : List Bool),
      ¬ ((bvh.rootNode.get p).ElementCount ≤ bvh.maxTrianglesPerNode ∨
        (bvh.rootNode.get p).ElementCount = 0) →
      ¬ AllAxesFailed bvh.bboxArray (bvh.rootNode.get p) →
      1 ≤ ((SplitNode bvh p).rootNode.get p).Node0.ElementCount ∧
      1 ≤ ((SplitNode bvh p).rootNode.get p).Node1.ElementCount ∧
      ((SplitNode bvh p).rootNode.get p).Node0.ElementCount <
        (bvh.rootNode.get p).ElementCount ∧
      ((SplitNode bvh p).rootNode.get p).Node1.ElementCount <
        (bvh.rootNode.get p).ElementCount ∧
      (SplitNode bvh p).nodesToSplit = (p ++ [true]) :: (p ++ [false]) :: bvh.nodesToSplit) ∧
    (∀ (bvh : BVH) (p : List Bool), AllAxesFailed bvh.bboxArray (bvh.rootNode.get p) →
      SplitNode bvh p = bvh) := by
  refine ⟨?_, ?_, SplitNode_failed⟩
  · intro va m
    have h := (NewBVHFromVertexArray_inv va m).2.1
    rw [NewBVHFromVertexArray_eq] at h
    refine ⟨h, NewBVHFromVertexArray_eq va m, ?_⟩
    intro k
    rw [NewBVHFromVertexArray_eq]
    exact splitLoop_more_fuel _ k _ h
  · intro bvh p h1 h2
    obtain ⟨c, _, l1, l2, hlr, n1, n2, n3, n4, _⟩ := SplitNode_partition bvh p h1 h2
    obtain ⟨_, _, _, hw, _⟩ := SplitNode_children bvh p h1 h2
    simp only [Node.ElementCount, n1, n2, n3, n4]
    refine ⟨by omega, by omega, by omega, by omega, hw⟩

/-! ## The results of `CalcExtents` and `CalcBoundingBoxes` -/

theorem foldl_min_attained (f : Int → ℚ) (l : List Int) (init : ℚ) (hne : l ≠ [])
    (hle : ∀ i ∈ l, f i ≤ init) :
    ∃ i ∈ l, l.foldl (fun a i => min (f i) a) init = f i := by
  obtain ⟨_, h2, h3⟩ := foldl_min_spec f l init
  rcases h3 with h3 | h3
  · obtain ⟨x, hx⟩ := List.exists_mem_of_ne_nil l hne
    refine ⟨x, hx, le_antisymm (h2 x hx) ?_⟩
    rw [h3]
    exact hle x hx
  · exact h3

theorem foldl_max_attained (f : Int → ℚ) (l : List Int) (init : ℚ) (hne : l ≠ [])
    (hle : ∀ i ∈ l, init ≤ f i) :
    ∃ i ∈ l, l.foldl (fun a i => max (f i) a) init = f i := by
  obtain ⟨_, h2, h3⟩ := foldl_max_spec f l init
  rcases h3 with h3 | h3
  · obtain ⟨x, hx⟩ := List.exists_mem_of_ne_nil l hne
    refine ⟨x, hx, le_antisymm ?_ (h2 x hx)⟩
    rw [h3]
    exact hle x hx
  · exact h3

theorem intRange_ne_nil (s e : Int) (h : s < e) : intRange s e ≠ [] := by
  intro hn
  have : s ∈ intRange s e := (mem_intRange s e s).mpr ⟨le_refl _, h⟩
  rw [hn] at this
  exact List.not_mem_nil _ this

/-- Claim C18.  `CalcExtents(start, end, eps)` returns the box `((0,0,0),(0,0,0))` when
`start >= end`; otherwise, for a range `[start, end)` inside the buffer whose records hold
finite float64 values, on every axis the returned minimum is the least of the records'
minimum fields over the slots `[start, end)` minus `eps` (a lower bound of all of them,
attained by one of them), and the returned maximum is the greatest of the records' maximum
fields plus `eps`. -/
theorem CalcExtents_min_max (bboxArray : List ℚ) (s e : Int) (eps : ℚ) :
    (s ≥ e → CalcExtents bboxArray s e eps = (⟨0, 0, 0⟩, ⟨0, 0, 0⟩)) ∧
    (0 ≤ s → s < e → e * 7 ≤ bboxArray.length →
      (∀ i, s ≤ i → i < e → Float64Range (GetBox bboxArray i)) →
      (∀ i, s ≤ i → i < e →
        (CalcExtents bboxArray s e eps).1.X ≤ (GetBox bboxArray i).MinX - eps ∧
        (CalcExtents bboxArray s e eps).1.Y ≤ (GetBox bboxArray i).MinY - eps ∧
        (CalcExtents bboxArray s e eps).1.Z ≤ (GetBox bboxArray i).MinZ - eps ∧
        (GetBox bboxArray i).MaxX + eps ≤ (CalcExtents bboxArray s e eps).2.X ∧
        (GetBox bboxArray i).MaxY + eps ≤ (CalcExtents bboxArray s e eps).2.Y ∧
        (GetBox bboxArray i).MaxZ + eps ≤ (CalcExtents bboxArray s e eps).2.Z) ∧
      (∃ i, s ≤ i ∧ i < e ∧
        (CalcExtents bboxArray s e eps).1.X = (GetBox bboxArray i).MinX - eps) ∧
      (∃ i, s ≤ i ∧ i < e ∧
        (CalcExtents bboxArray s e eps).1.Y = (GetBox bboxArray i).MinY - eps) ∧
      (∃ i, s ≤ i ∧ i < e ∧
        (CalcExtents bboxArray s e eps).1.Z = (GetBox bboxArray i).MinZ - eps) ∧
      (∃ i, s ≤ i ∧ i < e ∧
        (CalcExtents bboxArray s e eps).2.X = (GetBox bboxArray i).MaxX + eps) ∧
      (∃ i, s ≤ i ∧ i < e ∧
        (CalcExtents bboxArray s e eps).2.Y = (GetBox bboxArray i).MaxY + eps) ∧
      (∃ i, s ≤ i ∧ i < e ∧
        (CalcExtents bboxArray s e eps).2.Z = (GetBox bboxArray i).MaxZ + eps)) := by
  constructor
  · intro h
    simp only [CalcExtents, if_pos h]
  · intro _ h _ hr
    obtain ⟨f1, f2, f3, f4, f5, f6⟩ := CalcExtents_fields bboxArray s e eps h
    have hne := intRange_ne_nil s e h
    have hm : ∀ i ∈ intRange s e, Float64Range (GetBox bboxArray i) := by
      intro i hi
      rw [mem_intRange] at hi
      exact hr i hi.1 hi.2
    obtain ⟨_, b1, _⟩ := foldl_min_spec (fun i => (GetBox bboxArray i).MinX) (intRange s e)
      MaxFloat64
    obtain ⟨_, b2, _⟩ := foldl_min_spec (fun i => (GetBox bboxArray i).MinY) (intRange s e)
      MaxFloat64
    obtain ⟨_, b3, _⟩ := foldl_min_spec (fun i => (GetBox bboxArray i).MinZ) (intRange s e)
      MaxFloat64
    obtain ⟨_, b4, _⟩ := foldl_max_spec (fun i => (GetBox bboxArray i).MaxX) (intRange s e)
      (-MaxFloat64)
    obtain ⟨_, b5, _⟩ := foldl_max_spec (fun i => (GetBox bboxArray i).MaxY) (intRange s e)
      (-MaxFloat64)
    obtain ⟨_, b6, _⟩ := foldl_max_spec (fun i => (GetBox bboxArray i).MaxZ) (intRange s e)
      (-MaxFloat64)
    obtain ⟨i1, m1, c1⟩ := foldl_min_attained (fun i => (GetBox bboxArray i).MinX)
      (intRange s e) MaxFloat64 hne (fun i hi => (hm i hi).1.2)
    obtain ⟨i2, m2, c2⟩ := foldl_min_attained (fun i => (GetBox bboxArray i).MinY)
      (intRange s e) MaxFloat64 hne (fun i hi => (hm i hi).2.1.2)
    obtain ⟨i3, m3, c3⟩ := foldl_min_attained (fun i => (GetBox bboxArray i).MinZ)
      (intRange s e) MaxFloat64 hne (fun i hi => (hm i hi).2.2.1.2)
    obtain ⟨i4, m4, c4⟩ := foldl_max_attained (fun i => (GetBox bboxArray i).MaxX)
      (intRange s e) (-MaxFloat64) hne (fun i hi => (hm i hi).2.2.2.1.1)
    obtain ⟨i5, m5, c5⟩ := foldl_max_attained (fun i => (GetBox bboxArray i).MaxY)
      (intRange s e) (-MaxFloat64) hne (fun i hi => (hm i hi).2.2.2.2.1.1)
    obtain ⟨i6, m6, c6⟩ := foldl_max_attained (fun i => (GetBox bboxArray i).MaxZ)
      (intRange s e) (-MaxFloat64) hne (fun i hi => (hm i hi).2.2.2.2.2.1)
    rw [mem_intRange] at m1 m2 m3 m4 m5 m6
    refine ⟨?_, ⟨i1, m1.1, m1.2, by rw [f1, c1]⟩, ⟨i2, m2.1, m2.2, by rw [f2, c2]⟩,
      ⟨i3, m3.1, m3.2, by rw [f3, c3]⟩, ⟨i4, m4.1, m4.2, by rw [f4, c4]⟩,
      ⟨i5, m5.1, m5.2, by rw [f5, c5]⟩, ⟨i6, m6.1, m6.2, by rw [f6, c6]⟩⟩
    intro i hi1 hi2
    have hi : i ∈ intRange s e := (mem_intRange s e i).mpr ⟨hi1, hi2⟩
    have := b1 i hi; have := b2 i hi; have := b3 i hi
    have := b4 i hi; have := b5 i hi; have := b6 i hi
    rw [f1, f2, f3, f4, f5, f6]
    refine ⟨?_, ?_, ?_, ?_, ?_, ?_⟩ <;> linarith

/-- A use of `CalcExtents_min_max`: the three records of the buffer `axisDemo`, where the
least minimum on X is that of record 0 and the greatest maximum on X that of record 1. -/
theorem CalcExtents_min_max_witness :
    (CalcExtents (CalcBoundingBoxes axisDemo) 0 3 EPSILON).1.X ≤
        (GetBox (CalcBoundingBoxes axisDemo) 0).MinX - EPSILON ∧
      (GetBox (CalcBoundingBoxes axisDemo) 1).MaxX + EPSILON ≤
        (CalcExtents (CalcBoundingBoxes axisDemo) 0 3 EPSILON).2.X := by
  have h := ((CalcExtents_min_max (CalcBoundingBoxes axisDemo) 0 3 EPSILON).2 (by decide)
    (by decide) (by decide!) (by
      intro i h1 h2
      interval_cases i <;> (unfold Float64Range; decide!))).1
  exact ⟨(h 0 (by decide) (by decide)).1, (h 1 (by decide) (by decide)).2.2.2.1⟩

/-- Claim C19.  `CalcBoundingBoxes(vertexArray)` returns a buffer of exactly
`7 * (len(vertexArray) / 9)` scalars in which, for every triangle `i`, record `i` has id `i`
and its minimum and maximum are the componentwise minimum and maximum of the three vertices
of the triangle, read from scalars `[9 i, 9 i + 9)` of the vertex buffer. -/
theorem CalcBoundingBoxes_records (vertexArray : List ℚ) :
    (CalcBoundingBoxes vertexArray).length = 7 * (vertexArray.length / 9) ∧
    ∀ i, 0 ≤ i → i < triangleCount vertexArray →
      (GetBox (CalcBoundingBoxes vertexArray) i).TriangleID = i ∧
      (GetBox (CalcBoundingBoxes vertexArray) i).MinX =
        min (min (triangleAt vertexArray i).P0.X (triangleAt vertexArray i).P1.X)
          (triangleAt vertexArray i).P2.X ∧
      (GetBox (CalcBoundingBoxes vertexArray) i).MinY =
        min (min (triangleAt vertexArray i).P0.Y (triangleAt vertexArray i).P1.Y)
          (triangleAt vertexArray i).P2.Y ∧
      (GetBox (CalcBoundingBoxes vertexArray) i).MinZ =
        min (min (triangleAt vertexArray i).P0.Z (triangleAt vertexArray i).P1.Z)
          (triangleAt vertexArray i).P2.Z ∧
      (GetBox (CalcBoundingBoxes vertexArray) i).MaxX =
        max (max (triangleAt vertexArray i).P0.X (triangleAt vertexArray i).P1.X)
          (triangleAt vertexArray i).P2.X ∧
      (GetBox (CalcBoundingBoxes vertexArray) i).MaxY =
        max (max (triangleAt vertexArray i).P0.Y (triangleAt vertexArray i).P1.Y)
          (triangleAt vertexArray i).P2.Y ∧
      (GetBox (CalcBoundingBoxes vertexArray) i).MaxZ =
        max (max (triangleAt vertexArray i).P0.Z (triangleAt vertexArray i).P1.Z)
          (triangleAt vertexArray i).P2.Z ∧
      (triangleAt vertexArray i).P0 = ⟨rd vertexArray (i * 9), rd vertexArray (i * 9 + 1),
        rd vertexArray (i * 9 + 2)⟩ ∧
      (triangleAt vertexArray i).P1 = ⟨rd vertexArray (i * 9 + 3), rd vertexArray (i * 9 + 4),
        rd vertexArray (i * 9 + 5)⟩ ∧
      (triangleAt vertexArray i).P2 = ⟨rd vertexArray (i * 9 + 6), rd vertexArray (i * 9 + 7),
        rd vertexArray (i * 9 + 8)⟩ := by
  obtain ⟨h1, h2⟩ := CalcBoundingBoxes_spec vertexArray
  constructor
  · unfold triangleCount at h1
    omega
  · intro i hi0 hi1
    rw [h2 i hi0 hi1, triangleAt_eq]
    simp only [triangleBox, and_self]

/-! ## The shape of the built tree -/

theorem Inv_level {bbox : List ℚ} {m : Int} {work : List (List Bool)} {p : List Bool}
    {n : Node} {lo hi : Int} (h : Inv bbox m work p n lo hi) : n.Level = (p.length : Int) := by
  cases h <;> assumption

theorem Inv_shape {bbox : List ℚ} {m : Int} {work : List (List Bool)} {p : List Bool}
    {n : Node} {lo hi : Int} (h : Inv bbox m work p n lo hi) :
    (n.Node0 = Node.nil ∧ n.Node1 = Node.nil ∧ n.StartIndex = lo ∧ n.EndIndex = hi) ∨
    (n.Node0.isRef = true ∧ n.Node1.isRef = true ∧ n.StartIndex = -1 ∧ n.EndIndex = -1 ∧
      n.Node0.Level = n.Level + 1 ∧ n.Node1.Level = n.Level + 1) := by
  cases h with
  | leaf _ _ _ _ _ _ h0 h1 hl hE hC hF => exact Or.inl ⟨rfl, rfl, rfl, rfl⟩
  | inner _ mn mx l n0 n1 s k e h0 h1 h2 hl hE hC hI0 hI1 hB0 hB1 =>
    refine Or.inr ⟨Inv_isRef hI0, Inv_isRef hI1, rfl, rfl, ?_, ?_⟩
    · have e := Inv_level hI0
      rw [List.length_append, List.length_singleton] at e
      show n0.Level = l + 1
      rw [e, hl]
      push_cast
      rfl
    · have e := Inv_level hI1
      rw [List.length_append, List.length_singleton] at e
      show n1.Level = l + 1
      rw [e, hl]
      push_cast
      rfl

theorem Consecutive_append (a b c : Int) (l1 l2 : List (Int × Int))
    (h1 : Consecutive a l1 b) (h2 : Consecutive b l2 c) : Consecutive a (l1 ++ l2) c := by
  induction l1 generalizing a with
  | nil =>
    have e : a = b := h1
    rw [List.nil_append, e]
    exact h2
  | cons r rest ih =>
    obtain ⟨e1, e2, e3⟩ := h1
    exact ⟨e1, e2, ih r.2 e3⟩

theorem leafRanges_Inv {bbox : List ℚ} {m : Int} {work : List (List Bool)} {p : List Bool}
    {n : Node} {lo hi : Int} (h : Inv bbox m work p n lo hi) :
    Consecutive lo (leafRanges n) hi := by
  induction h with
  | leaf p mn mx s e l h0 h1 hl hE hC hF => exact ⟨rfl, h1, rfl⟩
  | inner p mn mx l n0 n1 s k e h0 h1 h2 hl hE hC hI0 hI1 hB0 hB1 ih0 ih1 =>
    have hr : n0.isRef = true := Inv_isRef hI0
    have : leafRanges (Node.ref mn mx (-1) (-1) l n0 n1) = leafRanges n0 ++ leafRanges n1 := by
      cases n0 with
      | nil => simp [Node.isRef] at hr
      | ref _ _ _ _ _ _ _ => rfl
    rw [this]
    exact Consecutive_append s k e _ _ ih0 ih1

/-- Claim C20.  In the tree built by `NewBVHFromVertexArray`, every node (the node at the end
of any path `q` from the root) is either a leaf, with `Node0` and `Node1` both nil and
`0 <= StartIndex <= EndIndex <= triangleCount`, or internal, with `Node0` and `Node1` both
non-nil and `StartIndex = EndIndex = -1`; the root has `Level` 0, the `Level` of a node is
the length of its path and that of a child is its parent's plus one; and the ranges of the
leaves, from `Node0` to `Node1`, are consecutive and cover `[0, triangleCount)`. -/
theorem node_shape_invariant (vertexArray : List ℚ) (maxTrianglesPerNode : Int) :
    (NewBVHFromVertexArray vertexArray maxTrianglesPerNode).rootNode.isRef = true ∧
    (NewBVHFromVertexArray vertexArray maxTrianglesPerNode).rootNode.Level = 0 ∧
    (∀ q : List Bool,
      ((NewBVHFromVertexArray vertexArray maxTrianglesPerNode).rootNode.get q).isRef = true →
      ((((NewBVHFromVertexArray vertexArray maxTrianglesPerNode).rootNode.get q).Node0 =
            Node.nil ∧
          ((NewBVHFromVertexArray vertexArray maxTrianglesPerNode).rootNode.get q).Node1 =
            Node.nil ∧
          0 ≤ ((NewBVHFromVertexArray vertexArray maxTrianglesPerNode).rootNode.get
            q).StartIndex ∧
          ((NewBVHFromVertexArray vertexArray maxTrianglesPerNode).rootNode.get q).StartIndex ≤
            ((NewBVHFromVertexArray vertexArray maxTrianglesPerNode).rootNode.get
              q).EndIndex ∧
          ((NewBVHFromVertexArray vertexArray maxTrianglesPerNode).rootNode.get q).EndIndex ≤
            triangleCount vertexArray) ∨
        (((NewBVHFromVertexArray vertexArray maxTrianglesPerNode).rootNode.get
            q).Node0.isRef = true ∧
          ((NewBVHFromVertexArray vertexArray maxTrianglesPerNode).rootNode.get
            q).Node1.isRef = true ∧
          ((NewBVHFromVertexArray vertexArray maxTrianglesPerNode).rootNode.get
            q).StartIndex = -1 ∧
          ((NewBVHFromVertexArray vertexArray maxTrianglesPerNode).rootNode.get
            q).EndIndex = -1 ∧
          ((NewBVHFromVertexArray vertexArray maxTrianglesPerNode).rootNode.get
            q).Node0.Level =
            ((NewBVHFromVertexArray vertexArray maxTrianglesPerNode).rootNode.get
              q).Level + 1 ∧
          ((NewBVHFromVertexArray vertexArray maxTrianglesPerNode).rootNode.get
            q).Node1.Level =
            ((NewBVHFromVertexArray vertexArray maxTrianglesPerNode).rootNode.get
              q).Level + 1)) ∧
      ((NewBVHFromVertexArray vertexArray maxTrianglesPerNode).rootNode.get q).Level =
        (q.length : Int)) ∧
    Consecutive 0 (leafRanges (NewBVHFromVertexArray vertexArray maxTrianglesPerNode).rootNode)
      (triangleCount vertexArray) := by
  obtain ⟨hI, _, _, _⟩ := NewBVHFromVertexArray_inv vertexArray maxTrianglesPerNode
  refine ⟨Inv_isRef hI.tree, Inv_level hI.tree, ?_, leafRanges_Inv hI.tree⟩
  intro q hq
  obtain ⟨lo, hi, hQ, hlo, hhi⟩ := Inv_get q hI.tree hq
  obtain ⟨b0, b1⟩ := Inv_bounds hQ
  refine ⟨?_, by simpa using Inv_level hQ⟩
  rcases Inv_shape hQ with ⟨a1, a2, a3, a4⟩ | h
  · exact Or.inl ⟨a1, a2, by omega, by omega, by omega⟩
  · exact Or.inr h

/-! ## Completeness of the triangle test and the effect of culling -/

theorem bary_scalars (a b c o d : Vector3) (t b1 b2 : ℚ)
    (h : rayPoint o d t = baryPoint a b c b1 b2) :
    triU a c o d = b1 * d.Dot (triNormal a b c) ∧
    triV a b o d = b2 * d.Dot (triNormal a b c) ∧
    triW a b c o = -t * d.Dot (triNormal a b c) := by
  obtain ⟨ax, ay, az⟩ := a
  obtain ⟨bx, by_, bz⟩ := b
  obtain ⟨cx, cy, cz⟩ := c
  obtain ⟨ox, oy, oz⟩ := o
  obtain ⟨dx, dy, dz⟩ := d
  simp only [rayPoint, baryPoint, Vector3.mk.injEq] at h
  obtain ⟨hx, hy, hz⟩ := h
  simp only [triNormal, triU, triV, triW, Vector3.SubVectors, Vector3.CrossVectors,
    Vector3.Cross, Vector3.Dot]
  refine ⟨?_, ?_, ?_⟩
  · linear_combination ((cy - ay) * dz - (cz - az) * dy) * hx +
      ((cz - az) * dx - (cx - ax) * dz) * hy + ((cx - ax) * dy - (cy - ay) * dx) * hz
  · linear_combination (dy * (bz - az) - dz * (by_ - ay)) * hx +
      (dz * (bx - ax) - dx * (bz - az)) * hy + (dx * (by_ - ay) - dy * (bx - ax)) * hz
  · linear_combination ((by_ - ay) * (cz - az) - (bz - az) * (cy - ay)) * hx +
      ((bz - az) * (cx - ax) - (bx - ax) * (cz - az)) * hy +
      ((bx - ax) * (cy - ay) - (by_ - ay) * (cx - ax)) * hz

theorem IntersectRayTriangle_complete (a b c o d : Vector3) (cull : Bool) (t b1 b2 : ℚ)
    (hN : d.Dot (triNormal a b c) ≠ 0) (ht : 0 ≤ t) (h1 : 0 ≤ b1) (h2 : 0 ≤ b2)
    (h3 : b1 + b2 ≤ 1) (hP : rayPoint o d t = baryPoint a b c b1 b2)
    (hc : cull = false ∨ d.Dot (triNormal a b c) < 0) :
    IntersectRayTriangle a b c o d cull = some (rayPoint o d t) := by
  obtain ⟨eU, eV, eW⟩ := bary_scalars a b c o d t b1 b2 hP
  rw [IntersectRayTriangle_eq, eU, eV, eW]
  generalize d.Dot (triNormal a b c) = N at hN hc ⊢
  rcases lt_or_gt_of_ne hN with hneg | hpos
  · have hn : ¬ 0 < N := not_lt.mpr hneg.le
    have c1 : ¬ 0 < b1 * N := not_lt.mpr (mul_nonpos_of_nonneg_of_nonpos h1 hneg.le)
    have c2 : ¬ 0 < b2 * N := not_lt.mpr (mul_nonpos_of_nonneg_of_nonpos h2 hneg.le)
    have c3 : ¬ b1 * N + b2 * N < N := by
      rw [not_lt]
      nlinarith
    have c4 : ¬ -t * N < 0 := by
      rw [not_lt]
      nlinarith
    have e : -t * N / -N = t := by
      field_simp
    rw [if_neg hn, if_pos hneg, if_neg (by tauto), e]
  · have hcf : cull = false := by
      rcases hc with hc | hc
      · exact hc
      · exact absurd hpos (not_lt.mpr hc.le)
    have c1 : ¬ b1 * N < 0 := not_lt.mpr (mul_nonneg h1 hpos.le)
    have c2 : ¬ b2 * N < 0 := not_lt.mpr (mul_nonneg h2 hpos.le)
    have c3 : ¬ N < b1 * N + b2 * N := by
      rw [not_lt]
      nlinarith
    have c4 : ¬ 0 < -t * N := by
      rw [not_lt]
      nlinarith
    have e : -(-t * N) / N = t := by
      field_simp
    rw [if_pos hpos, if_neg (by simp [hcf]), if_neg (by tauto), e]

/-- Claim C21.  Completeness of the triangle test: for a triangle `a`, `b`, `c` with normal
`n = (b - a) × (c - a)` and a ray with `direction · n ≠ 0`, if there are `t ≥ 0`, `b1 ≥ 0`,
`b2 ≥ 0` with `b1 + b2 ≤ 1` and `origin + t direction = a + b1 (b - a) + b2 (c - a)`, and
backface culling is off or `direction · n < 0`, then `IntersectRayTriangle` returns a point,
and that point is `origin + t direction`. -/
theorem triangle_test_complete (a b c rayOrigin rayDirection : Vector3)
    (backfaceCulling : Bool) (t b1 b2 : ℚ)
    (hN : rayDirection.Dot
      (Vector3.CrossVectors (Vector3.SubVectors b a) (Vector3.SubVectors c a)) ≠ 0)
    (ht : 0 ≤ t) (h1 : 0 ≤ b1) (h2 : 0 ≤ b2) (h3 : b1 + b2 ≤ 1)
    (hP : rayPoint rayOrigin rayDirection t = baryPoint a b c b1 b2)
    (hc : backfaceCulling = false ∨ rayDirection.Dot
      (Vector3.CrossVectors (Vector3.SubVectors b a) (Vector3.SubVectors c a)) < 0) :
    IntersectRayTriangle a b c rayOrigin rayDirection backfaceCulling =
      some (rayPoint rayOrigin rayDirection t) :=
  IntersectRayTriangle_complete a b c rayOrigin rayDirection backfaceCulling t b1 b2 hN ht h1
    h2 h3 hP hc

/-- A use of `triangle_test_complete`: the second triangle of `demo1` and the ray of `demo1`,
which meets it at `t = 1000` with `b1 = 747/1000`, `b2 = 3/1000`, culling on. -/
theorem triangle_test_complete_witness :
    IntersectRayTriangle ⟨0, 0, 0⟩ ⟨2000, 0, 0⟩ ⟨2000, 1000, 0⟩ ⟨1500, 3, 1000⟩ ⟨0, 0, -1⟩
      true = some ⟨1500, 3, 0⟩ :=
  (triangle_test_complete ⟨0, 0, 0⟩ ⟨2000, 0, 0⟩ ⟨2000, 1000, 0⟩ ⟨1500, 3, 1000⟩ ⟨0, 0, -1⟩
    true 1000 (747 / 1000) (3 / 1000) (by decide!) (by decide!) (by decide!) (by decide!)
    (by decide!) (by decide!) (Or.inr (by decide!))).trans (by decide!)

theorem bitLength_zero (fuel : Nat) : bitLength fuel 0 = 0 := by
  cases fuel <;> simp [bitLength]

theorem bitLength_spec (fuel n : Nat) (h : n ≤ fuel) (hn : 0 < n) :
    1 ≤ bitLength fuel n ∧ 2 ^ (bitLength fuel n - 1) ≤ n ∧ n < 2 ^ bitLength fuel n := by
  induction fuel generalizing n with
  | zero => omega
  | succ f ih =>
    have hne : n ≠ 0 := by omega
    simp only [bitLength, hne, if_false]
    by_cases h2 : n / 2 = 0
    · have h1 : n = 1 := by omega
      rw [h2, bitLength_zero]
      subst h1
      simp
    · obtain ⟨a, b, c⟩ := ih (n / 2) (by omega) (by omega)
      refine ⟨by omega, ?_, ?_⟩
      · rw [Nat.add_sub_cancel]
        have e : bitLength f (n / 2) = (bitLength f (n / 2) - 1) + 1 := by omega
        rw [e, pow_succ]
        omega
      · rw [pow_succ]
        omega

theorem pow2_eq (k : Int) : pow2 k = (2 : ℚ) ^ k := by
  unfold pow2
  split
  · rename_i h
    obtain ⟨n, rfl⟩ := Int.eq_ofNat_of_zero_le h
    simp
  · rename_i h
    obtain ⟨n, hn⟩ := Int.eq_ofNat_of_zero_le (show 0 ≤ -k by omega)
    have hk : k = -(n : Int) := by omega
    subst hk
    simp

theorem binExp_bounds (q : ℚ) (hq : 0 < q) (a b : Nat)
    (n2 : 2 ^ (a - 1) ≤ q.num.natAbs) (n3 : q.num.natAbs < 2 ^ a) (n1 : 1 ≤ a)
    (d2 : 2 ^ (b - 1) ≤ q.den) (d3 : q.den < 2 ^ b) (d1 : 1 ≤ b) :
    (2 : ℚ) ^ ((a : Int) - (b : Int) - 1) ≤ q ∧ q < (2 : ℚ) ^ ((a : Int) - (b : Int) + 1) := by
  have hnum : 0 < q.num := Rat.num_pos.mpr hq
  have hden : 0 < q.den := q.den_pos
  have hqe : q = (q.num.natAbs : ℚ) / (q.den : ℚ) := by
    have h1 : ((q.num.natAbs : Int) : ℚ) = (q.num : ℚ) := by
      rw [Int.natAbs_of_nonneg hnum.le]
    rw [← Int.cast_natCast, h1]
    exact (Rat.num_div_den q).symm
  have hd0 : (0 : ℚ) < (q.den : ℚ) := by exact_mod_cast hden
  have N2 : ((2 : ℚ) ^ (a - 1)) ≤ (q.num.natAbs : ℚ) := by exact_mod_cast n2
  have N3 : (q.num.natAbs : ℚ) < (2 : ℚ) ^ a := by exact_mod_cast n3
  have D2 : ((2 : ℚ) ^ (b - 1)) ≤ (q.den : ℚ) := by exact_mod_cast d2
  have D3 : (q.den : ℚ) < (2 : ℚ) ^ b := by exact_mod_cast d3
  have two : (0 : ℚ) < 2 := by norm_num
  constructor
  · have e : (2 : ℚ) ^ ((a : Int) - (b : Int) - 1) = (2 : ℚ) ^ (a - 1) / (2 : ℚ) ^ b := by
      have : ((a : Int) - (b : Int) - 1) = ((a - 1 : ℕ) : Int) - (b : Int) := by omega
      rw [this, zpow_sub₀ two.ne', zpow_natCast, zpow_natCast]
    rw [e, hqe, div_le_div_iff₀ (by positivity) hd0]
    calc (2 : ℚ) ^ (a - 1) * (q.den : ℚ) ≤ (q.num.natAbs : ℚ) * (q.den : ℚ) := by
          apply mul_le_mul_of_nonneg_right N2 hd0.le
      _ ≤ (q.num.natAbs : ℚ) * 2 ^ b := by
          apply mul_le_mul_of_nonneg_left D3.le (by positivity)
  · have e : (2 : ℚ) ^ ((a : Int) - (b : Int) + 1) = (2 : ℚ) ^ a / (2 : ℚ) ^ (b - 1) := by
      have : ((a : Int) - (b : Int) + 1) = (a : Int) - ((b - 1 : ℕ) : Int) := by omega
      rw [this, zpow_sub₀ two.ne', zpow_natCast, zpow_natCast]
    rw [e, hqe, div_lt_div_iff₀ hd0 (by positivity)]
    calc (q.num.natAbs : ℚ) * 2 ^ (b - 1) < 2 ^ a * 2 ^ (b - 1) := by
          apply mul_lt_mul_of_pos_right N3 (by positivity)
      _ ≤ 2 ^ a * (q.den : ℚ) := by
          apply mul_le_mul_of_nonneg_left D2 (by positivity)

theorem binExp_spec (q : ℚ) (hq : 0 < q) :
    pow2 (binExp q) ≤ q ∧ q < pow2 (binExp q + 1) := by
  have hnum : 0 < q.num := Rat.num_pos.mpr hq
  obtain ⟨n1, n2, n3⟩ := bitLength_spec q.num.natAbs q.num.natAbs (le_refl _)
    (Int.natAbs_pos.mpr hnum.ne')
  obtain ⟨d1, d2, d3⟩ := bitLength_spec q.den q.den (le_refl _) q.den_pos
  obtain ⟨hlo, hup⟩ := binExp_bounds q hq _ _ n2 n3 n1 d2 d3 d1
  unfold binExp
  simp only []
  split
  · rename_i h
    exact ⟨h, by rw [pow2_eq]; exact hup⟩
  · rename_i h
    rw [not_le] at h
    refine ⟨by rw [pow2_eq]; exact hlo, ?_⟩
    rw [sub_add_cancel]
    exact h

theorem roundEven_spec (m : ℚ) :
    (roundEven m : ℚ) - m ≤ 1 / 2 ∧ m - (roundEven m : ℚ) ≤ 1 / 2 := by
  have h1 := Int.floor_le m
  have h2 := Int.lt_floor_add_one m
  unfold roundEven
  split_ifs <;> push_cast <;> constructor <;> linarith

theorem pow2_pos (k : Int) : 0 < pow2 k := by
  rw [pow2_eq]
  positivity

theorem round64_spec (q r : ℚ) (hq : q ≠ 0) (h : round64 q = F64.fin r) :
    (∃ n : Int, r = (n : ℚ) * pow2 (max (binExp (if 0 < q then q else -q)) (-1022) - 52)) ∧
    r - q ≤ pow2 (max (binExp (if 0 < q then q else -q)) (-1022) - 52) / 2 ∧
    q - r ≤ pow2 (max (binExp (if 0 < q then q else -q)) (-1022) - 52) / 2 := by
  unfold round64 at h
  rw [if_neg hq] at h
  simp only [] at h
  have hu := pow2_pos (max (binExp (if 0 < q then q else -q)) (-1022) - 52)
  generalize pow2 (max (binExp (if 0 < q then q else -q)) (-1022) - 52) = ulp at h hu ⊢
  obtain ⟨s1, s2⟩ := roundEven_spec ((if 0 < q then q else -q) / ulp)
  generalize roundEven ((if 0 < q then q else -q) / ulp) = n at h s1 s2
  split at h
  · split at h <;> exact absurd h (by simp)
  · have hr := F64.fin.inj h
    by_cases hp : 0 < q
    · simp only [hp, if_true] at hr s1 s2
      subst hr
      have e : q = q / ulp * ulp := (div_mul_cancel₀ q hu.ne').symm
      generalize q / ulp = x at e s1 s2
      refine ⟨⟨n, rfl⟩, ?_, ?_⟩ <;> rw [e] <;> nlinarith
    · simp only [hp, if_false] at hr s1 s2
      subst hr
      have e : -q = -q / ulp * ulp := (div_mul_cancel₀ (-q) hu.ne').symm
      generalize -q / ulp = x at e s1 s2
      have e2 : q = -(x * ulp) := by linarith
      refine ⟨⟨-n, by push_cast; ring⟩, ?_, ?_⟩ <;> rw [e2] <;> nlinarith

/-! ## The ray query in float64 arithmetic -/

theorem traverse64_eq (bbox : List ℚ) (o : Vector3) (inv : Vector3F) (fuel : Nat)
    (stack : List Node) (acc : List Int) (hf : (stack.map Node.size).sum ≤ fuel)
    (hr : ∀ n ∈ stack, n.isRef = true) :
    traverse64 bbox o inv fuel stack acc =
      acc ++ (stack.flatMap (collectSlots64 o inv)).map (fun i => toInt (rd bbox (i * 7))) := by
  induction fuel generalizing stack acc with
  | zero =>
    cases stack with
    | nil => simp [traverse64]
    | cons n rest =>
      exfalso
      have := size_pos_of_isRef (hr n (List.mem_cons_self _ _))
      simp only [List.map_cons, List.sum_cons] at hf
      omega
  | succ fuel ih =>
    cases stack with
    | nil => simp [traverse64]
    | cons n rest =>
      cases n with
      | nil =>
        exfalso
        have := hr Node.nil (List.mem_cons_self _ _)
        simp [Node.isRef] at this
      | ref mn mx s e l n0 n1 =>
        simp only [List.map_cons, List.sum_cons, Node.size] at hf
        have hrest : ∀ n ∈ rest, n.isRef = true := fun n hn => hr n (List.mem_cons_of_mem _ hn)
        unfold traverse64
        by_cases hb : IntersectNodeBox64 o inv (Node.ref mn mx s e l n0 n1) = true
        · simp only [hb, if_true, Node.Node0, Node.Node1, Node.StartIndex, Node.EndIndex]
          rw [ih]
          · simp only [List.flatMap_cons, collectSlots64, hb, if_true, List.map_append,
              List.append_assoc]
            congr 2
            cases n1 <;> cases n0 <;>
              simp [Node.isRef, collectSlots64, List.flatMap_cons]
          · cases n1 <;> cases n0 <;>
              simp only [Node.isRef, if_true, Bool.false_eq_true, if_false, List.map_cons,
                List.sum_cons, Node.size] <;> simp only [Node.size] at hf <;> omega
          · intro n hn
            cases n1 <;> cases n0 <;>
              simp only [Node.isRef, if_true, Bool.false_eq_true, if_false,
                List.mem_cons] at hn
            · exact hrest n hn
            · rcases hn with rfl | hn
              · rfl
              · exact hrest n hn
            · rcases hn with rfl | hn
              · rfl
              · exact hrest n hn
            · rcases hn with rfl | rfl | hn
              · rfl
              · rfl
              · exact hrest n hn
        · simp only [hb, Bool.false_eq_true, if_false]
          rw [ih _ _ (by omega) hrest]
          simp [List.flatMap_cons, collectSlots64, hb]

theorem candidates64_eq (bvh : BVH) (o d : Vector3) (h : bvh.rootNode.isRef = true) :
    candidates64 bvh o d = (collectSlots64 o (invDirection64 d) bvh.rootNode).map
      (fun i => (GetBox bvh.bboxArray i).TriangleID) := by
  unfold candidates64
  rw [traverse64_eq _ _ _ _ _ _ (by simp) (by simpa using h)]
  simp only [List.nil_append, List.flatMap_cons, List.flatMap_nil, List.append_nil]
  rfl

theorem testCandidate64_hits (va : List ℚ) (o d : Vector3) (cull : Bool) (st : TestState64)
    (i : Int) :
    (testCandidate64 va o d cull st i).hits =
      st.hits ++ ((hitOf64 va o d cull i).map (fun P => (i, P))).toList := by
  have key : ∀ (r : Option Vector3F) (a b c : Vector3),
      (match r with
        | some intersectionPoint =>
          ({ a := a, b := b, c := c, hits := st.hits ++ [(i, intersectionPoint)] } : TestState64)
        | none => { a := a, b := b, c := c, hits := st.hits }).hits =
      st.hits ++ (r.map (fun P => (i, P))).toList := by
    intro r a b c
    cases r
    · exact (List.append_nil _).symm
    · rfl
  exact key (hitOf64 va o d cull i) _ _ _

theorem foldl_testCandidate64_hits (va : List ℚ) (o d : Vector3) (cull : Bool)
    (cands : List Int) (st : TestState64) :
    (cands.foldl (testCandidate64 va o d cull) st).hits =
      st.hits ++ cands.filterMap (fun i => (hitOf64 va o d cull i).map (fun P => (i, P))) := by
  induction cands generalizing st with
  | nil => simp
  | cons i rest ih =>
    rw [List.foldl_cons, ih, testCandidate64_hits, List.filterMap_cons, List.append_assoc]
    congr 1
    cases hitOf64 va o d cull i <;> rfl

theorem IntersectRay64_hits (bvh : BVH) (o d : Vector3) (cull : Bool) :
    (IntersectRay64 bvh o d cull).map (fun r => (r.TriangleIndex, r.IntersectionPoint)) =
      (candidates64 bvh o d).filterMap
        (fun i => (hitOf64 bvh.vertexArray o d cull i).map (fun P => (i, P))) := by
  simp only [IntersectRay64, List.map_map, foldl_testCandidate64_hits, List.nil_append]
  exact List.map_id _

theorem IntersectRay64_nil (bvh : BVH) (o d : Vector3) (cull : Bool)
    (h : ∀ i, hitOf64 bvh.vertexArray o d cull i = none) : IntersectRay64 bvh o d cull = [] := by
  have e := IntersectRay64_hits bvh o d cull
  have e2 : (candidates64 bvh o d).filterMap
      (fun i => (hitOf64 bvh.vertexArray o d cull i).map (fun P => (i, P))) = [] := by
    rw [List.filterMap_eq_nil_iff]
    intro i _
    rw [h i]
    rfl
  rw [e2] at e
  exact List.map_eq_nil_iff.mp e

theorem rd_outside (a : List ℚ) (j : Int) (h : j < 0 ∨ (a.length : Int) ≤ j) : rd a j = 0 := by
  unfold rd
  split
  · apply List.getD_eq_default
    omega
  · rfl

theorem triangleAt_outside (va : List ℚ) (i : Int) (h : i < 0 ∨ (va.length : Int) ≤ i * 9) :
    triangleAt va i = ⟨⟨0, 0, 0⟩, ⟨0, 0, 0⟩, ⟨0, 0, 0⟩⟩ := by
  rw [triangleAt_eq]
  rw [rd_outside va (i * 9) (by omega), rd_outside va (i * 9 + 1) (by omega),
    rd_outside va (i * 9 + 2) (by omega), rd_outside va (i * 9 + 3) (by omega),
    rd_outside va (i * 9 + 4) (by omega), rd_outside va (i * 9 + 5) (by omega),
    rd_outside va (i * 9 + 6) (by omega), rd_outside va (i * 9 + 7) (by omega),
    rd_outside va (i * 9 + 8) (by omega)]

theorem edge_hits_none (z dz : ℚ) (i : Int)
    (h0 : hitOf64 [5, -3, 0, 0, 4, 0, -3, 2, 0] ⟨-near2_4, near2_4, z⟩ ⟨0, 0, dz⟩ false 0 = none)
    (h1 : IntersectRayTriangle64 (Vector3.toF64 ⟨0, 0, 0⟩) (Vector3.toF64 ⟨0, 0, 0⟩)
      (Vector3.toF64 ⟨0, 0, 0⟩) (Vector3.toF64 ⟨-near2_4, near2_4, z⟩)
      (Vector3.toF64 ⟨0, 0, dz⟩) false = none) :
    hitOf64 [5, -3, 0, 0, 4, 0, -3, 2, 0] ⟨-near2_4, near2_4, z⟩ ⟨0, 0, dz⟩ false i = none := by
  by_cases hi : i = 0
  · rw [hi]
    exact h0
  · unfold hitOf64
    rw [triangleAt_outside _ i (by
      simp only [List.length_cons, List.length_nil]
      omega)]
    exact h1

/-- Claim C10 fails as stated, in `float64` arithmetic.  The triangle `(5,-3,0)`, `(0,4,0)`,
`(-3,2,0)` lies in the plane `z = 0` with normal in `+z`, and the point `p = (-x, x, 0)`, for
`x` the `float64` nearest to `2.4`, is strictly inside it.  The query evaluated exactly gives
one record for the ray from `(-x, x, 1)` along `(0, 0, -1)` without culling, but with every
operation rounded to `float64` the triangle test computes `DdQxE2 + DdE1xQ = 31 + 2^-47`,
which is greater than `DdN = 31`, and returns nil: `IntersectRay` returns no record, for the
ray from above and for the ray from below, whatever tree over the vertex buffer it searches. -/
theorem backface_toggle_float64 :
    edgeTriangle.P0.Z = 0 ∧ edgeTriangle.P1.Z = 0 ∧ edgeTriangle.P2.Z = 0 ∧
    0 < (triNormal edgeTriangle.P0 edgeTriangle.P1 edgeTriangle.P2).Z ∧
    round64 (12 / 5) = F64.fin near2_4 ∧ round64 near2_4 = F64.fin near2_4 ∧
    (0 : ℚ) < 13961158844848537 / 69805794224242688 ∧
    (0 : ℚ) < 27922317689697075 / 34902897112121344 ∧
    (13961158844848537 / 69805794224242688 + 27922317689697075 / 34902897112121344 : ℚ) < 1 ∧
    (⟨-near2_4, near2_4, 0⟩ : Vector3) = baryPoint edgeTriangle.P0 edgeTriangle.P1
      edgeTriangle.P2 (13961158844848537 / 69805794224242688)
      (27922317689697075 / 34902897112121344) ∧
    (NewBVH [edgeTriangle] 7).vertexArray = [5, -3, 0, 0, 4, 0, -3, 2, 0] ∧
    (IntersectRay (NewBVH [edgeTriangle] 7) ⟨-near2_4, near2_4, 1⟩ ⟨0, 0, -1⟩ false).length
      = 1 ∧
    F64.add64 (F64.fin (436286213901517 / 70368744177664))
      (F64.fin (3490289711212135 / 140737488355328)) = F64.fin (31 + 1 / 2 ^ 47) ∧
    (∀ bvh : BVH, bvh.vertexArray = [5, -3, 0, 0, 4, 0, -3, 2, 0] →
      IntersectRay64 bvh ⟨-near2_4, near2_4, 1⟩ ⟨0, 0, -1⟩ false = []) ∧
    (∀ bvh : BVH, bvh.vertexArray = [5, -3, 0, 0, 4, 0, -3, 2, 0] →
      IntersectRay64 bvh ⟨-near2_4, near2_4, -1⟩ ⟨0, 0, 1⟩ false = []) := by
  refine ⟨by decide!, by decide!, by decide!, by decide!, by decide!, by decide!, by decide!,
    by decide!, by decide!, by decide!, by decide!, by decide!, by decide!, ?_, ?_⟩
  · intro bvh hv
    apply IntersectRay64_nil
    intro i
    rw [hv]
    exact edge_hits_none 1 (-1) i (by decide!) (by decide!)
  · intro bvh hv
    apply IntersectRay64_nil
    intro i
    rw [hv]
    exact edge_hits_none (-1) 1 i (by decide!) (by decide!)

end bvhtree
